import Mathlib

/-!
Verification development for the red-black tree core of gc_lib
(src/src/gc_rb_tree.c, src/include/gc_rb_tree.h).

Modelling conventions (shallow embedding of the C code):
* Pointers are natural numbers; the number 0 models the C NULL pointer.
* Every RBTreeNode is a record stored in a heap (a function from node ids
  to node records).  The sentinel node ("nil") is an ordinary allocated id,
  recorded in the tree structure just like the tree->nil field; it is never
  the number 0, mirroring the fact that the sentinel is a real allocation.
* Payloads (void*) are natural numbers as well; the payload 0 models a
  stored NULL payload and is also the "not found" marker that
  gc_rb_tree_find returns.
* The caller supplied comparator is an arbitrary function to Int, like the
  C RBTreeCompareFunc returning a negative, zero or positive int.
* C while-loops become fuel-indexed recursions.  Each operation passes
  tree.next (the bump-allocation counter, strictly larger than the number
  of allocated nodes) as fuel; on well-formed trees every loop of the C
  code terminates within that bound, and the theorems below never rely on
  the fuel-exhaustion branch.
* Allocation never fails in the model (the C code aborts on failure).
-/

section Model

/-- Node color, as in the C enum { RED, BLACK }. -/
inductive Color where
  | red
  | black
deriving DecidableEq, Repr

/-- RBTreeNode: payload pointer, color, and left/right/parent links
(node ids; the sentinel id plays the role of the shared nil node). -/
structure RBNode where
  data : Nat
  color : Color
  left : Nat
  right : Nat
  parent : Nat
deriving DecidableEq, Repr

/-- One heap cell update (a single C pointer-field assignment acts through
this on the node heap). -/
def hupd (h : Nat → RBNode) (i : Nat) (n : RBNode) : Nat → RBNode :=
  fun j => if j = i then n else h j

/-- RBTree: root and sentinel ids, the comparator, the node heap, and the
bump allocator counter (ids 1 .. next-1 are allocated, 0 models NULL). -/
structure RBTree where
  heap : Nat → RBNode
  next : Nat
  root : Nat
  nil : Nat
  cmp : Nat → Nat → Int

/-- node->left = v -/
def writeLeft (t : RBTree) (i v : Nat) : RBTree :=
  { t with heap := hupd t.heap i { t.heap i with left := v } }

/-- node->right = v -/
def writeRight (t : RBTree) (i v : Nat) : RBTree :=
  { t with heap := hupd t.heap i { t.heap i with right := v } }

/-- node->parent = v -/
def writeParent (t : RBTree) (i v : Nat) : RBTree :=
  { t with heap := hupd t.heap i { t.heap i with parent := v } }

/-- node->color = c -/
def writeColor (t : RBTree) (i : Nat) (c : Color) : RBTree :=
  { t with heap := hupd t.heap i { t.heap i with color := c } }

/-- RBTreeStatus values from gc_rb_tree.h. -/
def GC_RB_TREE_OK : Int := 0
def GC_RB_TREE_ERR_BST : Int := 1
def GC_RB_TREE_ERR_RED : Int := 2
def GC_RB_TREE_ERR_BLACK_HEIGHT : Int := 3
def GC_RB_TREE_ERR_INVALID_TREE : Int := -1
def GC_RB_TREE_ERR_NIL_COLOR : Int := -2
def GC_RB_TREE_ERR_GENERIC : Int := -4

/-- RBTreeRangeFlags and the slice direction flag. -/
def GC_RB_RANGE_INCLUSIVE_LOW : Nat := 1
def GC_RB_RANGE_INCLUSIVE_HIGH : Nat := 2
def GC_RB_TREE_SLICE_DESCENDING : Nat := 32768

/-- gc_rb_tree_create: allocates the sentinel (BLACK, self-referential
links) at id 1 and an empty tree whose root is the sentinel.  The C code
leaves nil->data uninitialized; the model uses 0, and no operation of the
source ever reads the sentinel payload. -/
def gc_rb_tree_create (cmp : Nat → Nat → Int) : RBTree :=
  { heap := hupd (fun _ => { data := 0, color := Color.black, left := 0, right := 0, parent := 0 })
      1 { data := 0, color := Color.black, left := 1, right := 1, parent := 1 }
    next := 2
    root := 1
    nil := 1
    cmp := cmp }

/-- gc_rb_tree_left_rotate, statement by statement; every field read goes
through the current heap exactly as the C pointer dereferences do. -/
def gc_rb_tree_left_rotate (t : RBTree) (x : Nat) : RBTree :=
  let y := (t.heap x).right
  -- x->right = y->left
  let t := writeRight t x (t.heap y).left
  -- if (y->left != nil) y->left->parent = x
  let t := if (t.heap y).left ≠ t.nil then writeParent t (t.heap y).left x else t
  -- y->parent = x->parent
  let t := writeParent t y (t.heap x).parent
  -- re-link x's parent slot (or the root)
  let t :=
    if (t.heap x).parent = t.nil then { t with root := y }
    else if x = (t.heap (t.heap x).parent).left then writeLeft t (t.heap x).parent y
    else writeRight t (t.heap x).parent y
  -- y->left = x; x->parent = y
  let t := writeLeft t y x
  writeParent t x y

/-- gc_rb_tree_right_rotate (mirror of the left rotation). -/
def gc_rb_tree_right_rotate (t : RBTree) (y : Nat) : RBTree :=
  let x := (t.heap y).left
  -- y->left = x->right
  let t := writeLeft t y (t.heap x).right
  -- if (x->right != nil) x->right->parent = y
  let t := if (t.heap x).right ≠ t.nil then writeParent t (t.heap x).right y else t
  -- x->parent = y->parent
  let t := writeParent t x (t.heap y).parent
  let t :=
    if (t.heap y).parent = t.nil then { t with root := x }
    else if y = (t.heap (t.heap y).parent).right then writeRight t (t.heap y).parent x
    else writeLeft t (t.heap y).parent x
  -- x->right = y; y->parent = x
  let t := writeRight t x y
  writeParent t y x

/-- The while-loop of gc_rb_tree_insert_fixup.  Each iteration consumes
one unit of fuel; the C loop terminates after at most height-many
iterations on well-formed trees, so tree.next fuel is always enough. -/
def gc_rb_tree_insert_fixup_go : Nat → RBTree → Nat → RBTree
  | 0, t, _ => t
  | fuel+1, t, k =>
    if (t.heap (t.heap k).parent).color = Color.red then
      if (t.heap k).parent = (t.heap (t.heap (t.heap k).parent).parent).left then
        let uncle := (t.heap (t.heap (t.heap k).parent).parent).right
        if (t.heap uncle).color = Color.red then
          let t := writeColor t (t.heap k).parent Color.black
          let t := writeColor t uncle Color.black
          let t := writeColor t (t.heap (t.heap k).parent).parent Color.red
          gc_rb_tree_insert_fixup_go fuel t ((t.heap (t.heap k).parent).parent)
        else
          let tk :
              RBTree × Nat :=
            if k = (t.heap (t.heap k).parent).right then
              let k := (t.heap k).parent
              (gc_rb_tree_left_rotate t k, k)
            else (t, k)
          let t := tk.1
          let k := tk.2
          let t := writeColor t (t.heap k).parent Color.black
          let t := writeColor t (t.heap (t.heap k).parent).parent Color.red
          let t := gc_rb_tree_right_rotate t ((t.heap (t.heap k).parent).parent)
          gc_rb_tree_insert_fixup_go fuel t k
      else
        let uncle := (t.heap (t.heap (t.heap k).parent).parent).left
        if (t.heap uncle).color = Color.red then
          let t := writeColor t (t.heap k).parent Color.black
          let t := writeColor t uncle Color.black
          let t := writeColor t (t.heap (t.heap k).parent).parent Color.red
          gc_rb_tree_insert_fixup_go fuel t ((t.heap (t.heap k).parent).parent)
        else
          let tk :
              RBTree × Nat :=
            if k = (t.heap (t.heap k).parent).left then
              let k := (t.heap k).parent
              (gc_rb_tree_right_rotate t k, k)
            else (t, k)
          let t := tk.1
          let k := tk.2
          let t := writeColor t (t.heap k).parent Color.black
          let t := writeColor t (t.heap (t.heap k).parent).parent Color.red
          let t := gc_rb_tree_left_rotate t ((t.heap (t.heap k).parent).parent)
          gc_rb_tree_insert_fixup_go fuel t k
    else t

/-- gc_rb_tree_insert_fixup: the loop followed by tree->root->color = BLACK. -/
def gc_rb_tree_insert_fixup (t : RBTree) (k : Nat) : RBTree :=
  let t := gc_rb_tree_insert_fixup_go t.next t k
  writeColor t t.root Color.black

/-- The BST descent loop of gc_rb_tree_insert: x walks down, y trails one
step behind; the comparator is called on (z->data, x->data). -/
def gc_rb_tree_insert_descend (t : RBTree) (d : Nat) : Nat → Nat → Nat → Nat
  | 0, _, y => y
  | fuel+1, x, y =>
    if x ≠ t.nil then
      if t.cmp d (t.heap x).data < 0 then
        gc_rb_tree_insert_descend t d fuel (t.heap x).left x
      else
        gc_rb_tree_insert_descend t d fuel (t.heap x).right x
    else y

/-- gc_rb_tree_insert: allocate a RED node with nil children (as
gc_rb_tree_alloc_node does), descend, link under y (ties take the
right branch), then run the fixup. -/
def gc_rb_tree_insert (t : RBTree) (data : Nat) : RBTree :=
  let z := t.next
  let t :=
    { t with
      heap := hupd t.heap z
        { data := data, color := Color.red, left := t.nil, right := t.nil, parent := t.nil }
      next := t.next + 1 }
  let y := gc_rb_tree_insert_descend t ((t.heap z).data) t.next t.root t.nil
  let t := writeParent t z y
  let t :=
    if y = t.nil then { t with root := z }
    else if t.cmp (t.heap z).data (t.heap y).data < 0 then writeLeft t y z
    else writeRight t y z
  gc_rb_tree_insert_fixup t z

/-- The descent loop of gc_rb_tree_search. -/
def gc_rb_tree_search_go (t : RBTree) (key : Nat) : Nat → Nat → Nat
  | 0, x => x
  | fuel+1, x =>
    if x ≠ t.nil then
      if t.cmp key (t.heap x).data = 0 then x
      else if t.cmp key (t.heap x).data < 0 then gc_rb_tree_search_go t key fuel (t.heap x).left
      else gc_rb_tree_search_go t key fuel (t.heap x).right
    else x

/-- gc_rb_tree_search: descend by the comparator; returns the sentinel id
when the key is absent (the C code returns tree->nil, never NULL). -/
def gc_rb_tree_search (t : RBTree) (key : Nat) : Nat :=
  gc_rb_tree_search_go t key t.next t.root

/-- gc_rb_tree_find: payload of the found node, or NULL (0) when search
came back with the sentinel. -/
def gc_rb_tree_find (t : RBTree) (key : Nat) : Nat :=
  let node := gc_rb_tree_search t key
  if node ≠ t.nil then (t.heap node).data else 0

/-- gc_rb_tree_transplant: replace node's slot in its parent (or the
root) by v, then v->parent = node->parent.  Note that v may be the
sentinel; the C code then writes the sentinel's parent field, and so does
the model. -/
def gc_rb_tree_transplant (t : RBTree) (node v : Nat) : RBTree :=
  let t :=
    if (t.heap node).parent = t.nil then { t with root := v }
    else if node = (t.heap (t.heap node).parent).left then writeLeft t (t.heap node).parent v
    else writeRight t (t.heap node).parent v
  writeParent t v ((t.heap node).parent)

/-- The loop of gc_rb_tree_minimum. -/
def gc_rb_tree_minimum_go (t : RBTree) : Nat → Nat → Nat
  | 0, node => node
  | fuel+1, node =>
    if (t.heap node).left ≠ t.nil then gc_rb_tree_minimum_go t fuel (t.heap node).left
    else node

/-- gc_rb_tree_minimum (internal helper of deletion and successor). -/
def gc_rb_tree_minimum (t : RBTree) (node : Nat) : Nat :=
  gc_rb_tree_minimum_go t t.next node

/-- The loop of gc_rb_tree_maximum. -/
def gc_rb_tree_maximum_go (t : RBTree) : Nat → Nat → Nat
  | 0, node => node
  | fuel+1, node =>
    if (t.heap node).right ≠ t.nil then gc_rb_tree_maximum_go t fuel (t.heap node).right
    else node

/-- gc_rb_tree_maximum (internal helper of predecessor). -/
def gc_rb_tree_maximum (t : RBTree) (node : Nat) : Nat :=
  gc_rb_tree_maximum_go t t.next node

/-- The while-loop of gc_rb_tree_delete_fixup; returns the final (tree, x)
pair because the C code recolors x after the loop. -/
def gc_rb_tree_delete_fixup_go : Nat → RBTree → Nat → RBTree × Nat
  | 0, t, x => (t, x)
  | fuel+1, t, x =>
    if x ≠ t.root ∧ (t.heap x).color = Color.black then
      if x = (t.heap (t.heap x).parent).left then
        let w := (t.heap (t.heap x).parent).right
        let tw :
            RBTree × Nat :=
          if (t.heap w).color = Color.red then
            let t := writeColor t w Color.black
            let t := writeColor t (t.heap x).parent Color.red
            let t := gc_rb_tree_left_rotate t ((t.heap x).parent)
            (t, (t.heap (t.heap x).parent).right)
          else (t, w)
        let t := tw.1
        let w := tw.2
        if (t.heap (t.heap w).left).color = Color.black ∧
            (t.heap (t.heap w).right).color = Color.black then
          let t := writeColor t w Color.red
          gc_rb_tree_delete_fixup_go fuel t ((t.heap x).parent)
        else
          let tw2 :
              RBTree × Nat :=
            if (t.heap (t.heap w).right).color = Color.black then
              let t := writeColor t (t.heap w).left Color.black
              let t := writeColor t w Color.red
              let t := gc_rb_tree_right_rotate t w
              (t, (t.heap (t.heap x).parent).right)
            else (t, w)
          let t := tw2.1
          let w := tw2.2
          let t := writeColor t w ((t.heap (t.heap x).parent).color)
          let t := writeColor t (t.heap x).parent Color.black
          let t := writeColor t (t.heap w).right Color.black
          let t := gc_rb_tree_left_rotate t ((t.heap x).parent)
          gc_rb_tree_delete_fixup_go fuel t t.root
      else
        let w := (t.heap (t.heap x).parent).left
        let tw :
            RBTree × Nat :=
          if (t.heap w).color = Color.red then
            let t := writeColor t w Color.black
            let t := writeColor t (t.heap x).parent Color.red
            let t := gc_rb_tree_right_rotate t ((t.heap x).parent)
            (t, (t.heap (t.heap x).parent).left)
          else (t, w)
        let t := tw.1
        let w := tw.2
        if (t.heap (t.heap w).right).color = Color.black ∧
            (t.heap (t.heap w).left).color = Color.black then
          let t := writeColor t w Color.red
          gc_rb_tree_delete_fixup_go fuel t ((t.heap x).parent)
        else
          let tw2 :
              RBTree × Nat :=
            if (t.heap (t.heap w).left).color = Color.black then
              let t := writeColor t (t.heap w).right Color.black
              let t := writeColor t w Color.red
              let t := gc_rb_tree_left_rotate t w
              (t, (t.heap (t.heap x).parent).left)
            else (t, w)
          let t := tw2.1
          let w := tw2.2
          let t := writeColor t w ((t.heap (t.heap x).parent).color)
          let t := writeColor t (t.heap x).parent Color.black
          let t := writeColor t (t.heap w).left Color.black
          let t := gc_rb_tree_right_rotate t ((t.heap x).parent)
          gc_rb_tree_delete_fixup_go fuel t t.root
    else (t, x)

/-- gc_rb_tree_delete_fixup: the loop, then x->color = BLACK. -/
def gc_rb_tree_delete_fixup (t : RBTree) (x : Nat) : RBTree :=
  let tx := gc_rb_tree_delete_fixup_go t.next t x
  writeColor tx.1 tx.2 Color.black

/-- gc_rb_tree_delete.  The first component is the resulting tree (none
for a NULL tree argument); the second lists the payloads handed to the
free_data destructor, in order (empty when no destructor call happens,
which is also what a NULL free_data callback observes). -/
def gc_rb_tree_delete (tree : Option RBTree) (node : Nat) : Option RBTree × List Nat :=
  match tree with
  | none => (none, [])
  | some t =>
    if node = t.nil then (some t, [])
    else
      let y_original_color := (t.heap node).color
      if (t.heap node).left = t.nil then
        let x := (t.heap node).right
        let t := gc_rb_tree_transplant t node ((t.heap node).right)
        let t := if y_original_color = Color.black then gc_rb_tree_delete_fixup t x else t
        (some t, [(t.heap node).data])
      else if (t.heap node).right = t.nil then
        let x := (t.heap node).left
        let t := gc_rb_tree_transplant t node ((t.heap node).left)
        let t := if y_original_color = Color.black then gc_rb_tree_delete_fixup t x else t
        (some t, [(t.heap node).data])
      else
        let y := gc_rb_tree_minimum t ((t.heap node).right)
        let y_original_color := (t.heap y).color
        let x := (t.heap y).right
        let t :=
          if (t.heap y).parent = node then
            writeParent t x y
          else
            let t := gc_rb_tree_transplant t y ((t.heap y).right)
            let t := writeRight t y ((t.heap node).right)
            writeParent t ((t.heap y).right) y
        let t := gc_rb_tree_transplant t node y
        let t := writeLeft t y ((t.heap node).left)
        let t := writeParent t ((t.heap y).left) y
        let t := writeColor t y ((t.heap node).color)
        let t := if y_original_color = Color.black then gc_rb_tree_delete_fixup t x else t
        (some t, [(t.heap node).data])

/-- gc_rb_tree_validate_rec: returns (black-height or -1, err).  The C
err out-parameter is threaded through; it is written only at the three
violation sites.  Fuel exhaustion returns -1 with err untouched, which the
caller turns into GC_RB_TREE_ERR_GENERIC; on well-formed trees the fuel
passed by gc_rb_tree_validate is never exhausted. -/
def gc_rb_tree_validate_rec (t : RBTree) : Nat → Nat → Int → Int × Int
  | 0, _, err => (-1, err)
  | fuel+1, node, err =>
    if node = t.nil then (1, err)
    else if (t.heap node).color = Color.red ∧
        ((t.heap (t.heap node).left).color = Color.red ∨
          (t.heap (t.heap node).right).color = Color.red) then
      (-1, 2)
    else if (t.heap node).left ≠ t.nil ∧
        t.cmp ((t.heap (t.heap node).left).data) ((t.heap node).data) ≥ 0 then
      (-1, 1)
    else if (t.heap node).right ≠ t.nil ∧
        t.cmp ((t.heap (t.heap node).right).data) ((t.heap node).data) ≤ 0 then
      (-1, 1)
    else
      let lres := gc_rb_tree_validate_rec t fuel ((t.heap node).left) err
      if lres.1 < 0 then (-1, lres.2)
      else
        let rres := gc_rb_tree_validate_rec t fuel ((t.heap node).right) lres.2
        if rres.1 < 0 then (-1, rres.2)
        else if lres.1 ≠ rres.1 then (-1, 3)
        else (lres.1 + (if (t.heap node).color = Color.black then 1 else 0), rres.2)

/-- gc_rb_tree_validate.  A none argument models a NULL tree pointer; a
root or sentinel field equal to 0 models the NULL-pointer checks on
tree->root and tree->nil. -/
def gc_rb_tree_validate (tree : Option RBTree) : Int :=
  match tree with
  | none => GC_RB_TREE_ERR_INVALID_TREE
  | some t =>
    if t.root = 0 ∨ t.nil = 0 then GC_RB_TREE_ERR_INVALID_TREE
    else if (t.heap t.nil).color ≠ Color.black then GC_RB_TREE_ERR_NIL_COLOR
    else
      let res := gc_rb_tree_validate_rec t t.next t.root 0
      if res.1 < 0 ∧ res.2 = 0 then GC_RB_TREE_ERR_GENERIC
      else res.2

/-- gc_rb_tree_min: NULL (0) on an empty tree, else the leftmost node.
The C loop is letter for letter the loop of gc_rb_tree_minimum. -/
def gc_rb_tree_min (t : RBTree) : Nat :=
  if t.root = t.nil then 0 else gc_rb_tree_minimum_go t t.next t.root

/-- gc_rb_tree_max: NULL (0) on an empty tree, else the rightmost node. -/
def gc_rb_tree_max (t : RBTree) : Nat :=
  if t.root = t.nil then 0 else gc_rb_tree_maximum_go t t.next t.root

/-- The parent-climbing loop of gc_rb_tree_successor:
while (y != nil and node == y->right) { node = y; y = y->parent; }. -/
def gc_rb_tree_succ_climb (t : RBTree) : Nat → Nat → Nat → Nat
  | 0, _, y => y
  | fuel+1, node, y =>
    if y ≠ t.nil ∧ node = (t.heap y).right then
      gc_rb_tree_succ_climb t fuel y ((t.heap y).parent)
    else y

/-- gc_rb_tree_successor: minimum of the right subtree when it exists,
otherwise climb; NULL (0) when the node was the maximum. -/
def gc_rb_tree_successor (t : RBTree) (node : Nat) : Nat :=
  if (t.heap node).right ≠ t.nil then gc_rb_tree_minimum t ((t.heap node).right)
  else
    let y := gc_rb_tree_succ_climb t t.next node ((t.heap node).parent)
    if y ≠ t.nil then y else 0

/-- The parent-climbing loop of gc_rb_tree_predecessor. -/
def gc_rb_tree_pred_climb (t : RBTree) : Nat → Nat → Nat → Nat
  | 0, _, y => y
  | fuel+1, node, y =>
    if y ≠ t.nil ∧ node = (t.heap y).left then
      gc_rb_tree_pred_climb t fuel y ((t.heap y).parent)
    else y

/-- gc_rb_tree_predecessor (mirror of successor). -/
def gc_rb_tree_predecessor (t : RBTree) (node : Nat) : Nat :=
  if (t.heap node).left ≠ t.nil then gc_rb_tree_maximum t ((t.heap node).left)
  else
    let y := gc_rb_tree_pred_climb t t.next node ((t.heap node).parent)
    if y ≠ t.nil then y else 0

/-- RBTreeIterator: the tree and the current node id (0 models the NULL
"exhausted" cursor). -/
structure RBTreeIterator where
  tree : RBTree
  current : Nat

/-- gc_rb_tree_iterator_begin. -/
def gc_rb_tree_iterator_begin (t : RBTree) : RBTreeIterator :=
  { tree := t, current := if t.root ≠ t.nil then gc_rb_tree_min t else 0 }

/-- gc_rb_tree_iterator_rbegin. -/
def gc_rb_tree_iterator_rbegin (t : RBTree) : RBTreeIterator :=
  { tree := t, current := if t.root ≠ t.nil then gc_rb_tree_max t else 0 }

/-- gc_rb_tree_iterator_next (no-op on an exhausted cursor). -/
def gc_rb_tree_iterator_next (it : RBTreeIterator) : RBTreeIterator :=
  if it.current ≠ 0 then { it with current := gc_rb_tree_successor it.tree it.current } else it

/-- gc_rb_tree_iterator_prev. -/
def gc_rb_tree_iterator_prev (it : RBTreeIterator) : RBTreeIterator :=
  if it.current ≠ 0 then { it with current := gc_rb_tree_predecessor it.tree it.current } else it

/-- gc_rb_tree_iterator_valid. -/
def gc_rb_tree_iterator_valid (it : RBTreeIterator) : Bool :=
  it.current ≠ 0 ∧ it.current ≠ it.tree.nil

/-- gc_rb_tree_iterator_data (NULL on an invalid iterator). -/
def gc_rb_tree_iterator_data (it : RBTreeIterator) : Nat :=
  if it.current = 0 ∨ it.current = it.tree.nil then 0
  else (it.tree.heap it.current).data

/-- The descent loop of gc_rb_tree_lower_bound, tracking the best node
seen (res starts at the sentinel). -/
def gc_rb_tree_lower_bound_go (t : RBTree) (key : Nat) (inclusive : Nat) :
    Nat → Nat → Nat → Nat
  | 0, _, res => res
  | fuel+1, x, res =>
    if x ≠ t.nil then
      if t.cmp ((t.heap x).data) key > 0 ∨
          (inclusive ≠ 0 ∧ t.cmp ((t.heap x).data) key = 0) then
        gc_rb_tree_lower_bound_go t key inclusive fuel ((t.heap x).left) x
      else
        gc_rb_tree_lower_bound_go t key inclusive fuel ((t.heap x).right) res
    else res

/-- gc_rb_tree_lower_bound: NULL (0) when no node qualifies.  Note that
the comparator is applied to the key even when the key is the NULL
pointer (0), exactly as in the C code. -/
def gc_rb_tree_lower_bound (t : RBTree) (key : Nat) (inclusive : Nat) : Nat :=
  let res := gc_rb_tree_lower_bound_go t key inclusive t.next t.root t.nil
  if res ≠ t.nil then res else 0

/-- The descent loop of gc_rb_tree_upper_bound. -/
def gc_rb_tree_upper_bound_go (t : RBTree) (key : Nat) (inclusive : Nat) :
    Nat → Nat → Nat → Nat
  | 0, _, res => res
  | fuel+1, x, res =>
    if x ≠ t.nil then
      if t.cmp ((t.heap x).data) key < 0 ∨
          (inclusive ≠ 0 ∧ t.cmp ((t.heap x).data) key = 0) then
        gc_rb_tree_upper_bound_go t key inclusive fuel ((t.heap x).right) x
      else
        gc_rb_tree_upper_bound_go t key inclusive fuel ((t.heap x).left) res
    else res

/-- gc_rb_tree_upper_bound. -/
def gc_rb_tree_upper_bound (t : RBTree) (key : Nat) (inclusive : Nat) : Nat :=
  let res := gc_rb_tree_upper_bound_go t key inclusive t.next t.root t.nil
  if res ≠ t.nil then res else 0

/-- RBTreeRangeIterator.  The low/high bounds are payload pointers (0
models a NULL bound). -/
structure RBTreeRangeIterator where
  tree : RBTree
  current : Nat
  low : Nat
  high : Nat
  flags : Nat
  reverse : Bool

/-- gc_rb_tree_iterator_range_begin.  The model has no NULL comparator
(tree->cmp is a total Lean function), so the !tree->cmp early-out of the
C code cannot fire. -/
def gc_rb_tree_iterator_range_begin (t : RBTree) (low high flags : Nat) :
    RBTreeRangeIterator :=
  let it : RBTreeRangeIterator :=
    { tree := t, current := 0, low := low, high := high, flags := flags, reverse := false }
  if t.root = t.nil then it
  else
    let c := gc_rb_tree_lower_bound t low (Nat.land flags GC_RB_RANGE_INCLUSIVE_LOW)
    let c :=
      if c ≠ 0 then
        let cmp := t.cmp ((t.heap c).data) high
        if cmp > 0 ∨ (Nat.land flags GC_RB_RANGE_INCLUSIVE_HIGH = 0 ∧ cmp = 0) then 0 else c
      else c
    { it with current := c }

/-- gc_rb_tree_iterator_range_rbegin. -/
def gc_rb_tree_iterator_range_rbegin (t : RBTree) (low high flags : Nat) :
    RBTreeRangeIterator :=
  let it : RBTreeRangeIterator :=
    { tree := t, current := 0, low := low, high := high, flags := flags, reverse := true }
  if t.root = t.nil then it
  else
    let c := gc_rb_tree_upper_bound t high (Nat.land flags GC_RB_RANGE_INCLUSIVE_HIGH)
    let c :=
      if c ≠ 0 then
        let cmp := t.cmp ((t.heap c).data) low
        if cmp < 0 ∨ (Nat.land flags GC_RB_RANGE_INCLUSIVE_LOW = 0 ∧ cmp = 0) then 0 else c
      else c
    { it with current := c }

/-- gc_rb_tree_iterator_range_next: advance, then re-check the opposite
bound (the comparator is applied to the bound even when it is NULL). -/
def gc_rb_tree_iterator_range_next (it : RBTreeRangeIterator) : RBTreeRangeIterator :=
  if it.current = 0 then it
  else
    let c :=
      if it.reverse then gc_rb_tree_predecessor it.tree it.current
      else gc_rb_tree_successor it.tree it.current
    if c = 0 then { it with current := 0 }
    else if it.reverse then
      let cmp := it.tree.cmp ((it.tree.heap c).data) it.low
      if cmp < 0 ∨ (Nat.land it.flags GC_RB_RANGE_INCLUSIVE_LOW = 0 ∧ cmp = 0) then
        { it with current := 0 }
      else { it with current := c }
    else
      let cmp := it.tree.cmp ((it.tree.heap c).data) it.high
      if cmp > 0 ∨ (Nat.land it.flags GC_RB_RANGE_INCLUSIVE_HIGH = 0 ∧ cmp = 0) then
        { it with current := 0 }
      else { it with current := c }

/-- gc_rb_tree_iterator_range_valid: also rejects a NULL payload, and only
here a NULL bound short-circuits the comparator. -/
def gc_rb_tree_iterator_range_valid (it : RBTreeRangeIterator) : Bool :=
  if it.current = 0 ∨ it.current = it.tree.nil then false
  else
    let data := (it.tree.heap it.current).data
    if data = 0 then false
    else if it.reverse = false then
      let cmp_high : Int := if it.high ≠ 0 then it.tree.cmp data it.high else -1
      if cmp_high > 0 ∨ (Nat.land it.flags GC_RB_RANGE_INCLUSIVE_HIGH = 0 ∧ cmp_high = 0) then
        false
      else true
    else
      let cmp_low : Int := if it.low ≠ 0 then it.tree.cmp data it.low else 1
      if cmp_low < 0 ∨ (Nat.land it.flags GC_RB_RANGE_INCLUSIVE_LOW = 0 ∧ cmp_low = 0) then
        false
      else true

/-- gc_rb_tree_iterator_range_data. -/
def gc_rb_tree_iterator_range_data (it : RBTreeRangeIterator) : Nat :=
  if it.current ≠ 0 ∧ it.current ≠ it.tree.nil then (it.tree.heap it.current).data else 0

/-- The counting pass of gc_rb_tree_slice. -/
def rangeCountLoop : Nat → RBTreeRangeIterator → Nat
  | 0, _ => 0
  | fuel+1, it =>
    if gc_rb_tree_iterator_range_valid it then
      rangeCountLoop fuel (gc_rb_tree_iterator_range_next it) + 1
    else 0

/-- The collection pass of gc_rb_tree_slice. -/
def rangeCollectLoop : Nat → RBTreeRangeIterator → List Nat
  | 0, _ => []
  | fuel+1, it =>
    if gc_rb_tree_iterator_range_valid it then
      gc_rb_tree_iterator_range_data it :: rangeCollectLoop fuel (gc_rb_tree_iterator_range_next it)
    else []

/-- gc_rb_tree_slice: two passes over the range iterator; the result
buffer carries the payloads followed by the NULL (0) terminator, and the
second component is the out_count value. -/
def gc_rb_tree_slice (t : RBTree) (low high flags : Nat) : Option (List Nat) × Nat :=
  if t.root = t.nil then (none, 0)
  else
    let it :=
      if Nat.land flags GC_RB_TREE_SLICE_DESCENDING ≠ 0 then
        gc_rb_tree_iterator_range_rbegin t low high flags
      else gc_rb_tree_iterator_range_begin t low high flags
    let count := rangeCountLoop t.next it
    if count = 0 then (none, 0)
    else (some (rangeCollectLoop t.next it ++ [0]), count)

/-- The counting pass of gc_rb_tree_filter (predicate results are C ints,
nonzero meaning a match). -/
def filterCountLoop (pred : Nat → Nat → Int) (ud : Nat) : Nat → RBTreeIterator → Nat
  | 0, _ => 0
  | fuel+1, it =>
    if gc_rb_tree_iterator_valid it then
      (if pred (gc_rb_tree_iterator_data it) ud ≠ 0 then 1 else 0) +
        filterCountLoop pred ud fuel (gc_rb_tree_iterator_next it)
    else 0

/-- The collection pass of gc_rb_tree_filter. -/
def filterCollectLoop (pred : Nat → Nat → Int) (ud : Nat) : Nat → RBTreeIterator → List Nat
  | 0, _ => []
  | fuel+1, it =>
    if gc_rb_tree_iterator_valid it then
      (if pred (gc_rb_tree_iterator_data it) ud ≠ 0 then [gc_rb_tree_iterator_data it] else []) ++
        filterCollectLoop pred ud fuel (gc_rb_tree_iterator_next it)
    else []

/-- gc_rb_tree_filter: count pass, then collect pass; buffer terminated by
NULL (0); out_count in the second component.  The !pred early-out of the C
code cannot fire in the model (pred is a total Lean function). -/
def gc_rb_tree_filter (t : RBTree) (pred : Nat → Nat → Int) (ud : Nat) :
    Option (List Nat) × Nat :=
  if t.root = t.nil then (none, 0)
  else
    let count := filterCountLoop pred ud t.next (gc_rb_tree_iterator_begin t)
    if count = 0 then (none, 0)
    else (some (filterCollectLoop pred ud t.next (gc_rb_tree_iterator_begin t) ++ [0]), count)

/-- The single pass of gc_rb_tree_filter_with_da: each match is
gc_da_append-ed at the end of the growing items buffer. -/
def filterDaLoop (pred : Nat → Nat → Int) (ud : Nat) : Nat → RBTreeIterator → List Nat → List Nat
  | 0, _, acc => acc
  | fuel+1, it, acc =>
    if gc_rb_tree_iterator_valid it then
      let acc :=
        if pred (gc_rb_tree_iterator_data it) ud ≠ 0 then acc ++ [gc_rb_tree_iterator_data it]
        else acc
      filterDaLoop pred ud fuel (gc_rb_tree_iterator_next it) acc
    else acc

/-- gc_rb_tree_filter_with_da: incremental growable-buffer variant.  The C
code sets *out_count = results.count before the emptiness check and
returns results.items, whose length is exactly results.count: no NULL
terminator is appended. -/
def gc_rb_tree_filter_with_da (t : RBTree) (pred : Nat → Nat → Int) (ud : Nat) :
    Option (List Nat) × Nat :=
  if t.root = t.nil then (none, 0)
  else
    let results := filterDaLoop pred ud t.next (gc_rb_tree_iterator_begin t) []
    if results.length = 0 then (none, 0)
    else (some results, results.length)

/-- The in-order traversal described by the spec: start at
gc_rb_tree_min, repeatedly apply gc_rb_tree_successor, collecting the
payloads of the visited nodes; 0 (NULL) ends the walk. -/
def inorderSuccWalk (t : RBTree) : Nat → Nat → List Nat
  | 0, _ => []
  | fuel+1, node =>
    if node = 0 then []
    else (t.heap node).data :: inorderSuccWalk t fuel (gc_rb_tree_successor t node)

/-- An integer comparator in the style of int_cmp from the test suite:
payload pointers are compared as numbers (returns -1, 0 or 1). -/
def intCmp (a b : Nat) : Int :=
  if a < b then -1 else if b < a then 1 else 0

/-- Insert a list of payloads left to right, as the test loops do. -/
def insertAll (t : RBTree) (ds : List Nat) : RBTree :=
  ds.foldl gc_rb_tree_insert t

/-- Payloads of the subtree rooted at a node, in symmetric order (used to
state subtree-level properties about validation). -/
def subtreeData (t : RBTree) : Nat → Nat → List Nat
  | 0, _ => []
  | fuel+1, i =>
    if i = t.nil then []
    else subtreeData t fuel ((t.heap i).left) ++
      (t.heap i).data :: subtreeData t fuel ((t.heap i).right)

/-- A concrete tree whose colors and black heights are consistent and
whose nodes are each strictly between their immediate children, but with
a violation two levels down: payload 20 sits in the left subtree of the
root payload 10.  Layout: root 2 holds 10 (black) with children 3 (5,
black) and 4 (15, black); node 3 has right child 5 (20, red). -/
def T5 : RBTree :=
  { heap :=
      hupd
        (hupd
          (hupd
            (hupd
              (hupd (fun _ => { data := 0, color := Color.black, left := 0, right := 0, parent := 0 })
                1 { data := 0, color := Color.black, left := 1, right := 1, parent := 1 })
              2 { data := 10, color := Color.black, left := 3, right := 4, parent := 1 })
            3 { data := 5, color := Color.black, left := 1, right := 5, parent := 2 })
          4 { data := 15, color := Color.black, left := 1, right := 1, parent := 2 })
        5 { data := 20, color := Color.red, left := 1, right := 1, parent := 3 }
    next := 6
    root := 2
    nil := 1
    cmp := intCmp }

/-- A two-node heap with an immediate BST violation: the root holds 10
and its right child holds 5, which does not compare strictly greater. -/
def T5b : RBTree :=
  { heap :=
      hupd
        (hupd
          (hupd (fun _ => { data := 0, color := Color.black, left := 0, right := 0, parent := 0 })
            1 { data := 0, color := Color.black, left := 1, right := 1, parent := 1 })
          2 { data := 10, color := Color.black, left := 1, right := 3, parent := 1 })
        3 { data := 5, color := Color.red, left := 1, right := 1, parent := 2 }
    next := 4
    root := 2
    nil := 1
    cmp := intCmp }

/-- The tree after gc_rb_tree_alloc_node and the bump of next inside
gc_rb_tree_insert: a fresh RED record with sentinel child and parent
links at id t.next. -/
def allocNode (t : RBTree) (d : Nat) : RBTree :=
  { t with
    heap := hupd t.heap t.next
      { data := d, color := Color.red, left := t.nil, right := t.nil, parent := t.nil }
    next := t.next + 1 }

/-- A comparator under which the NULL payload (0) is an interior value:
payloads are compared by (x + 2) mod 4. -/
def wrapCmp (a b : Nat) : Int := intCmp ((a + 2) % 4) ((b + 2) % 4)

/-- One-node tree holding the NULL payload, under wrapCmp. -/
def Tc4b : RBTree := gc_rb_tree_insert (gc_rb_tree_create wrapCmp) 0

/-- Three-key tree for the C4 witness. -/
def Tc4 : RBTree := insertAll (gc_rb_tree_create intCmp) [20, 10, 30]

/-- A comparator that compares payloads by their value mod 10, so
distinct payloads can tie. -/
def modCmp (a b : Nat) : Int := intCmp (a % 10) (b % 10)

/-- One-node tree holding payload 5 under modCmp. -/
def Tc3 : RBTree := gc_rb_tree_insert (gc_rb_tree_create modCmp) 5


end Model

section SpecSide

/-!
Coupling between the pointer heap and a functional view of the tree.
An ITree records, bottom up, the ids, colors and payloads of the node
graph hanging from the root; okAt checks that the heap stores exactly
this graph, parent pointers included.
-/

/-- Functional view of the node graph reachable from a subtree root. -/
inductive ITree where
  | leaf
  | node (id : Nat) (color : Color) (left : ITree) (data : Nat) (right : ITree)
deriving DecidableEq, Repr

/-- The id a child slot holds for this subtree: the sentinel id for an
empty subtree, the root id otherwise. -/
def ITree.rootId (nilId : Nat) : ITree → Nat
  | .leaf => nilId
  | .node i _ _ _ _ => i

/-- In-order list of the node ids of a functional subtree. -/
def ITree.ids : ITree → List Nat
  | .leaf => []
  | .node i _ l _ r => l.ids ++ i :: r.ids

/-- In-order list of the payloads of a functional subtree. -/
def ITree.dataList : ITree → List Nat
  | .leaf => []
  | .node _ _ l d r => l.dataList ++ d :: r.dataList

/-- The heap stores the functional subtree ft at parent pid: every node
record matches (color, payload, child slots and parent pointer). -/
def okAt (h : Nat → RBNode) (nilId : Nat) : Nat → ITree → Bool
  | _, .leaf => true
  | pid, .node i c l d r =>
    decide (i ≠ nilId) && decide (i ≠ 0) &&
    decide ((h i).color = c) && decide ((h i).data = d) &&
    decide ((h i).left = l.rootId nilId) && decide ((h i).right = r.rootId nilId) &&
    decide ((h i).parent = pid) &&
    okAt h nilId i l && okAt h nilId i r

/-- Well-formed tree: the heap stores ft from the root (whose parent
pointer is the sentinel, as gc_rb_tree_insert and the rotations
maintain), ids are distinct, allocated below the bump counter, and the
sentinel is a black allocated node with self sentinel child links (its
parent field is scratch space for gc_rb_tree_transplant and is not
constrained). -/
structure TreeWf (t : RBTree) (ft : ITree) : Prop where
  ok : okAt t.heap t.nil t.nil ft = true
  root_eq : t.root = ft.rootId t.nil
  nodup : ft.ids.Nodup
  bound : ∀ i ∈ ft.ids, i < t.next
  nil_ne : t.nil ≠ 0
  nil_lt : t.nil < t.next
  nil_black : (t.heap t.nil).color = Color.black
  nil_left : (t.heap t.nil).left = t.nil
  nil_right : (t.heap t.nil).right = t.nil

/-- One step of tree context: the focused subtree is the left (lf) or
right (rf) child of a node with this id, color, payload and sibling. -/
inductive Frame where
  | lf (id : Nat) (c : Color) (d : Nat) (r : ITree)
  | rf (id : Nat) (c : Color) (d : Nat) (l : ITree)
deriving DecidableEq, Repr

/-- Rebuild a tree from a focused subtree and its context (innermost
frame first). -/
def plug : ITree → List Frame → ITree
  | s, [] => s
  | s, .lf i c d r :: p => plug (.node i c s d r) p
  | s, .rf i c d l :: p => plug (.node i c l d s) p

/-- Heap id of the parent of the focus (tp for an empty context). -/
def parentOfPath (tp : Nat) : List Frame → Nat
  | [] => tp
  | .lf i _ _ _ :: _ => i
  | .rf i _ _ _ :: _ => i

/-- In-order ids strictly to the left of the focus. -/
def pathIdsL : List Frame → List Nat
  | [] => []
  | .lf _ _ _ _ :: p => pathIdsL p
  | .rf i _ _ l :: p => pathIdsL p ++ l.ids ++ [i]

/-- In-order ids strictly to the right of the focus. -/
def pathIdsR : List Frame → List Nat
  | [] => []
  | .lf i _ _ r :: p => (i :: r.ids) ++ pathIdsR p
  | .rf _ _ _ _ :: p => pathIdsR p

/-- In-order payloads strictly to the left of the focus. -/
def pathDataL : List Frame → List Nat
  | [] => []
  | .lf _ _ _ _ :: p => pathDataL p
  | .rf _ _ d l :: p => pathDataL p ++ l.dataList ++ [d]

/-- In-order payloads strictly to the right of the focus. -/
def pathDataR : List Frame → List Nat
  | [] => []
  | .lf _ _ d r :: p => (d :: r.dataList) ++ pathDataR p
  | .rf _ _ _ _ :: p => pathDataR p

/-- The heap stores the context correctly around a focus whose root slot
is sr: each frame node record matches and its parent pointer points to
the frame above (tp at the top). -/
def pathOkAt (h : Nat → RBNode) (nilId tp : Nat) : List Frame → Nat → Bool
  | [], _ => true
  | .lf i c d r :: p, sr =>
    decide (i ≠ nilId) && decide (i ≠ 0) &&
    decide ((h i).color = c) && decide ((h i).data = d) &&
    decide ((h i).left = sr) && decide ((h i).right = r.rootId nilId) &&
    decide ((h i).parent = parentOfPath tp p) &&
    okAt h nilId i r && pathOkAt h nilId tp p i
  | .rf i c d l :: p, sr =>
    decide (i ≠ nilId) && decide (i ≠ 0) &&
    decide ((h i).color = c) && decide ((h i).data = d) &&
    decide ((h i).left = l.rootId nilId) && decide ((h i).right = sr) &&
    decide ((h i).parent = parentOfPath tp p) &&
    okAt h nilId i l && pathOkAt h nilId tp p i

/-- Recolor one node of a functional tree (models node->color = c2). -/
def ITree.recolor (j : Nat) (c2 : Color) : ITree → ITree
  | .leaf => .leaf
  | .node i c l d r =>
    .node i (if i = j then c2 else c) (l.recolor j c2) d (r.recolor j c2)

/-- Recolor one node id inside a context frame (sibling subtrees and the
frame label both carry colors). -/
def Frame.recolor (j : Nat) (c2 : Color) : Frame → Frame
  | .lf i c d r => .lf i (if i = j then c2 else c) d (r.recolor j c2)
  | .rf i c d l => .rf i (if i = j then c2 else c) d (l.recolor j c2)

/-- The BST descent of gc_rb_tree_insert mirrored on the functional tree:
the accumulated context records the branch taken at each node; a
comparator tie fails the cmp < 0 test, so ties take the right branch. -/
def descend (cmp : Nat → Nat → Int) (d : Nat) : ITree → List Frame → List Frame
  | .leaf, path => path
  | .node i c l dd r, path =>
    if cmp d dd < 0 then descend cmp d l (.lf i c dd r :: path)
    else descend cmp d r (.rf i c dd l :: path)

/-- Frame color label. -/
def Frame.color : Frame → Color
  | .lf _ c _ _ => c
  | .rf _ c _ _ => c

/-- Conclusion of one insert-fixup step: the loop result stores some
functional tree with the same payload sequence and unchanged scalar
fields. -/
abbrev FixupGoal (n : Nat) (t : RBTree) (k : Nat) (src : ITree) : Prop :=
  ∃ ft2 : ITree,
    TreeWf (gc_rb_tree_insert_fixup_go n t k) ft2 ∧
    ft2.dataList = src.dataList ∧
    (gc_rb_tree_insert_fixup_go n t k).next = t.next ∧
    (gc_rb_tree_insert_fixup_go n t k).nil = t.nil ∧
    (gc_rb_tree_insert_fixup_go n t k).cmp = t.cmp

/-- Induction hypothesis shape for the insert-fixup loop: the invariant
carries a red focus, a root-is-black guarantee and enough fuel. -/
abbrev FixupIH (n : Nat) : Prop :=
  ∀ (t : RBTree) (path : List Frame) (k fd : Nat) (fl fr : ITree),
    TreeWf t (plug (ITree.node k Color.red fl fd fr) path) →
    (∀ f ∈ path.getLast?, Frame.color f = Color.black) →
    path.length + 1 ≤ n →
    FixupGoal n t k (plug (ITree.node k Color.red fl fd fr) path)

/-- An immediate parent/child order violation somewhere in the tree: a
left child whose payload does not compare strictly below its parent, or a
right child whose payload does not compare strictly above it.  These are
exactly the configurations gc_rb_tree_validate_rec tests for. -/
def hasViol (cmp : Nat → Nat → Int) : ITree → Bool
  | .leaf => false
  | .node _ _ l d r =>
    (match l with
     | .leaf => false
     | .node _ _ _ dl _ => decide (cmp dl d ≥ 0)) ||
    (match r with
     | .leaf => false
     | .node _ _ _ dr _ => decide (cmp dr d ≤ 0)) ||
    hasViol cmp l || hasViol cmp r

/-- Functional view of T5b. -/
def T5bIT : ITree :=
  ITree.node 2 Color.black ITree.leaf 10 (ITree.node 3 Color.red ITree.leaf 5 ITree.leaf)

/-- Laws making a comparator a strict total order on payloads, as the
header requires of a gc_rb_tree comparator: the sign is antisymmetric
and the strict order is transitive. -/
structure CmpLaws (cmp : Nat → Nat → Int) : Prop where
  asym : ∀ a b, cmp a b < 0 ↔ cmp b a > 0
  lt_trans : ∀ a b c, cmp a b < 0 → cmp b c < 0 → cmp a c < 0

/-- Strict weak order laws for a comparator, as the header requires of
gc_rb_tree_cmp_fn: the CmpLaws sign laws plus substitution of
comparator-equal elements on either side of a strict comparison. -/
structure CmpLawsEq (cmp : Nat → Nat → Int) extends CmpLaws cmp : Prop where
  tie_substl : ∀ a b c, cmp a b = 0 → cmp a c < 0 → cmp b c < 0
  tie_substr : ∀ a b c, cmp a b = 0 → cmp c a < 0 → cmp c b < 0

def FT4 : ITree :=
  ITree.node 2 Color.black (ITree.node 3 Color.red ITree.leaf 10 ITree.leaf) 20
    (ITree.node 4 Color.red ITree.leaf 30 ITree.leaf)


/-- Functional view of the one-node tree Tc3. -/
def FT3 : ITree := ITree.node 2 Color.black ITree.leaf 5 ITree.leaf

end SpecSide

section BasicLemmas

/-- The count pass of gc_rb_tree_filter counts exactly the elements the
collect pass gathers. -/
lemma filterCountLoop_eq_length (pred : Nat → Nat → Int) (ud : Nat) :
    ∀ (fuel : Nat) (it : RBTreeIterator),
      filterCountLoop pred ud fuel it = (filterCollectLoop pred ud fuel it).length := by
  intro fuel
  induction fuel with
  | zero => intro it; rfl
  | succ n ih =>
    intro it
    simp only [filterCountLoop, filterCollectLoop]
    by_cases hv : gc_rb_tree_iterator_valid it
    · simp only [hv, if_true, List.length_append, ih]
      by_cases hp : pred (gc_rb_tree_iterator_data it) ud ≠ 0
      · simp [hp]
      · simp [hp]
    · simp [hv]

/-- The single incremental pass of gc_rb_tree_filter_with_da appends, at
the end of its accumulator, exactly the list the collect pass gathers. -/
lemma filterDaLoop_eq (pred : Nat → Nat → Int) (ud : Nat) :
    ∀ (fuel : Nat) (it : RBTreeIterator) (acc : List Nat),
      filterDaLoop pred ud fuel it acc = acc ++ filterCollectLoop pred ud fuel it := by
  intro fuel
  induction fuel with
  | zero => intro it acc; simp [filterDaLoop, filterCollectLoop]
  | succ n ih =>
    intro it acc
    simp only [filterDaLoop, filterCollectLoop]
    by_cases hv : gc_rb_tree_iterator_valid it
    · simp only [hv, if_true, ih]
      by_cases hp : pred (gc_rb_tree_iterator_data it) ud ≠ 0
      · simp [hp]
      · simp [hp]
    · simp [hv]

end BasicLemmas

section WfLemmas

lemma okAt_leaf (h : Nat → RBNode) (nilId pid : Nat) :
    okAt h nilId pid ITree.leaf = true := rfl

lemma okAt_node {h : Nat → RBNode} {nilId pid i : Nat} {c : Color} {l r : ITree} {d : Nat} :
    okAt h nilId pid (ITree.node i c l d r) = true ↔
      i ≠ nilId ∧ i ≠ 0 ∧ (h i).color = c ∧ (h i).data = d ∧
      (h i).left = l.rootId nilId ∧ (h i).right = r.rootId nilId ∧
      (h i).parent = pid ∧ okAt h nilId i l = true ∧ okAt h nilId i r = true := by
  simp [okAt, Bool.and_eq_true, decide_eq_true_iff, and_assoc]

lemma ids_node {i : Nat} {c : Color} {l r : ITree} {d : Nat} :
    (ITree.node i c l d r).ids = l.ids ++ i :: r.ids := rfl

lemma dataList_node {i : Nat} {c : Color} {l r : ITree} {d : Nat} :
    (ITree.node i c l d r).dataList = l.dataList ++ d :: r.dataList := rfl

/-- Heap frame rule: okAt only reads the heap at the ids of the subtree. -/
lemma okAt_congr {h h2 : Nat → RBNode} {nilId : Nat} :
    ∀ (ft : ITree), (∀ i ∈ ft.ids, h2 i = h i) →
      ∀ pid, okAt h2 nilId pid ft = okAt h nilId pid ft := by
  intro ft
  induction ft with
  | leaf => intro _ pid; rfl
  | node i c l d r ihl ihr =>
    intro hag pid
    have hi : h2 i = h i := hag i (by simp [ids_node])
    have hl := ihl (fun j hj => hag j (by simp [ids_node, hj])) i
    have hr := ihr (fun j hj => hag j (by simp [ids_node, hj])) i
    simp only [okAt, hi, hl, hr]

lemma okAt_ids_ne {h : Nat → RBNode} {nilId : Nat} :
    ∀ {ft : ITree} {pid : Nat}, okAt h nilId pid ft = true →
      ∀ i ∈ ft.ids, i ≠ nilId ∧ i ≠ 0 := by
  intro ft
  induction ft with
  | leaf => intro pid _ i hi; simp [ITree.ids] at hi
  | node j c l d r ihl ihr =>
    intro pid hok i hi
    rw [okAt_node] at hok
    rw [ids_node, List.mem_append, List.mem_cons] at hi
    rcases hi with hi | hi | hi
    · exact ihl hok.2.2.2.2.2.2.2.1 i hi
    · exact hi ▸ ⟨hok.1, hok.2.1⟩
    · exact ihr hok.2.2.2.2.2.2.2.2 i hi

lemma rootId_mem {ft : ITree} {n : Nat} (hne : ft ≠ ITree.leaf) : ft.rootId n ∈ ft.ids := by
  cases ft with
  | leaf => exact absurd rfl hne
  | node i c l d r => simp [ITree.rootId, ids_node]

lemma rootId_ne_nil {h : Nat → RBNode} {nilId pid : Nat} {ft : ITree}
    (hok : okAt h nilId pid ft = true) (hne : ft ≠ ITree.leaf) : ft.rootId nilId ≠ nilId := by
  cases ft with
  | leaf => exact absurd rfl hne
  | node i c l d r => exact (okAt_node.1 hok).1

lemma dataList_eq_map {h : Nat → RBNode} {nilId : Nat} :
    ∀ {ft : ITree} {pid : Nat}, okAt h nilId pid ft = true →
      ft.dataList = ft.ids.map (fun i => (h i).data) := by
  intro ft
  induction ft with
  | leaf => intro pid _; rfl
  | node i c l d r ihl ihr =>
    intro pid hok
    rw [okAt_node] at hok
    rw [dataList_node, ids_node, List.map_append, List.map_cons,
      ihl hok.2.2.2.2.2.2.2.1, ihr hok.2.2.2.2.2.2.2.2, hok.2.2.2.1]

lemma headI_append_of_ne {L M : List Nat} (h : L ≠ []) : (L ++ M).headI = L.headI := by
  cases L with
  | nil => exact absurd rfl h
  | cons a L2 => rfl

lemma getLastD_of_ne {M : List Nat} (h : M ≠ []) (x y : Nat) :
    M.getLastD x = M.getLastD y := by
  cases M with
  | nil => exact absurd rfl h
  | cons a M2 => rw [List.getLastD_cons, List.getLastD_cons]

lemma getLastD_append_cons (L M : List Nat) (a : Nat) :
    (L ++ a :: M).getLastD 0 = (a :: M).getLastD 0 := by
  induction L with
  | nil => rfl
  | cons b L2 ih =>
    rw [List.cons_append, List.getLastD_cons, getLastD_of_ne (by simp) b 0, ih]

/-- The loop of gc_rb_tree_minimum reaches the leftmost node of the
subtree it starts at: the head of the in-order id list. -/
lemma minimum_go_spec (t : RBTree) :
    ∀ (ft : ITree) (pid fuel : Nat), okAt t.heap t.nil pid ft = true →
      ft ≠ ITree.leaf → ft.ids.length ≤ fuel →
      gc_rb_tree_minimum_go t fuel (ft.rootId t.nil) = ft.ids.headI := by
  intro ft
  induction ft with
  | leaf => intro pid fuel _ hne _; exact absurd rfl hne
  | node i c l d r ihl ihr =>
    intro pid fuel hok _ hfuel
    rw [okAt_node] at hok
    rw [ids_node] at hfuel ⊢
    obtain ⟨f, rfl⟩ : ∃ f, fuel = f + 1 := by
      cases fuel with
      | zero => simp at hfuel
      | succ f => exact ⟨f, rfl⟩
    show gc_rb_tree_minimum_go t (f + 1) i = _
    rw [gc_rb_tree_minimum_go]
    cases l with
    | leaf =>
      simp only [hok.2.2.2.2.1, ITree.rootId, ne_eq, not_true_eq_false, if_false,
        ITree.ids, List.nil_append, List.headI]
    | node li lc ll ld lr =>
      have hlne : (ITree.node li lc ll ld lr).rootId t.nil ≠ t.nil :=
        rootId_ne_nil hok.2.2.2.2.2.2.2.1 (by simp)
      rw [hok.2.2.2.2.1]
      simp only [hlne, ne_eq, not_false_eq_true, if_true]
      rw [ihl i f hok.2.2.2.2.2.2.2.1 (by simp) (by
        simp only [List.length_append, List.length_cons] at hfuel; omega)]
      exact (headI_append_of_ne (by simp [ids_node])).symm

/-- The loop of gc_rb_tree_maximum reaches the rightmost node: the last
entry of the in-order id list. -/
lemma maximum_go_spec (t : RBTree) :
    ∀ (ft : ITree) (pid fuel : Nat), okAt t.heap t.nil pid ft = true →
      ft ≠ ITree.leaf → ft.ids.length ≤ fuel →
      gc_rb_tree_maximum_go t fuel (ft.rootId t.nil) = ft.ids.getLastD 0 := by
  intro ft
  induction ft with
  | leaf => intro pid fuel _ hne _; exact absurd rfl hne
  | node i c l d r ihl ihr =>
    intro pid fuel hok _ hfuel
    rw [okAt_node] at hok
    rw [ids_node] at hfuel ⊢
    obtain ⟨f, rfl⟩ : ∃ f, fuel = f + 1 := by
      cases fuel with
      | zero => simp at hfuel
      | succ f => exact ⟨f, rfl⟩
    show gc_rb_tree_maximum_go t (f + 1) i = _
    rw [gc_rb_tree_maximum_go]
    rw [getLastD_append_cons]
    cases r with
    | leaf =>
      simp only [hok.2.2.2.2.2.1, ITree.rootId, ne_eq, not_true_eq_false, if_false]
      rfl
    | node ri rc rl rd rr =>
      have hrne : (ITree.node ri rc rl rd rr).rootId t.nil ≠ t.nil :=
        rootId_ne_nil hok.2.2.2.2.2.2.2.2 (by simp)
      rw [hok.2.2.2.2.2.1]
      simp only [hrne, ne_eq, not_false_eq_true, if_true]
      rw [ihr i f hok.2.2.2.2.2.2.2.2 (by simp) (by
        simp only [List.length_append, List.length_cons] at hfuel; omega)]
      rw [List.getLastD_cons]
      exact (getLastD_of_ne (by simp [ids_node]) _ _).symm

lemma writeLeft_heap (t : RBTree) (i v j : Nat) :
    (writeLeft t i v).heap j = if j = i then { t.heap i with left := v } else t.heap j := by
  simp [writeLeft, hupd]

lemma writeRight_heap (t : RBTree) (i v j : Nat) :
    (writeRight t i v).heap j = if j = i then { t.heap i with right := v } else t.heap j := by
  simp [writeRight, hupd]

lemma writeParent_heap (t : RBTree) (i v j : Nat) :
    (writeParent t i v).heap j = if j = i then { t.heap i with parent := v } else t.heap j := by
  simp [writeParent, hupd]

lemma writeColor_heap (t : RBTree) (i : Nat) (c : Color) (j : Nat) :
    (writeColor t i c).heap j = if j = i then { t.heap i with color := c } else t.heap j := by
  simp [writeColor, hupd]

lemma writeLeft_root (t : RBTree) (i v : Nat) : (writeLeft t i v).root = t.root := rfl
lemma writeRight_root (t : RBTree) (i v : Nat) : (writeRight t i v).root = t.root := rfl
lemma writeParent_root (t : RBTree) (i v : Nat) : (writeParent t i v).root = t.root := rfl
lemma writeColor_root (t : RBTree) (i : Nat) (c : Color) : (writeColor t i c).root = t.root := rfl
lemma writeLeft_nil (t : RBTree) (i v : Nat) : (writeLeft t i v).nil = t.nil := rfl
lemma writeRight_nil (t : RBTree) (i v : Nat) : (writeRight t i v).nil = t.nil := rfl
lemma writeParent_nil (t : RBTree) (i v : Nat) : (writeParent t i v).nil = t.nil := rfl
lemma writeColor_nil (t : RBTree) (i : Nat) (c : Color) : (writeColor t i c).nil = t.nil := rfl
lemma writeLeft_next (t : RBTree) (i v : Nat) : (writeLeft t i v).next = t.next := rfl
lemma writeRight_next (t : RBTree) (i v : Nat) : (writeRight t i v).next = t.next := rfl
lemma writeParent_next (t : RBTree) (i v : Nat) : (writeParent t i v).next = t.next := rfl
lemma writeColor_next (t : RBTree) (i : Nat) (c : Color) : (writeColor t i c).next = t.next := rfl
lemma writeLeft_cmp (t : RBTree) (i v : Nat) : (writeLeft t i v).cmp = t.cmp := rfl
lemma writeRight_cmp (t : RBTree) (i v : Nat) : (writeRight t i v).cmp = t.cmp := rfl
lemma writeParent_cmp (t : RBTree) (i v : Nat) : (writeParent t i v).cmp = t.cmp := rfl
lemma writeColor_cmp (t : RBTree) (i : Nat) (c : Color) : (writeColor t i c).cmp = t.cmp := rfl

lemma hupd_self (h : Nat → RBNode) (i : Nat) (n : RBNode) : hupd h i n i = n := by
  simp [hupd]

lemma hupd_ne (h : Nat → RBNode) (n : RBNode) {j i : Nat} (hji : j ≠ i) :
    hupd h i n j = h j := by
  simp [hupd, hji]

lemma plug_ids : ∀ (p : List Frame) (s : ITree),
    (plug s p).ids = pathIdsL p ++ s.ids ++ pathIdsR p := by
  intro p
  induction p with
  | nil => intro s; simp [plug, pathIdsL, pathIdsR]
  | cons f p2 ih =>
    intro s
    cases f with
    | lf i c d r =>
      show (plug (ITree.node i c s d r) p2).ids = _
      rw [ih, ids_node]
      simp [pathIdsL, pathIdsR]
    | rf i c d l =>
      show (plug (ITree.node i c l d s) p2).ids = _
      rw [ih, ids_node]
      simp [pathIdsL, pathIdsR]

lemma plug_dataList : ∀ (p : List Frame) (s : ITree),
    (plug s p).dataList = pathDataL p ++ s.dataList ++ pathDataR p := by
  intro p
  induction p with
  | nil => intro s; simp [plug, pathDataL, pathDataR]
  | cons f p2 ih =>
    intro s
    cases f with
    | lf i c d r =>
      show (plug (ITree.node i c s d r) p2).dataList = _
      rw [ih, dataList_node]
      simp [pathDataL, pathDataR]
    | rf i c d l =>
      show (plug (ITree.node i c l d s) p2).dataList = _
      rw [ih, dataList_node]
      simp [pathDataL, pathDataR]

/-- With a non-empty context the root id of the rebuilt tree does not
depend on the focus. -/
lemma plug_rootId (n : Nat) : ∀ (p : List Frame) (s s2 : ITree), p ≠ [] →
    (plug s p).rootId n = (plug s2 p).rootId n := by
  intro p
  induction p with
  | nil => intro s s2 habs; exact absurd rfl habs
  | cons f p2 ih =>
    intro s s2 _
    cases p2 with
    | nil => cases f <;> rfl
    | cons f2 p3 =>
      cases f with
      | lf i c d r => exact ih _ _ (by simp)
      | rf i c d l => exact ih _ _ (by simp)

/-- Decomposition of okAt over a context. -/
lemma okAt_plug {h : Nat → RBNode} {nilId tp : Nat} : ∀ (p : List Frame) (s : ITree),
    okAt h nilId tp (plug s p) = true ↔
      (okAt h nilId (parentOfPath tp p) s = true ∧
        pathOkAt h nilId tp p (s.rootId nilId) = true) := by
  intro p
  induction p with
  | nil => intro s; simp [plug, parentOfPath, pathOkAt]
  | cons f p2 ih =>
    intro s
    cases f with
    | lf i c d r =>
      show okAt h nilId tp (plug (ITree.node i c s d r) p2) = true ↔ _
      rw [ih]
      simp only [okAt_node, pathOkAt, parentOfPath, Bool.and_eq_true,
        decide_eq_true_iff, ITree.rootId]
      tauto
    | rf i c d l =>
      show okAt h nilId tp (plug (ITree.node i c l d s) p2) = true ↔ _
      rw [ih]
      simp only [okAt_node, pathOkAt, parentOfPath, Bool.and_eq_true,
        decide_eq_true_iff, ITree.rootId]
      tauto

/-- Frame rule for pathOkAt: it reads the heap only at the context ids. -/
lemma pathOkAt_congr {h h2 : Nat → RBNode} {nilId tp : Nat} :
    ∀ (p : List Frame), (∀ j ∈ pathIdsL p ++ pathIdsR p, h2 j = h j) →
      ∀ sr, pathOkAt h2 nilId tp p sr = pathOkAt h nilId tp p sr := by
  intro p
  induction p with
  | nil => intro _ sr; rfl
  | cons f p2 ih =>
    intro hag sr
    cases f with
    | lf i c d r =>
      have hi : h2 i = h i := hag i (by simp [pathIdsL, pathIdsR])
      have hr : okAt h2 nilId i r = okAt h nilId i r :=
        okAt_congr r (fun j hj => hag j (by simp [pathIdsL, pathIdsR, hj])) i
      have hp : pathOkAt h2 nilId tp p2 i = pathOkAt h nilId tp p2 i :=
        ih (fun j hj => hag j (by
          simp only [pathIdsL, pathIdsR, List.mem_append] at hj ⊢
          tauto)) i
      simp only [pathOkAt, hi, hr, hp]
    | rf i c d l =>
      have hi : h2 i = h i := hag i (by simp [pathIdsL, pathIdsR])
      have hl : okAt h2 nilId i l = okAt h nilId i l :=
        okAt_congr l (fun j hj => hag j (by simp [pathIdsL, pathIdsR, hj])) i
      have hp : pathOkAt h2 nilId tp p2 i = pathOkAt h nilId tp p2 i :=
        ih (fun j hj => hag j (by
          simp only [pathIdsL, pathIdsR, List.mem_append] at hj ⊢
          tauto)) i
      simp only [pathOkAt, hi, hl, hp]

lemma recolor_ids (j : Nat) (c2 : Color) : ∀ ft : ITree, (ft.recolor j c2).ids = ft.ids := by
  intro ft
  induction ft with
  | leaf => rfl
  | node i c l d r ihl ihr => simp [ITree.recolor, ids_node, ihl, ihr]

lemma recolor_dataList (j : Nat) (c2 : Color) :
    ∀ ft : ITree, (ft.recolor j c2).dataList = ft.dataList := by
  intro ft
  induction ft with
  | leaf => rfl
  | node i c l d r ihl ihr => simp [ITree.recolor, dataList_node, ihl, ihr]

lemma recolor_rootId (j n : Nat) (c2 : Color) (ft : ITree) :
    (ft.recolor j c2).rootId n = ft.rootId n := by
  cases ft <;> rfl

/-- A node->color = c2 write is realized functionally by ITree.recolor. -/
lemma okAt_recolor {h : Nat → RBNode} {nilId : Nat} (j : Nat) (c2 : Color) :
    ∀ (ft : ITree) (pid : Nat), okAt h nilId pid ft = true →
      okAt (hupd h j { h j with color := c2 }) nilId pid (ft.recolor j c2) = true := by
  intro ft
  induction ft with
  | leaf => intro pid _; rfl
  | node i c l d r ihl ihr =>
    intro pid hok
    rw [okAt_node] at hok
    obtain ⟨h1, h2, h3, h4, h5, h6, h7, h8, h9⟩ := hok
    rw [ITree.recolor, okAt_node]
    have hrec : hupd h j { h j with color := c2 } i =
        if i = j then { h j with color := c2 } else h i := by
      by_cases hij : i = j
      · subst hij; rw [hupd_self, if_pos rfl]
      · rw [hupd_ne h _ hij, if_neg hij]
    refine ⟨h1, h2, ?_, ?_, ?_, ?_, ?_, ihl i h8, ihr i h9⟩
    · rw [hrec]
      by_cases hij : i = j
      · subst hij; simp
      · simp [hij, h3]
    · rw [hrec]
      by_cases hij : i = j
      · subst hij; simpa using h4
      · simp [hij, h4]
    · rw [hrec, recolor_rootId]
      by_cases hij : i = j
      · subst hij; simpa using h5
      · simp [hij, h5]
    · rw [hrec, recolor_rootId]
      by_cases hij : i = j
      · subst hij; simpa using h6
      · simp [hij, h6]
    · rw [hrec]
      by_cases hij : i = j
      · subst hij; simpa using h7
      · simp [hij, h7]

/-- Effect of gc_rb_tree_left_rotate on a heap where x holds a right
child y (with left child b and parent pp): four records change (x, y, b
when real, and the parent slot), the root becomes y when x was the root,
and nothing else moves. -/
lemma left_rotate_char (t : RBTree) (x y b pp : Nat)
    (hxy : (t.heap x).right = y)
    (hyb : (t.heap y).left = b)
    (hxp : (t.heap x).parent = pp)
    (hyx : y ≠ x) (hxn : x ≠ t.nil) (hyn : y ≠ t.nil)
    (hbsep : b ≠ t.nil → b ≠ x ∧ b ≠ y)
    (hppsep : pp ≠ t.nil → pp ≠ x ∧ pp ≠ y ∧ pp ≠ b) :
    (gc_rb_tree_left_rotate t x).next = t.next ∧
    (gc_rb_tree_left_rotate t x).nil = t.nil ∧
    (gc_rb_tree_left_rotate t x).cmp = t.cmp ∧
    (gc_rb_tree_left_rotate t x).root = (if pp = t.nil then y else t.root) ∧
    ∀ j, (gc_rb_tree_left_rotate t x).heap j =
      if j = x then { t.heap x with right := b, parent := y }
      else if j = y then { t.heap y with parent := pp, left := x }
      else if j = b ∧ b ≠ t.nil then { t.heap b with parent := x }
      else if j = pp ∧ pp ≠ t.nil then
        (if x = (t.heap pp).left then { t.heap pp with left := y }
         else { t.heap pp with right := y })
      else t.heap j := by
  have hxy2 : x ≠ y := Ne.symm hyx
  by_cases hb : b = t.nil
  · -- no write at b
    have hstart : gc_rb_tree_left_rotate t x =
        writeParent (writeLeft
          (if ((writeParent (writeRight t x b) y pp).heap x).parent = t.nil then
            { writeParent (writeRight t x b) y pp with root := y }
          else if x = ((writeParent (writeRight t x b) y pp).heap
              (((writeParent (writeRight t x b) y pp).heap x).parent)).left then
            writeLeft (writeParent (writeRight t x b) y pp)
              (((writeParent (writeRight t x b) y pp).heap x).parent) y
          else
            writeRight (writeParent (writeRight t x b) y pp)
              (((writeParent (writeRight t x b) y pp).heap x).parent) y)
          y x) x y := by
      simp only [gc_rb_tree_left_rotate]
      rw [hxy, hyb]
      have r1 : (writeRight t x b).heap y = t.heap y := by rw [writeRight_heap, if_neg hyx]
      rw [r1, hyb]
      rw [if_neg (show ¬(b ≠ (writeRight t x b).nil) from fun hcon => hcon hb)]
      have f1 : ((writeRight t x b).heap x).parent = pp := by
        rw [writeRight_heap, if_pos rfl]
        simpa using hxp
      rw [f1]
      simp only [writeParent_nil, writeRight_nil]
    have f2 : ((writeParent (writeRight t x b) y pp).heap x).parent = pp := by
      rw [writeParent_heap, if_neg hxy2, writeRight_heap, if_pos rfl]
      simpa using hxp
    rw [hstart, f2]
    clear hstart
    by_cases hpp : pp = t.nil
    · rw [if_pos hpp]
      refine ⟨rfl, rfl, rfl, by simp [writeParent_root, writeLeft_root, writeRight_root, hpp], ?_⟩
      intro j
      simp only [writeParent_heap, writeLeft_heap, writeRight_heap]
      by_cases hjx : j = x <;> by_cases hjy : j = y <;>
        simp_all [Ne.symm hxn, Ne.symm hyn]
    · obtain ⟨hppx, hppy, hppb⟩ := hppsep hpp
      rw [if_neg hpp]
      have f3 : ((writeParent (writeRight t x b) y pp).heap pp).left = (t.heap pp).left := by
        rw [writeParent_heap, if_neg hppy, writeRight_heap, if_neg hppx]
      rw [f3]
      by_cases hside : x = (t.heap pp).left
      · rw [if_pos hside]
        refine ⟨rfl, rfl, rfl, by simp [writeParent_root, writeLeft_root, writeRight_root, hpp], ?_⟩
        intro j
        simp only [writeParent_heap, writeLeft_heap, writeRight_heap]
        by_cases hjx : j = x <;> by_cases hjy : j = y <;> by_cases hjpp : j = pp <;>
          simp_all [Ne.symm hppx, Ne.symm hppy, Ne.symm hxn, Ne.symm hyn]
      · rw [if_neg hside]
        refine ⟨rfl, rfl, rfl, by simp [writeParent_root, writeLeft_root, writeRight_root, hpp], ?_⟩
        intro j
        simp only [writeParent_heap, writeLeft_heap, writeRight_heap]
        by_cases hjx : j = x <;> by_cases hjy : j = y <;> by_cases hjpp : j = pp <;>
          simp_all [Ne.symm hppx, Ne.symm hppy, Ne.symm hxn, Ne.symm hyn]
  · -- b is a real node: its parent field is rewritten to x
    obtain ⟨hbx, hby⟩ := hbsep hb
    have hstart : gc_rb_tree_left_rotate t x =
        writeParent (writeLeft
          (if ((writeParent (writeParent (writeRight t x b) b x) y pp).heap x).parent = t.nil then
            { writeParent (writeParent (writeRight t x b) b x) y pp with root := y }
          else if x = ((writeParent (writeParent (writeRight t x b) b x) y pp).heap
              (((writeParent (writeParent (writeRight t x b) b x) y pp).heap x).parent)).left then
            writeLeft (writeParent (writeParent (writeRight t x b) b x) y pp)
              (((writeParent (writeParent (writeRight t x b) b x) y pp).heap x).parent) y
          else
            writeRight (writeParent (writeParent (writeRight t x b) b x) y pp)
              (((writeParent (writeParent (writeRight t x b) b x) y pp).heap x).parent) y)
          y x) x y := by
      simp only [gc_rb_tree_left_rotate]
      rw [hxy, hyb]
      have r1 : (writeRight t x b).heap y = t.heap y := by rw [writeRight_heap, if_neg hyx]
      rw [r1, hyb]
      rw [if_pos (show b ≠ (writeRight t x b).nil from hb)]
      have f1 : ((writeParent (writeRight t x b) b x).heap x).parent = pp := by
        rw [writeParent_heap, if_neg (Ne.symm hbx), writeRight_heap, if_pos rfl]
        simpa using hxp
      rw [f1]
      simp only [writeParent_nil, writeRight_nil]
    have f2 : ((writeParent (writeParent (writeRight t x b) b x) y pp).heap x).parent = pp := by
      rw [writeParent_heap, if_neg hxy2, writeParent_heap, if_neg (Ne.symm hbx),
        writeRight_heap, if_pos rfl]
      simpa using hxp
    rw [hstart, f2]
    clear hstart
    by_cases hpp : pp = t.nil
    · rw [if_pos hpp]
      refine ⟨rfl, rfl, rfl, by simp [writeParent_root, writeLeft_root, writeRight_root, hpp], ?_⟩
      intro j
      simp only [writeParent_heap, writeLeft_heap, writeRight_heap]
      by_cases hjx : j = x <;> by_cases hjy : j = y <;> by_cases hjb : j = b <;>
        simp_all [Ne.symm hbx, Ne.symm hby, Ne.symm hxn, Ne.symm hyn]
    · obtain ⟨hppx, hppy, hppb⟩ := hppsep hpp
      rw [if_neg hpp]
      have f3 : ((writeParent (writeParent (writeRight t x b) b x) y pp).heap pp).left =
          (t.heap pp).left := by
        rw [writeParent_heap, if_neg hppy, writeParent_heap, if_neg hppb,
          writeRight_heap, if_neg hppx]
      rw [f3]
      by_cases hside : x = (t.heap pp).left
      · rw [if_pos hside]
        refine ⟨rfl, rfl, rfl, by simp [writeParent_root, writeLeft_root, writeRight_root, hpp], ?_⟩
        intro j
        simp only [writeParent_heap, writeLeft_heap, writeRight_heap]
        by_cases hjx : j = x <;> by_cases hjy : j = y <;> by_cases hjb : j = b <;>
          by_cases hjpp : j = pp <;>
          simp_all [Ne.symm hbx, Ne.symm hby, Ne.symm hppx, Ne.symm hppy, Ne.symm hppb,
            Ne.symm hxn, Ne.symm hyn]
      · rw [if_neg hside]
        refine ⟨rfl, rfl, rfl, by simp [writeParent_root, writeLeft_root, writeRight_root, hpp], ?_⟩
        intro j
        simp only [writeParent_heap, writeLeft_heap, writeRight_heap]
        by_cases hjx : j = x <;> by_cases hjy : j = y <;> by_cases hjb : j = b <;>
          by_cases hjpp : j = pp <;>
          simp_all [Ne.symm hbx, Ne.symm hby, Ne.symm hppx, Ne.symm hppy, Ne.symm hppb,
            Ne.symm hxn, Ne.symm hyn]

/-- Effect of gc_rb_tree_right_rotate (mirror of left_rotate_char): y
holds a left child x whose right child is b; y's parent is pp. -/
lemma right_rotate_char (t : RBTree) (y x b pp : Nat)
    (hyx : (t.heap y).left = x)
    (hxb : (t.heap x).right = b)
    (hyp : (t.heap y).parent = pp)
    (hxy : x ≠ y) (hyn : y ≠ t.nil) (hxn : x ≠ t.nil)
    (hbsep : b ≠ t.nil → b ≠ x ∧ b ≠ y)
    (hppsep : pp ≠ t.nil → pp ≠ x ∧ pp ≠ y ∧ pp ≠ b) :
    (gc_rb_tree_right_rotate t y).next = t.next ∧
    (gc_rb_tree_right_rotate t y).nil = t.nil ∧
    (gc_rb_tree_right_rotate t y).cmp = t.cmp ∧
    (gc_rb_tree_right_rotate t y).root = (if pp = t.nil then x else t.root) ∧
    ∀ j, (gc_rb_tree_right_rotate t y).heap j =
      if j = y then { t.heap y with left := b, parent := x }
      else if j = x then { t.heap x with parent := pp, right := y }
      else if j = b ∧ b ≠ t.nil then { t.heap b with parent := y }
      else if j = pp ∧ pp ≠ t.nil then
        (if y = (t.heap pp).right then { t.heap pp with right := x }
         else { t.heap pp with left := x })
      else t.heap j := by
  have hyx2 : y ≠ x := Ne.symm hxy
  by_cases hb : b = t.nil
  · have hstart : gc_rb_tree_right_rotate t y =
        writeParent (writeRight
          (if ((writeParent (writeLeft t y b) x pp).heap y).parent = t.nil then
            { writeParent (writeLeft t y b) x pp with root := x }
          else if y = ((writeParent (writeLeft t y b) x pp).heap
              (((writeParent (writeLeft t y b) x pp).heap y).parent)).right then
            writeRight (writeParent (writeLeft t y b) x pp)
              (((writeParent (writeLeft t y b) x pp).heap y).parent) x
          else
            writeLeft (writeParent (writeLeft t y b) x pp)
              (((writeParent (writeLeft t y b) x pp).heap y).parent) x)
          x y) y x := by
      simp only [gc_rb_tree_right_rotate]
      rw [hyx, hxb]
      have r1 : (writeLeft t y b).heap x = t.heap x := by rw [writeLeft_heap, if_neg hxy]
      rw [r1, hxb]
      rw [if_neg (show ¬(b ≠ (writeLeft t y b).nil) from fun hcon => hcon hb)]
      have f1 : ((writeLeft t y b).heap y).parent = pp := by
        rw [writeLeft_heap, if_pos rfl]
        simpa using hyp
      rw [f1]
      simp only [writeParent_nil, writeLeft_nil]
    have f2 : ((writeParent (writeLeft t y b) x pp).heap y).parent = pp := by
      rw [writeParent_heap, if_neg hyx2, writeLeft_heap, if_pos rfl]
      simpa using hyp
    rw [hstart, f2]
    clear hstart
    by_cases hpp : pp = t.nil
    · rw [if_pos hpp]
      refine ⟨rfl, rfl, rfl, by simp [writeParent_root, writeLeft_root, writeRight_root, hpp], ?_⟩
      intro j
      simp only [writeParent_heap, writeLeft_heap, writeRight_heap]
      by_cases hjy : j = y <;> by_cases hjx : j = x <;>
        simp_all [Ne.symm hxn, Ne.symm hyn]
    · obtain ⟨hppx, hppy, hppb⟩ := hppsep hpp
      rw [if_neg hpp]
      have f3 : ((writeParent (writeLeft t y b) x pp).heap pp).right = (t.heap pp).right := by
        rw [writeParent_heap, if_neg hppx, writeLeft_heap, if_neg hppy]
      rw [f3]
      by_cases hside : y = (t.heap pp).right
      · rw [if_pos hside]
        refine ⟨rfl, rfl, rfl, by simp [writeParent_root, writeLeft_root, writeRight_root, hpp], ?_⟩
        intro j
        simp only [writeParent_heap, writeLeft_heap, writeRight_heap]
        by_cases hjy : j = y <;> by_cases hjx : j = x <;> by_cases hjpp : j = pp <;>
          simp_all [Ne.symm hppx, Ne.symm hppy, Ne.symm hxn, Ne.symm hyn]
      · rw [if_neg hside]
        refine ⟨rfl, rfl, rfl, by simp [writeParent_root, writeLeft_root, writeRight_root, hpp], ?_⟩
        intro j
        simp only [writeParent_heap, writeLeft_heap, writeRight_heap]
        by_cases hjy : j = y <;> by_cases hjx : j = x <;> by_cases hjpp : j = pp <;>
          simp_all [Ne.symm hppx, Ne.symm hppy, Ne.symm hxn, Ne.symm hyn]
  · obtain ⟨hbx, hby⟩ := hbsep hb
    have hstart : gc_rb_tree_right_rotate t y =
        writeParent (writeRight
          (if ((writeParent (writeParent (writeLeft t y b) b y) x pp).heap y).parent = t.nil then
            { writeParent (writeParent (writeLeft t y b) b y) x pp with root := x }
          else if y = ((writeParent (writeParent (writeLeft t y b) b y) x pp).heap
              (((writeParent (writeParent (writeLeft t y b) b y) x pp).heap y).parent)).right then
            writeRight (writeParent (writeParent (writeLeft t y b) b y) x pp)
              (((writeParent (writeParent (writeLeft t y b) b y) x pp).heap y).parent) x
          else
            writeLeft (writeParent (writeParent (writeLeft t y b) b y) x pp)
              (((writeParent (writeParent (writeLeft t y b) b y) x pp).heap y).parent) x)
          x y) y x := by
      simp only [gc_rb_tree_right_rotate]
      rw [hyx, hxb]
      have r1 : (writeLeft t y b).heap x = t.heap x := by rw [writeLeft_heap, if_neg hxy]
      rw [r1, hxb]
      rw [if_pos (show b ≠ (writeLeft t y b).nil from hb)]
      have f1 : ((writeParent (writeLeft t y b) b y).heap y).parent = pp := by
        rw [writeParent_heap, if_neg (Ne.symm hby), writeLeft_heap, if_pos rfl]
        simpa using hyp
      rw [f1]
      simp only [writeParent_nil, writeLeft_nil]
    have f2 : ((writeParent (writeParent (writeLeft t y b) b y) x pp).heap y).parent = pp := by
      rw [writeParent_heap, if_neg hyx2, writeParent_heap, if_neg (Ne.symm hby),
        writeLeft_heap, if_pos rfl]
      simpa using hyp
    rw [hstart, f2]
    clear hstart
    by_cases hpp : pp = t.nil
    · rw [if_pos hpp]
      refine ⟨rfl, rfl, rfl, by simp [writeParent_root, writeLeft_root, writeRight_root, hpp], ?_⟩
      intro j
      simp only [writeParent_heap, writeLeft_heap, writeRight_heap]
      by_cases hjy : j = y <;> by_cases hjx : j = x <;> by_cases hjb : j = b <;>
        simp_all [Ne.symm hbx, Ne.symm hby, Ne.symm hxn, Ne.symm hyn]
    · obtain ⟨hppx, hppy, hppb⟩ := hppsep hpp
      rw [if_neg hpp]
      have f3 : ((writeParent (writeParent (writeLeft t y b) b y) x pp).heap pp).right =
          (t.heap pp).right := by
        rw [writeParent_heap, if_neg hppx, writeParent_heap, if_neg hppb,
          writeLeft_heap, if_neg hppy]
      rw [f3]
      by_cases hside : y = (t.heap pp).right
      · rw [if_pos hside]
        refine ⟨rfl, rfl, rfl, by simp [writeParent_root, writeLeft_root, writeRight_root, hpp], ?_⟩
        intro j
        simp only [writeParent_heap, writeLeft_heap, writeRight_heap]
        by_cases hjy : j = y <;> by_cases hjx : j = x <;> by_cases hjb : j = b <;>
          by_cases hjpp : j = pp <;>
          simp_all [Ne.symm hbx, Ne.symm hby, Ne.symm hppx, Ne.symm hppy, Ne.symm hppb,
            Ne.symm hxn, Ne.symm hyn]
      · rw [if_neg hside]
        refine ⟨rfl, rfl, rfl, by simp [writeParent_root, writeLeft_root, writeRight_root, hpp], ?_⟩
        intro j
        simp only [writeParent_heap, writeLeft_heap, writeRight_heap]
        by_cases hjy : j = y <;> by_cases hjx : j = x <;> by_cases hjb : j = b <;>
          by_cases hjpp : j = pp <;>
          simp_all [Ne.symm hbx, Ne.symm hby, Ne.symm hppx, Ne.symm hppy, Ne.symm hppb,
            Ne.symm hxn, Ne.symm hyn]

lemma pathOkAt_lf {h : Nat → RBNode} {nilId tp i : Nat} {c : Color} {d : Nat} {r : ITree}
    {p : List Frame} {sr : Nat} :
    pathOkAt h nilId tp (Frame.lf i c d r :: p) sr = true ↔
      i ≠ nilId ∧ i ≠ 0 ∧ (h i).color = c ∧ (h i).data = d ∧
      (h i).left = sr ∧ (h i).right = r.rootId nilId ∧
      (h i).parent = parentOfPath tp p ∧
      okAt h nilId i r = true ∧ pathOkAt h nilId tp p i = true := by
  simp [pathOkAt, Bool.and_eq_true, decide_eq_true_iff, and_assoc]

lemma pathOkAt_rf {h : Nat → RBNode} {nilId tp i : Nat} {c : Color} {d : Nat} {l : ITree}
    {p : List Frame} {sr : Nat} :
    pathOkAt h nilId tp (Frame.rf i c d l :: p) sr = true ↔
      i ≠ nilId ∧ i ≠ 0 ∧ (h i).color = c ∧ (h i).data = d ∧
      (h i).left = l.rootId nilId ∧ (h i).right = sr ∧
      (h i).parent = parentOfPath tp p ∧
      okAt h nilId i l = true ∧ pathOkAt h nilId tp p i = true := by
  simp [pathOkAt, Bool.and_eq_true, decide_eq_true_iff, and_assoc]

/-- The parent of the focus is one of the context ids when the context
is non-empty. -/
lemma parentOfPath_mem {tp : Nat} : ∀ {p : List Frame}, p ≠ [] →
    parentOfPath tp p ∈ pathIdsL p ++ pathIdsR p := by
  intro p hp
  cases p with
  | nil => exact absurd rfl hp
  | cons f rest =>
    cases f with
    | lf i c d r => simp [parentOfPath, pathIdsL, pathIdsR]
    | rf i c d l => simp [parentOfPath, pathIdsL, pathIdsR]

/-- Context ids of the tail are context ids of the whole path. -/
lemma pathIds_tail_sub {f : Frame} {p : List Frame} :
    ∀ j ∈ pathIdsL p ++ pathIdsR p, j ∈ pathIdsL (f :: p) ++ pathIdsR (f :: p) := by
  intro j hj
  rw [List.mem_append] at hj
  cases f with
  | lf i c d r =>
    simp only [pathIdsL, pathIdsR, List.mem_append, List.mem_cons]
    tauto
  | rf i c d l =>
    simp only [pathIdsL, pathIdsR, List.mem_append, List.mem_cons]
    tauto

/-- Distinctness facts extracted from the nodup in-order id list of a
plugged two-level focus (context ids L/R around A ++ x :: (B ++ y :: C)). -/
lemma nodup_focus2 {L R A B C : List Nat} {x y : Nat}
    (h : (L ++ (A ++ x :: (B ++ y :: C)) ++ R).Nodup) :
    y ≠ x ∧ x ∉ A ∧ x ∉ B ∧ x ∉ C ∧ y ∉ A ∧ y ∉ B ∧ y ∉ C ∧
    (∀ a ∈ B, a ∉ A ∧ a ∉ C) ∧
    (∀ a ∈ L ++ R, a ∉ A ∧ a ≠ x ∧ a ∉ B ∧ a ≠ y ∧ a ∉ C) ∧
    B.Nodup ∧ (L ++ R).Nodup := by
  have hLR : (L ++ R).Nodup := by
    refine List.Nodup.sublist ?_ h
    exact List.Sublist.append (List.sublist_append_left L (A ++ x :: (B ++ y :: C)))
      (List.Sublist.refl R)
  simp only [List.nodup_append, List.nodup_cons, List.mem_append, List.mem_cons,
    List.disjoint_left, not_or] at h
  obtain ⟨⟨hL, ⟨hA, ⟨⟨hxB, hxy, hxC⟩, hB, ⟨hyC, hC⟩, hBy⟩, hAx⟩, hLx⟩, hR, hcross⟩ := h
  refine ⟨fun he => hxy he.symm, fun hm => (hAx hm).1 rfl, hxB, hxC,
    fun hm => (hAx hm).2.2.1 rfl, fun hm => (hBy hm).1 rfl, hyC,
    fun a ha => ⟨fun hm => (hAx hm).2.1 ha, (hBy ha).2⟩, ?_, hB, hLR⟩
  intro a ha
  rw [List.mem_append] at ha
  rcases ha with ha | ha
  · exact (hLx ha)
  · exact ⟨fun hm => hcross (Or.inr (Or.inl hm)) ha,
      fun he => hcross (Or.inr (Or.inr (Or.inl he))) ha,
      fun hm => hcross (Or.inr (Or.inr (Or.inr (Or.inl hm)))) ha,
      fun he => hcross (Or.inr (Or.inr (Or.inr (Or.inr (Or.inl he))))) ha,
      fun hm => hcross (Or.inr (Or.inr (Or.inr (Or.inr (Or.inr hm))))) ha⟩

lemma okAt_frame {h h2 : Nat → RBNode} {nilId pid : Nat} (ft : ITree)
    (hok : okAt h nilId pid ft = true) (hag : ∀ j ∈ ft.ids, h2 j = h j) :
    okAt h2 nilId pid ft = true := by
  rw [okAt_congr ft hag]
  exact hok

/-- A subtree hung under a new parent: its root record gets the new
parent pointer, the rest is untouched. -/
lemma okAt_move_subtree {h h2 : Nat → RBNode} {nilId pid pid2 : Nat} :
    ∀ (B : ITree), okAt h nilId pid B = true →
      B.ids.Nodup →
      (∀ j ∈ B.ids, j ≠ B.rootId nilId → h2 j = h j) →
      (B ≠ ITree.leaf → h2 (B.rootId nilId) = { h (B.rootId nilId) with parent := pid2 }) →
      okAt h2 nilId pid2 B = true := by
  intro B hok hnd hag hroot
  cases B with
  | leaf => rfl
  | node br bc bl bd brr =>
    rw [okAt_node] at hok
    obtain ⟨h1, h2', h3, h4, h5, h6, h7, h8, h9⟩ := hok
    have hr := hroot (by simp)
    rw [ITree.rootId] at hr
    rw [ids_node] at hnd hag
    rw [List.nodup_append, List.nodup_cons] at hnd
    refine okAt_node.2 ⟨h1, h2', ?_, ?_, ?_, ?_, ?_, ?_, ?_⟩
    · rw [hr]; simpa using h3
    · rw [hr]; simpa using h4
    · rw [hr]; simpa using h5
    · rw [hr]; simpa using h6
    · rw [hr]
    · refine okAt_frame bl h8 ?_
      intro j hj
      refine hag j (by simp [hj]) ?_
      rw [ITree.rootId]
      intro habs
      exact hnd.2.2 hj (by simp [habs])
    · refine okAt_frame brr h9 ?_
      intro j hj
      refine hag j (by simp [hj]) ?_
      rw [ITree.rootId]
      intro habs
      rw [habs] at hj
      exact hnd.2.1.1 hj

/-- Pure reshaping fact: the in-order id lists of the two rotation
patterns agree. -/
lemma lrot_ids (p : List Frame) (x dx y dy : Nat) (cx cy : Color) (A B C : ITree) :
    (plug (ITree.node y cy (ITree.node x cx A dx B) dy C) p).ids =
      (plug (ITree.node x cx A dx (ITree.node y cy B dy C)) p).ids := by
  rw [plug_ids, plug_ids]
  simp [ids_node, List.append_assoc]

/-- Pure reshaping fact: rotation preserves the in-order payload list. -/
lemma lrot_dataList (p : List Frame) (x dx y dy : Nat) (cx cy : Color) (A B C : ITree) :
    (plug (ITree.node y cy (ITree.node x cx A dx B) dy C) p).dataList =
      (plug (ITree.node x cx A dx (ITree.node y cy B dy C)) p).dataList := by
  rw [plug_dataList, plug_dataList]
  simp [dataList_node, List.append_assoc]

set_option maxHeartbeats 2000000 in
/-- Zipper-level left rotation: gc_rb_tree_left_rotate at the focus root
x turns the focused two-level pattern into its rotated form, preserving
well-formedness and the scalar tree fields. -/
lemma left_rotate_spec (t : RBTree) (path : List Frame) (x dx y dy : Nat)
    (cx cy : Color) (A B C : ITree)
    (hwf : TreeWf t (plug (ITree.node x cx A dx (ITree.node y cy B dy C)) path)) :
    TreeWf (gc_rb_tree_left_rotate t x)
        (plug (ITree.node y cy (ITree.node x cx A dx B) dy C) path) ∧
    (gc_rb_tree_left_rotate t x).next = t.next ∧
    (gc_rb_tree_left_rotate t x).nil = t.nil ∧
    (gc_rb_tree_left_rotate t x).cmp = t.cmp := by
  obtain ⟨hokF, hpathF⟩ := (okAt_plug path _).1 hwf.ok
  rw [okAt_node] at hokF
  obtain ⟨hxnil, hx0, hxc, hxd, hxl, hxr, hxp, hokA, hokY⟩ := hokF
  rw [okAt_node] at hokY
  obtain ⟨hynil, hy0, hyc, hyd, hyl, hyr, hyp, hokB, hokC⟩ := hokY
  simp only [ITree.rootId] at hpathF
  have hnd0 := hwf.nodup
  rw [plug_ids] at hnd0
  simp only [ids_node] at hnd0
  obtain ⟨hyx, hxA, hxB, hxC, hyA, hyB, hyC, hBsep, hLRsep, hndB, hndLR⟩ := nodup_focus2 hnd0
  have hxr2 : (t.heap x).right = y := by simpa [ITree.rootId] using hxr
  have hbmem : B.rootId t.nil ≠ t.nil → B.rootId t.nil ∈ B.ids := by
    intro hbne
    cases hB : B with
    | leaf => rw [hB] at hbne; exact absurd rfl hbne
    | node br bc bl bd brr => exact rootId_mem (by simp)
  have hbsep : B.rootId t.nil ≠ t.nil → B.rootId t.nil ≠ x ∧ B.rootId t.nil ≠ y := by
    intro hbne
    have hmem := hbmem hbne
    exact ⟨fun he => hxB (he ▸ hmem), fun he => hyB (he ▸ hmem)⟩
  have hppne : path ≠ [] → parentOfPath t.nil path ≠ t.nil := by
    intro hpne
    cases hpth : path with
    | nil => exact absurd hpth hpne
    | cons f rest =>
      cases f with
      | lf i1 c1 d1 r1 => exact (pathOkAt_lf.1 (hpth ▸ hpathF)).1
      | rf i1 c1 d1 l1 => exact (pathOkAt_rf.1 (hpth ▸ hpathF)).1
  have hppsep : parentOfPath t.nil path ≠ t.nil →
      parentOfPath t.nil path ≠ x ∧ parentOfPath t.nil path ≠ y ∧
      parentOfPath t.nil path ≠ B.rootId t.nil := by
    intro hpp
    have hpne : path ≠ [] := by
      intro habs
      rw [habs] at hpp
      exact hpp rfl
    have hfacts := hLRsep (parentOfPath t.nil path) (parentOfPath_mem hpne)
    refine ⟨hfacts.2.1, hfacts.2.2.2.1, fun habs => ?_⟩
    by_cases hbne : B.rootId t.nil = t.nil
    · rw [habs, hbne] at hpp
      exact hpp rfl
    · exact hfacts.2.2.1 (habs ▸ hbmem hbne)
  obtain ⟨hnext, hnil, hcmp, hroot, hheap⟩ :=
    left_rotate_char t x y (B.rootId t.nil) (parentOfPath t.nil path)
      hxr2 hyl hxp hyx hxnil hynil hbsep hppsep
  have h2x : (gc_rb_tree_left_rotate t x).heap x =
      { t.heap x with right := B.rootId t.nil, parent := y } := by
    rw [hheap x, if_pos rfl]
  have h2y : (gc_rb_tree_left_rotate t x).heap y =
      { t.heap y with parent := parentOfPath t.nil path, left := x } := by
    rw [hheap y, if_neg hyx, if_pos rfl]
  have h2other : ∀ j, j ≠ x → j ≠ y →
      (B.rootId t.nil ≠ t.nil → j ≠ B.rootId t.nil) →
      (parentOfPath t.nil path ≠ t.nil → j ≠ parentOfPath t.nil path) →
      (gc_rb_tree_left_rotate t x).heap j = t.heap j := by
    intro j hjx hjy hjb hjpp
    rw [hheap j, if_neg hjx, if_neg hjy,
      if_neg (fun hc => (hjb hc.2) hc.1), if_neg (fun hc => (hjpp hc.2) hc.1)]
  have hagA : ∀ j ∈ A.ids, (gc_rb_tree_left_rotate t x).heap j = t.heap j := by
    intro j hj
    refine h2other j (fun he => hxA (he ▸ hj)) (fun he => hyA (he ▸ hj)) ?_ ?_
    · intro hbne he
      exact (hBsep _ (hbmem hbne)).1 (he ▸ hj)
    · intro hpp he
      exact (hLRsep _ (parentOfPath_mem (fun habs => hpp (by rw [habs]; rfl)))).1 (he ▸ hj)
  have hagC : ∀ j ∈ C.ids, (gc_rb_tree_left_rotate t x).heap j = t.heap j := by
    intro j hj
    refine h2other j (fun he => hxC (he ▸ hj)) (fun he => hyC (he ▸ hj)) ?_ ?_
    · intro hbne he
      exact (hBsep _ (hbmem hbne)).2 (he ▸ hj)
    · intro hpp he
      exact (hLRsep _ (parentOfPath_mem
        (fun habs => hpp (by rw [habs]; rfl)))).2.2.2.2 (he ▸ hj)
  have hagLR : ∀ j ∈ pathIdsL path ++ pathIdsR path,
      j ≠ parentOfPath t.nil path → (gc_rb_tree_left_rotate t x).heap j = t.heap j := by
    intro j hj hjpp
    have hfacts := hLRsep _ hj
    refine h2other j hfacts.2.1 hfacts.2.2.2.1 ?_ (fun _ => hjpp)
    intro hbne he
    exact hfacts.2.2.1 (he ▸ hbmem hbne)
  have hokFocus : okAt (gc_rb_tree_left_rotate t x).heap t.nil (parentOfPath t.nil path)
      (ITree.node y cy (ITree.node x cx A dx B) dy C) = true := by
    refine okAt_node.2 ⟨hynil, hy0, ?_, ?_, ?_, ?_, ?_, ?_, ?_⟩
    · rw [h2y]; simpa using hyc
    · rw [h2y]; simpa using hyd
    · rw [h2y]; simp [ITree.rootId]
    · rw [h2y]; simpa using hyr
    · rw [h2y]
    · refine okAt_node.2 ⟨hxnil, hx0, ?_, ?_, ?_, ?_, ?_, ?_, ?_⟩
      · rw [h2x]; simpa using hxc
      · rw [h2x]; simpa using hxd
      · rw [h2x]; simpa using hxl
      · rw [h2x]
      · rw [h2x]
      · exact okAt_frame A hokA hagA
      · refine okAt_move_subtree B hokB hndB ?_ ?_
        · intro j hj hjb
          refine h2other j (fun he => hxB (he ▸ hj)) (fun he => hyB (he ▸ hj))
            (fun _ => hjb) ?_
          intro hpp he
          exact (hLRsep _ (parentOfPath_mem
            (fun habs => hpp (by rw [habs]; rfl)))).2.2.1 (he ▸ hj)
        · intro hBne
          have hbne : B.rootId t.nil ≠ t.nil := rootId_ne_nil hokB hBne
          rw [hheap (B.rootId t.nil), if_neg (hbsep hbne).1, if_neg (hbsep hbne).2,
            if_pos ⟨rfl, hbne⟩]
    · exact okAt_frame C hokC hagC
  have hpathOk : pathOkAt (gc_rb_tree_left_rotate t x).heap t.nil t.nil path y = true := by
    cases hpth : path with
    | nil => rfl
    | cons f rest =>
      have hppid : parentOfPath t.nil path ≠ t.nil := hppne (by rw [hpth]; simp)
      cases f with
      | lf i1 c1 d1 r1 =>
        obtain ⟨hi1nil, hi10, hi1c, hi1d, hi1l, hi1r, hi1p, hokR1, hpathRest⟩ :=
          pathOkAt_lf.1 (hpth ▸ hpathF)
        have hppi : parentOfPath t.nil path = i1 := by rw [hpth]; rfl
        have h2pp : (gc_rb_tree_left_rotate t x).heap i1 = { t.heap i1 with left := y } := by
          have h1 := hppsep hppid
          rw [hppi] at h1
          rw [hheap i1, if_neg h1.1, if_neg h1.2.1,
            if_neg (fun hc => h1.2.2 hc.1), if_pos ⟨(hppi.symm : i1 = _), hppid⟩,
            hppi, if_pos hi1l.symm]
        have hndLR2 : ((pathIdsL rest ++ ((i1 :: r1.ids) ++ pathIdsR rest))).Nodup := by
          have := hpth ▸ hndLR
          simpa [pathIdsL, pathIdsR] using this
        have hndR : (i1 :: (r1.ids ++ pathIdsR rest)).Nodup :=
          List.Nodup.sublist
            (List.sublist_append_right (pathIdsL rest) ((i1 :: r1.ids) ++ pathIdsR rest))
            hndLR2
        have hi1notin := (List.nodup_cons.1 hndR).1
        have hi1notL : i1 ∉ pathIdsL rest := by
          intro hmem
          rw [List.nodup_append] at hndLR2
          exact hndLR2.2.2 hmem (by simp)
        have hagIn : ∀ j, j ∈ pathIdsL rest ++ (r1.ids ++ pathIdsR rest) →
            (gc_rb_tree_left_rotate t x).heap j = t.heap j := by
          intro j hj
          have hjfull : j ∈ pathIdsL path ++ pathIdsR path := by
            rw [hpth]
            simp only [pathIdsL, pathIdsR, List.mem_append, List.mem_cons]
            rw [List.mem_append, List.mem_append] at hj
            tauto
          have hji1 : j ≠ i1 := by
            intro habs
            rw [List.mem_append, List.mem_append] at hj
            rcases hj with hj | hj | hj
            · exact hi1notL (habs ▸ hj)
            · exact hi1notin (by rw [List.mem_append]; exact Or.inl (habs ▸ hj))
            · exact hi1notin (by rw [List.mem_append]; exact Or.inr (habs ▸ hj))
          exact hagLR j hjfull (hppi ▸ hji1)
        refine pathOkAt_lf.2 ⟨hi1nil, hi10, ?_, ?_, ?_, ?_, ?_, ?_, ?_⟩
        · rw [h2pp]; simpa using hi1c
        · rw [h2pp]; simpa using hi1d
        · rw [h2pp]
        · rw [h2pp]; simpa using hi1r
        · rw [h2pp]; simpa using hi1p
        · refine okAt_frame r1 hokR1 ?_
          intro j hj
          exact hagIn j (by rw [List.mem_append, List.mem_append]; exact Or.inr (Or.inl hj))
        · rw [pathOkAt_congr rest ?_ i1]
          · exact hpathRest
          · intro j hj
            rw [List.mem_append] at hj
            refine hagIn j ?_
            rw [List.mem_append, List.mem_append]
            tauto
      | rf i1 c1 d1 l1 =>
        obtain ⟨hi1nil, hi10, hi1c, hi1d, hi1l, hi1r, hi1p, hokL1, hpathRest⟩ :=
          pathOkAt_rf.1 (hpth ▸ hpathF)
        have hppi : parentOfPath t.nil path = i1 := by rw [hpth]; rfl
        have hsideF : ¬(x = (t.heap i1).left) := by
          rw [hi1l]
          cases hl1 : l1 with
          | leaf =>
            rw [ITree.rootId]
            exact fun h => hxnil h
          | node la lb lc ld le =>
            intro habs
            have hm : l1.rootId t.nil ∈ pathIdsL path ++ pathIdsR path := by
              rw [hpth]
              simp only [pathIdsL, pathIdsR, List.mem_append]
              refine Or.inl (Or.inl (Or.inr ?_))
              rw [hl1]
              exact rootId_mem (by simp)
            have h9 := (hLRsep _ hm).2.1
            rw [hl1] at h9
            exact h9 habs.symm
        have h2pp : (gc_rb_tree_left_rotate t x).heap i1 = { t.heap i1 with right := y } := by
          have h1 := hppsep hppid
          rw [hppi] at h1
          rw [hheap i1, if_neg h1.1, if_neg h1.2.1,
            if_neg (fun hc => h1.2.2 hc.1), if_pos ⟨(hppi.symm : i1 = _), hppid⟩,
            hppi, if_neg hsideF]
        have hndLR2 : (((pathIdsL rest ++ l1.ids) ++ [i1]) ++ pathIdsR rest).Nodup := by
          have := hpth ▸ hndLR
          simpa [pathIdsL, pathIdsR] using this
        obtain ⟨hndXi, hndY, hdisj⟩ := List.nodup_append.1 hndLR2
        have hi1X : i1 ∉ pathIdsL rest ++ l1.ids := by
          intro hmem
          exact (List.nodup_append.1 hndXi).2.2 hmem (by simp)
        have hi1Y : i1 ∉ pathIdsR rest := fun hm => hdisj (by simp) hm
        have hagIn : ∀ j, j ∈ (pathIdsL rest ++ l1.ids) ++ pathIdsR rest →
            (gc_rb_tree_left_rotate t x).heap j = t.heap j := by
          intro j hj
          have hjfull : j ∈ pathIdsL path ++ pathIdsR path := by
            rw [hpth]
            simp only [pathIdsL, pathIdsR, List.mem_append]
            rw [List.mem_append, List.mem_append] at hj
            tauto
          have hji1 : j ≠ i1 := by
            intro habs
            rw [List.mem_append] at hj
            rcases hj with hj | hj
            · exact hi1X (habs ▸ hj)
            · exact hi1Y (habs ▸ hj)
          exact hagLR j hjfull (hppi ▸ hji1)
        refine pathOkAt_rf.2 ⟨hi1nil, hi10, ?_, ?_, ?_, ?_, ?_, ?_, ?_⟩
        · rw [h2pp]; simpa using hi1c
        · rw [h2pp]; simpa using hi1d
        · rw [h2pp]; simpa using hi1l
        · rw [h2pp]
        · rw [h2pp]; simpa using hi1p
        · refine okAt_frame l1 hokL1 ?_
          intro j hj
          exact hagIn j (by
            rw [List.mem_append, List.mem_append]
            exact Or.inl (Or.inr hj))
        · rw [pathOkAt_congr rest ?_ i1]
          · exact hpathRest
          · intro j hj
            rw [List.mem_append] at hj
            refine hagIn j ?_
            rw [List.mem_append, List.mem_append]
            tauto
  have hnilheap : (gc_rb_tree_left_rotate t x).heap t.nil = t.heap t.nil :=
    h2other t.nil (Ne.symm hxnil) (Ne.symm hynil)
      (fun hbne => Ne.symm hbne) (fun hpp => Ne.symm hpp)
  refine ⟨⟨?_, ?_, ?_, ?_, ?_, ?_, ?_, ?_, ?_⟩, hnext, hnil, hcmp⟩
  · rw [hnil, okAt_plug]
    exact ⟨hokFocus, by simpa [ITree.rootId] using hpathOk⟩
  · rw [hnil, hroot]
    cases hpth : path with
    | nil =>
      rw [if_pos (show parentOfPath t.nil [] = t.nil from rfl)]
      rfl
    | cons f rest =>
      rw [if_neg (hpth ▸ hppne (by rw [hpth]; simp))]
      rw [hwf.root_eq, hpth]
      exact plug_rootId t.nil _ _ _ (by simp)
  · rw [lrot_ids]
    exact hwf.nodup
  · rw [hnext]
    intro i hi
    rw [lrot_ids] at hi
    exact hwf.bound i hi
  · rw [hnil]
    exact hwf.nil_ne
  · rw [hnil, hnext]
    exact hwf.nil_lt
  · rw [hnil, hnilheap]
    exact hwf.nil_black
  · rw [hnil, hnilheap]
    exact hwf.nil_left
  · rw [hnil, hnilheap]
    exact hwf.nil_right

set_option maxHeartbeats 2000000 in
/-- Zipper-level right rotation: gc_rb_tree_right_rotate at the focus root
y turns the focused two-level pattern into its rotated form, preserving
well-formedness and the scalar tree fields. -/
lemma right_rotate_spec (t : RBTree) (path : List Frame) (x dx y dy : Nat)
    (cx cy : Color) (A B C : ITree)
    (hwf : TreeWf t (plug (ITree.node y cy (ITree.node x cx A dx B) dy C) path)) :
    TreeWf (gc_rb_tree_right_rotate t y)
        (plug (ITree.node x cx A dx (ITree.node y cy B dy C)) path) ∧
    (gc_rb_tree_right_rotate t y).next = t.next ∧
    (gc_rb_tree_right_rotate t y).nil = t.nil ∧
    (gc_rb_tree_right_rotate t y).cmp = t.cmp := by
  obtain ⟨hokF, hpathF⟩ := (okAt_plug path _).1 hwf.ok
  rw [okAt_node] at hokF
  obtain ⟨hynil, hy0, hyc, hyd, hyl, hyr, hyp, hokX, hokC⟩ := hokF
  rw [okAt_node] at hokX
  obtain ⟨hxnil, hx0, hxc, hxd, hxl, hxr, hxp, hokA, hokB⟩ := hokX
  simp only [ITree.rootId] at hpathF
  have hnd0 := hwf.nodup
  rw [plug_ids] at hnd0
  have hnd1 : (pathIdsL path ++ (A.ids ++ x :: (B.ids ++ y :: C.ids)) ++
      pathIdsR path).Nodup := by
    simpa [ids_node, List.append_assoc] using hnd0
  obtain ⟨hyx, hxA, hxB, hxC, hyA, hyB, hyC, hBsep, hLRsep, hndB, hndLR⟩ := nodup_focus2 hnd1
  have hyl2 : (t.heap y).left = x := by simpa [ITree.rootId] using hyl
  have hbmem : B.rootId t.nil ≠ t.nil → B.rootId t.nil ∈ B.ids := by
    intro hbne
    cases hB : B with
    | leaf => rw [hB] at hbne; exact absurd rfl hbne
    | node br bc bl bd brr => exact rootId_mem (by simp)
  have hbsep : B.rootId t.nil ≠ t.nil → B.rootId t.nil ≠ x ∧ B.rootId t.nil ≠ y := by
    intro hbne
    have hmem := hbmem hbne
    exact ⟨fun he => hxB (he ▸ hmem), fun he => hyB (he ▸ hmem)⟩
  have hppne : path ≠ [] → parentOfPath t.nil path ≠ t.nil := by
    intro hpne
    cases hpth : path with
    | nil => exact absurd hpth hpne
    | cons f rest =>
      cases f with
      | lf i1 c1 d1 r1 => exact (pathOkAt_lf.1 (hpth ▸ hpathF)).1
      | rf i1 c1 d1 l1 => exact (pathOkAt_rf.1 (hpth ▸ hpathF)).1
  have hppsep : parentOfPath t.nil path ≠ t.nil →
      parentOfPath t.nil path ≠ x ∧ parentOfPath t.nil path ≠ y ∧
      parentOfPath t.nil path ≠ B.rootId t.nil := by
    intro hpp
    have hpne : path ≠ [] := by
      intro habs
      rw [habs] at hpp
      exact hpp rfl
    have hfacts := hLRsep (parentOfPath t.nil path) (parentOfPath_mem hpne)
    refine ⟨hfacts.2.1, hfacts.2.2.2.1, fun habs => ?_⟩
    by_cases hbne : B.rootId t.nil = t.nil
    · rw [habs, hbne] at hpp
      exact hpp rfl
    · exact hfacts.2.2.1 (habs ▸ hbmem hbne)
  obtain ⟨hnext, hnil, hcmp, hroot, hheap⟩ :=
    right_rotate_char t y x (B.rootId t.nil) (parentOfPath t.nil path)
      hyl2 hxr hyp (Ne.symm hyx) hynil hxnil hbsep hppsep
  have h2y : (gc_rb_tree_right_rotate t y).heap y =
      { t.heap y with left := B.rootId t.nil, parent := x } := by
    rw [hheap y, if_pos rfl]
  have h2x : (gc_rb_tree_right_rotate t y).heap x =
      { t.heap x with parent := parentOfPath t.nil path, right := y } := by
    rw [hheap x, if_neg (Ne.symm hyx), if_pos rfl]
  have h2other : ∀ j, j ≠ y → j ≠ x →
      (B.rootId t.nil ≠ t.nil → j ≠ B.rootId t.nil) →
      (parentOfPath t.nil path ≠ t.nil → j ≠ parentOfPath t.nil path) →
      (gc_rb_tree_right_rotate t y).heap j = t.heap j := by
    intro j hjy hjx hjb hjpp
    rw [hheap j, if_neg hjy, if_neg hjx,
      if_neg (fun hc => (hjb hc.2) hc.1), if_neg (fun hc => (hjpp hc.2) hc.1)]
  have hagA : ∀ j ∈ A.ids, (gc_rb_tree_right_rotate t y).heap j = t.heap j := by
    intro j hj
    refine h2other j (fun he => hyA (he ▸ hj)) (fun he => hxA (he ▸ hj)) ?_ ?_
    · intro hbne he
      exact (hBsep _ (hbmem hbne)).1 (he ▸ hj)
    · intro hpp he
      exact (hLRsep _ (parentOfPath_mem (fun habs => hpp (by rw [habs]; rfl)))).1 (he ▸ hj)
  have hagC : ∀ j ∈ C.ids, (gc_rb_tree_right_rotate t y).heap j = t.heap j := by
    intro j hj
    refine h2other j (fun he => hyC (he ▸ hj)) (fun he => hxC (he ▸ hj)) ?_ ?_
    · intro hbne he
      exact (hBsep _ (hbmem hbne)).2 (he ▸ hj)
    · intro hpp he
      exact (hLRsep _ (parentOfPath_mem
        (fun habs => hpp (by rw [habs]; rfl)))).2.2.2.2 (he ▸ hj)
  have hagLR : ∀ j ∈ pathIdsL path ++ pathIdsR path,
      j ≠ parentOfPath t.nil path → (gc_rb_tree_right_rotate t y).heap j = t.heap j := by
    intro j hj hjpp
    have hfacts := hLRsep _ hj
    refine h2other j hfacts.2.2.2.1 hfacts.2.1 ?_ (fun _ => hjpp)
    intro hbne he
    exact hfacts.2.2.1 (he ▸ hbmem hbne)
  have hokFocus : okAt (gc_rb_tree_right_rotate t y).heap t.nil (parentOfPath t.nil path)
      (ITree.node x cx A dx (ITree.node y cy B dy C)) = true := by
    refine okAt_node.2 ⟨hxnil, hx0, ?_, ?_, ?_, ?_, ?_, ?_, ?_⟩
    · rw [h2x]; simpa using hxc
    · rw [h2x]; simpa using hxd
    · rw [h2x]; simpa using hxl
    · rw [h2x]; simp [ITree.rootId]
    · rw [h2x]
    · exact okAt_frame A hokA hagA
    · refine okAt_node.2 ⟨hynil, hy0, ?_, ?_, ?_, ?_, ?_, ?_, ?_⟩
      · rw [h2y]; simpa using hyc
      · rw [h2y]; simpa using hyd
      · rw [h2y]
      · rw [h2y]; simpa using hyr
      · rw [h2y]
      · refine okAt_move_subtree B hokB hndB ?_ ?_
        · intro j hj hjb
          refine h2other j (fun he => hyB (he ▸ hj)) (fun he => hxB (he ▸ hj))
            (fun _ => hjb) ?_
          intro hpp he
          exact (hLRsep _ (parentOfPath_mem
            (fun habs => hpp (by rw [habs]; rfl)))).2.2.1 (he ▸ hj)
        · intro hBne
          have hbne : B.rootId t.nil ≠ t.nil := rootId_ne_nil hokB hBne
          rw [hheap (B.rootId t.nil), if_neg (hbsep hbne).2, if_neg (hbsep hbne).1,
            if_pos ⟨rfl, hbne⟩]
      · exact okAt_frame C hokC hagC
  have hpathOk : pathOkAt (gc_rb_tree_right_rotate t y).heap t.nil t.nil path x = true := by
    cases hpth : path with
    | nil => rfl
    | cons f rest =>
      have hppid : parentOfPath t.nil path ≠ t.nil := hppne (by rw [hpth]; simp)
      cases f with
      | lf i1 c1 d1 r1 =>
        obtain ⟨hi1nil, hi10, hi1c, hi1d, hi1l, hi1r, hi1p, hokR1, hpathRest⟩ :=
          pathOkAt_lf.1 (hpth ▸ hpathF)
        have hppi : parentOfPath t.nil path = i1 := by rw [hpth]; rfl
        have hsideF : ¬(y = (t.heap i1).right) := by
          rw [hi1r]
          cases hr1 : r1 with
          | leaf =>
            rw [ITree.rootId]
            exact fun h => hynil h
          | node ra rb rc rd re =>
            intro habs
            have hm : r1.rootId t.nil ∈ pathIdsL path ++ pathIdsR path := by
              rw [hpth]
              simp only [pathIdsL, pathIdsR, List.mem_append, List.mem_cons]
              refine Or.inr (Or.inl (Or.inr ?_))
              rw [hr1]
              exact rootId_mem (by simp)
            have h9 := (hLRsep _ hm).2.2.2.1
            rw [hr1] at h9
            exact h9 habs.symm
        have h2pp : (gc_rb_tree_right_rotate t y).heap i1 = { t.heap i1 with left := x } := by
          have h1 := hppsep hppid
          rw [hppi] at h1
          rw [hheap i1, if_neg h1.2.1, if_neg h1.1,
            if_neg (fun hc => h1.2.2 hc.1), if_pos ⟨(hppi.symm : i1 = _), hppid⟩,
            hppi, if_neg hsideF]
        have hndLR2 : ((pathIdsL rest ++ ((i1 :: r1.ids) ++ pathIdsR rest))).Nodup := by
          have := hpth ▸ hndLR
          simpa [pathIdsL, pathIdsR] using this
        have hndR : (i1 :: (r1.ids ++ pathIdsR rest)).Nodup :=
          List.Nodup.sublist
            (List.sublist_append_right (pathIdsL rest) ((i1 :: r1.ids) ++ pathIdsR rest))
            hndLR2
        have hi1notin := (List.nodup_cons.1 hndR).1
        have hi1notL : i1 ∉ pathIdsL rest := by
          intro hmem
          rw [List.nodup_append] at hndLR2
          exact hndLR2.2.2 hmem (by simp)
        have hagIn : ∀ j, j ∈ pathIdsL rest ++ (r1.ids ++ pathIdsR rest) →
            (gc_rb_tree_right_rotate t y).heap j = t.heap j := by
          intro j hj
          have hjfull : j ∈ pathIdsL path ++ pathIdsR path := by
            rw [hpth]
            simp only [pathIdsL, pathIdsR, List.mem_append, List.mem_cons]
            rw [List.mem_append, List.mem_append] at hj
            tauto
          have hji1 : j ≠ i1 := by
            intro habs
            rw [List.mem_append, List.mem_append] at hj
            rcases hj with hj | hj | hj
            · exact hi1notL (habs ▸ hj)
            · exact hi1notin (by rw [List.mem_append]; exact Or.inl (habs ▸ hj))
            · exact hi1notin (by rw [List.mem_append]; exact Or.inr (habs ▸ hj))
          exact hagLR j hjfull (hppi ▸ hji1)
        refine pathOkAt_lf.2 ⟨hi1nil, hi10, ?_, ?_, ?_, ?_, ?_, ?_, ?_⟩
        · rw [h2pp]; simpa using hi1c
        · rw [h2pp]; simpa using hi1d
        · rw [h2pp]
        · rw [h2pp]; simpa using hi1r
        · rw [h2pp]; simpa using hi1p
        · refine okAt_frame r1 hokR1 ?_
          intro j hj
          exact hagIn j (by rw [List.mem_append, List.mem_append]; exact Or.inr (Or.inl hj))
        · rw [pathOkAt_congr rest ?_ i1]
          · exact hpathRest
          · intro j hj
            rw [List.mem_append] at hj
            refine hagIn j ?_
            rw [List.mem_append, List.mem_append]
            tauto
      | rf i1 c1 d1 l1 =>
        obtain ⟨hi1nil, hi10, hi1c, hi1d, hi1l, hi1r, hi1p, hokL1, hpathRest⟩ :=
          pathOkAt_rf.1 (hpth ▸ hpathF)
        have hppi : parentOfPath t.nil path = i1 := by rw [hpth]; rfl
        have h2pp : (gc_rb_tree_right_rotate t y).heap i1 = { t.heap i1 with right := x } := by
          have h1 := hppsep hppid
          rw [hppi] at h1
          rw [hheap i1, if_neg h1.2.1, if_neg h1.1,
            if_neg (fun hc => h1.2.2 hc.1), if_pos ⟨(hppi.symm : i1 = _), hppid⟩,
            hppi, if_pos hi1r.symm]
        have hndLR2 : (((pathIdsL rest ++ l1.ids) ++ [i1]) ++ pathIdsR rest).Nodup := by
          have := hpth ▸ hndLR
          simpa [pathIdsL, pathIdsR] using this
        obtain ⟨hndXi, hndY, hdisj⟩ := List.nodup_append.1 hndLR2
        have hi1X : i1 ∉ pathIdsL rest ++ l1.ids := by
          intro hmem
          exact (List.nodup_append.1 hndXi).2.2 hmem (by simp)
        have hi1Y : i1 ∉ pathIdsR rest := fun hm => hdisj (by simp) hm
        have hagIn : ∀ j, j ∈ (pathIdsL rest ++ l1.ids) ++ pathIdsR rest →
            (gc_rb_tree_right_rotate t y).heap j = t.heap j := by
          intro j hj
          have hjfull : j ∈ pathIdsL path ++ pathIdsR path := by
            rw [hpth]
            simp only [pathIdsL, pathIdsR, List.mem_append]
            rw [List.mem_append, List.mem_append] at hj
            tauto
          have hji1 : j ≠ i1 := by
            intro habs
            rw [List.mem_append] at hj
            rcases hj with hj | hj
            · exact hi1X (habs ▸ hj)
            · exact hi1Y (habs ▸ hj)
          exact hagLR j hjfull (hppi ▸ hji1)
        refine pathOkAt_rf.2 ⟨hi1nil, hi10, ?_, ?_, ?_, ?_, ?_, ?_, ?_⟩
        · rw [h2pp]; simpa using hi1c
        · rw [h2pp]; simpa using hi1d
        · rw [h2pp]; simpa using hi1l
        · rw [h2pp]
        · rw [h2pp]; simpa using hi1p
        · refine okAt_frame l1 hokL1 ?_
          intro j hj
          exact hagIn j (by
            rw [List.mem_append, List.mem_append]
            exact Or.inl (Or.inr hj))
        · rw [pathOkAt_congr rest ?_ i1]
          · exact hpathRest
          · intro j hj
            rw [List.mem_append] at hj
            refine hagIn j ?_
            rw [List.mem_append, List.mem_append]
            tauto
  have hnilheap : (gc_rb_tree_right_rotate t y).heap t.nil = t.heap t.nil :=
    h2other t.nil (Ne.symm hynil) (Ne.symm hxnil)
      (fun hbne => Ne.symm hbne) (fun hpp => Ne.symm hpp)
  refine ⟨⟨?_, ?_, ?_, ?_, ?_, ?_, ?_, ?_, ?_⟩, hnext, hnil, hcmp⟩
  · rw [hnil, okAt_plug]
    exact ⟨hokFocus, by simpa [ITree.rootId] using hpathOk⟩
  · rw [hnil, hroot]
    cases hpth : path with
    | nil =>
      rw [if_pos (show parentOfPath t.nil [] = t.nil from rfl)]
      rfl
    | cons f rest =>
      rw [if_neg (hpth ▸ hppne (by rw [hpth]; simp))]
      rw [hwf.root_eq, hpth]
      exact plug_rootId t.nil _ _ _ (by simp)
  · rw [← lrot_ids]
    exact hwf.nodup
  · rw [hnext]
    intro i hi
    rw [← lrot_ids] at hi
    exact hwf.bound i hi
  · rw [hnil]
    exact hwf.nil_ne
  · rw [hnil, hnext]
    exact hwf.nil_lt
  · rw [hnil, hnilheap]
    exact hwf.nil_black
  · rw [hnil, hnilheap]
    exact hwf.nil_left
  · rw [hnil, hnilheap]
    exact hwf.nil_right

/-- Recoloring an id that does not occur in the tree changes nothing. -/
lemma recolor_notin {j : Nat} {c2 : Color} : ∀ ft : ITree, j ∉ ft.ids → ft.recolor j c2 = ft := by
  intro ft
  induction ft with
  | leaf => intro _; rfl
  | node i c l d r ihl ihr =>
    intro hj
    rw [ids_node] at hj
    simp only [List.mem_append, List.mem_cons, not_or] at hj
    rw [ITree.recolor, ihl hj.1, ihr hj.2.2, if_neg (fun he => hj.2.1 he.symm)]

/-- Recoloring an id that occurs nowhere in a context leaves it unchanged. -/
lemma frames_recolor_notin {j : Nat} {c2 : Color} :
    ∀ p : List Frame, j ∉ pathIdsL p ++ pathIdsR p →
      p.map (Frame.recolor j c2) = p := by
  intro p
  induction p with
  | nil => intro _; rfl
  | cons f p ih =>
    intro hj
    cases f with
    | lf i c d r =>
      simp only [pathIdsL, pathIdsR, List.mem_append, List.mem_cons, not_or] at hj
      have h1 : Frame.recolor j c2 (Frame.lf i c d r) = Frame.lf i c d r := by
        rw [Frame.recolor, if_neg (fun he => hj.2.1.1 he.symm),
          recolor_notin r hj.2.1.2]
      rw [List.map_cons, h1, ih (by
        simp only [List.mem_append, not_or]
        exact ⟨hj.1, hj.2.2⟩)]
    | rf i c d l =>
      simp only [pathIdsL, pathIdsR, List.mem_append, List.mem_cons, not_or] at hj
      have h1 : Frame.recolor j c2 (Frame.rf i c d l) = Frame.rf i c d l := by
        rw [Frame.recolor, if_neg (fun he => hj.1.2.1 he.symm),
          recolor_notin l hj.1.1.2]
      rw [List.map_cons, h1, ih (by
        simp only [List.mem_append, not_or]
        exact ⟨hj.1.1.1, hj.2⟩)]

/-- Recoloring distributes over plugging a focus into a context. -/
lemma plug_recolor (j : Nat) (c2 : Color) :
    ∀ (p : List Frame) (s : ITree),
      (plug s p).recolor j c2 = plug (s.recolor j c2) (p.map (Frame.recolor j c2)) := by
  intro p
  induction p with
  | nil => intro s; rfl
  | cons f p ih =>
    intro s
    cases f with
    | lf i c d r => exact ih (ITree.node i c s d r)
    | rf i c d l => exact ih (ITree.node i c l d s)

/-- node->color = c is realized by ITree.recolor at the level of whole
well-formed trees. -/
lemma treeWf_writeColor (t : RBTree) (ft : ITree) (i : Nat) (c : Color)
    (hwf : TreeWf t ft) (hine : i ≠ t.nil) :
    TreeWf (writeColor t i c) (ft.recolor i c) := by
  refine ⟨?_, ?_, ?_, ?_, ?_, ?_, ?_, ?_, ?_⟩
  · exact okAt_recolor i c ft t.nil hwf.ok
  · rw [recolor_rootId]
    exact hwf.root_eq
  · rw [recolor_ids]
    exact hwf.nodup
  · intro a ha
    rw [recolor_ids] at ha
    exact hwf.bound a ha
  · exact hwf.nil_ne
  · exact hwf.nil_lt
  · show ((writeColor t i c).heap t.nil).color = Color.black
    rw [writeColor_heap, if_neg (Ne.symm hine)]
    exact hwf.nil_black
  · show ((writeColor t i c).heap t.nil).left = (writeColor t i c).nil
    rw [writeColor_heap, if_neg (Ne.symm hine)]
    exact hwf.nil_left
  · show ((writeColor t i c).heap t.nil).right = (writeColor t i c).nil
    rw [writeColor_heap, if_neg (Ne.symm hine)]
    exact hwf.nil_right

/-- The fixup loop returns the tree unchanged as soon as the parent of k
is not red, whatever fuel remains. -/
lemma fixup_go_exit {t : RBTree} {k : Nat}
    (h : ¬((t.heap (t.heap k).parent).color = Color.red)) :
    ∀ n, gc_rb_tree_insert_fixup_go n t k = t := by
  intro n
  cases n with
  | zero => rfl
  | succ m =>
    simp only [gc_rb_tree_insert_fixup_go]
    rw [if_neg h]

/-- An element standing alone in a duplicate-free list occurs on neither
side of itself. -/
lemma nodup_out {l1 l2 : List Nat} {a : Nat} (h : (l1 ++ a :: l2).Nodup) :
    a ∉ l1 ∧ a ∉ l2 := by
  rw [List.nodup_append, List.nodup_cons] at h
  exact ⟨fun hm => h.2.2 hm (by simp), h.2.1.1⟩

/-- After a terminal fixup rotation the red focus child sits under a
black parent, so the loop condition fails (left-child form). -/
lemma parent_black_exit {t : RBTree} {p2 : List Frame} {a da k fd : Nat}
    {ck : Color} {Y fl fr : ITree}
    (hwf : TreeWf t (plug (ITree.node a Color.black
      (ITree.node k ck fl fd fr) da Y) p2)) :
    ¬((t.heap (t.heap k).parent).color = Color.red) := by
  obtain ⟨hokF, _⟩ := (okAt_plug p2 _).1 hwf.ok
  rw [okAt_node] at hokF
  obtain ⟨_, _, hac, _, _, _, _, hokX, _⟩ := hokF
  rw [okAt_node] at hokX
  obtain ⟨_, _, _, _, _, _, hkp, _, _⟩ := hokX
  rw [hkp, hac]
  simp

/-- Mirror of parent_black_exit for a right-child focus. -/
lemma parent_black_exit2 {t : RBTree} {p2 : List Frame} {a da k fd : Nat}
    {ck : Color} {Y fl fr : ITree}
    (hwf : TreeWf t (plug (ITree.node a Color.black Y da
      (ITree.node k ck fl fd fr)) p2)) :
    ¬((t.heap (t.heap k).parent).color = Color.red) := by
  obtain ⟨hokF, _⟩ := (okAt_plug p2 _).1 hwf.ok
  rw [okAt_node] at hokF
  obtain ⟨_, _, hac, _, _, _, _, _, hokX⟩ := hokF
  rw [okAt_node] at hokX
  obtain ⟨_, _, _, _, _, _, hkp, _, _⟩ := hokX
  rw [hkp, hac]
  simp

set_option maxHeartbeats 4000000 in
/-- One red-uncle iteration of insert fixup, left-parent/left-grandparent
form: recolor parent and uncle black, grandparent red, and continue two
levels up. -/
lemma fixup_red_uncle_ll (n : Nat) (ih : FixupIH n)
    (t : RBTree) (rest2 : List Frame) (k fd p1 d1 g d2 u ud : Nat)
    (c1 c2 : Color) (fl fr S1 UL UR : ITree)
    (hwf : TreeWf t (plug (ITree.node k Color.red fl fd fr)
      (Frame.lf p1 c1 d1 S1 ::
        Frame.lf g c2 d2 (ITree.node u Color.red UL ud UR) :: rest2)))
    (hc1red : c1 = Color.red)
    (hlast : ∀ f ∈ (Frame.lf p1 c1 d1 S1 ::
        Frame.lf g c2 d2 (ITree.node u Color.red UL ud UR) :: rest2).getLast?,
      Frame.color f = Color.black)
    (hlen : rest2.length + 3 ≤ n + 1) :
    FixupGoal (n+1) t k (plug (ITree.node k Color.red fl fd fr)
      (Frame.lf p1 c1 d1 S1 ::
        Frame.lf g c2 d2 (ITree.node u Color.red UL ud UR) :: rest2)) := by
  obtain ⟨hokF, hpathF⟩ := (okAt_plug _ _).1 hwf.ok
  rw [okAt_node] at hokF
  obtain ⟨hknil, hk0, hkc, hkd, hkl, hkr, hkp, hokFl, hokFr⟩ := hokF
  simp only [ITree.rootId] at hpathF
  obtain ⟨hp1nil, hp10, hp1c, hp1d, hp1l, hp1r, hp1p, hokS1, hpathRest⟩ :=
    pathOkAt_lf.1 hpathF
  obtain ⟨hgnil, hg0, hgc, hgd, hgl, hgr, hgp, hokU, hpathRest2⟩ :=
    pathOkAt_lf.1 hpathRest
  rw [okAt_node] at hokU
  obtain ⟨hunil, hu0, huc, hud2, hul, hur, hup, hokUL, hokUR⟩ := hokU
  have hkp1 : (t.heap k).parent = p1 := hkp
  have hp1g : (t.heap p1).parent = g := hp1p
  have hgru : (t.heap g).right = u := by simpa [ITree.rootId] using hgr
  -- separation facts from the global id list
  have hshape1 : ((pathIdsL rest2 ++ fl.ids ++ k :: fr.ids) ++ p1 ::
      (S1.ids ++ g :: (UL.ids ++ u :: (UR.ids ++ pathIdsR rest2)))).Nodup := by
    have h0 := hwf.nodup
    rw [plug_ids] at h0
    simpa [pathIdsL, pathIdsR, ids_node, List.append_assoc] using h0
  have hshape2 : ((pathIdsL rest2 ++ fl.ids ++ k :: fr.ids ++ p1 :: S1.ids) ++ g ::
      (UL.ids ++ u :: (UR.ids ++ pathIdsR rest2))).Nodup := by
    have h0 := hwf.nodup
    rw [plug_ids] at h0
    simpa [pathIdsL, pathIdsR, ids_node, List.append_assoc] using h0
  have hshape3 : ((pathIdsL rest2 ++ fl.ids ++ k :: fr.ids ++ p1 :: S1.ids ++ g :: UL.ids)
      ++ u :: (UR.ids ++ pathIdsR rest2)).Nodup := by
    have h0 := hwf.nodup
    rw [plug_ids] at h0
    simpa [pathIdsL, pathIdsR, ids_node, List.append_assoc] using h0
  obtain ⟨hp1A, hp1B⟩ := nodup_out hshape1
  obtain ⟨hgA, hgB⟩ := nodup_out hshape2
  obtain ⟨huA, huB⟩ := nodup_out hshape3
  simp only [List.mem_append, List.mem_cons, not_or] at hp1A hp1B hgA hgB huA huB
  have np1L : p1 ∉ pathIdsL rest2 := by tauto
  have np1fl : p1 ∉ fl.ids := by tauto
  have np1k : ¬(p1 = k) := by tauto
  have np1fr : p1 ∉ fr.ids := by tauto
  have np1S1 : p1 ∉ S1.ids := by tauto
  have np1g : ¬(p1 = g) := by tauto
  have np1UL : p1 ∉ UL.ids := by tauto
  have np1u : ¬(p1 = u) := by tauto
  have np1UR : p1 ∉ UR.ids := by tauto
  have np1R : p1 ∉ pathIdsR rest2 := by tauto
  have ngL : g ∉ pathIdsL rest2 := by tauto
  have ngfl : g ∉ fl.ids := by tauto
  have ngk : ¬(g = k) := by tauto
  have ngfr : g ∉ fr.ids := by tauto
  have ngp1 : ¬(g = p1) := by tauto
  have ngS1 : g ∉ S1.ids := by tauto
  have ngUL : g ∉ UL.ids := by tauto
  have ngu : ¬(g = u) := by tauto
  have ngUR : g ∉ UR.ids := by tauto
  have ngR : g ∉ pathIdsR rest2 := by tauto
  have nuL : u ∉ pathIdsL rest2 := by tauto
  have nufl : u ∉ fl.ids := by tauto
  have nuk : ¬(u = k) := by tauto
  have nufr : u ∉ fr.ids := by tauto
  have nup1 : ¬(u = p1) := by tauto
  have nuS1 : u ∉ S1.ids := by tauto
  have nuUL : u ∉ UL.ids := by tauto
  have nuUR : u ∉ UR.ids := by tauto
  have nuR : u ∉ pathIdsR rest2 := by tauto
  -- the three color writes and the two-level climb
  have hT2k : (writeColor (writeColor t p1 Color.black) u Color.black).heap k = t.heap k := by
    rw [writeColor_heap, if_neg (fun he => nuk he.symm),
      writeColor_heap, if_neg (fun he => np1k he.symm)]
  have hT2p1 : (writeColor (writeColor t p1 Color.black) u Color.black).heap p1 =
      { t.heap p1 with color := Color.black } := by
    rw [writeColor_heap, if_neg np1u, writeColor_heap, if_pos (show p1 = p1 from rfl)]
  have hT2p1p : ({ t.heap p1 with color := Color.black } : RBNode).parent = g := hp1g
  have hT3k : (writeColor (writeColor (writeColor t p1 Color.black) u Color.black) g
      Color.red).heap k = t.heap k := by
    rw [writeColor_heap, if_neg (fun he => ngk he.symm), hT2k]
  have hT3p1 : (writeColor (writeColor (writeColor t p1 Color.black) u Color.black) g
      Color.red).heap p1 = { t.heap p1 with color := Color.black } := by
    rw [writeColor_heap, if_neg np1g, hT2p1]
  have hstep : gc_rb_tree_insert_fixup_go (n+1) t k =
      gc_rb_tree_insert_fixup_go n
        (writeColor (writeColor (writeColor t p1 Color.black) u Color.black) g Color.red)
        g := by
    simp only [gc_rb_tree_insert_fixup_go]
    rw [hkp1, hp1g, hp1c, hc1red, if_pos (show Color.red = Color.red from rfl),
      hgl, if_pos (show p1 = p1 from rfl), hgru, huc,
      if_pos (show Color.red = Color.red from rfl)]
    rw [hT2k, hkp1, hT2p1, hT2p1p]
    rw [hT3k, hkp1, hT3p1, hT2p1p]
  -- functional effect of the three recolors
  have hwf1 := treeWf_writeColor t _ p1 Color.black hwf hp1nil
  have hwf2 := treeWf_writeColor _ _ u Color.black hwf1 hunil
  have hwf3 := treeWf_writeColor _ _ g Color.red hwf2 hgnil
  have e1 : (ITree.node g c2
        (ITree.node p1 c1 (ITree.node k Color.red fl fd fr) d1 S1) d2
        (ITree.node u Color.red UL ud UR)).recolor p1 Color.black =
      ITree.node g c2
        (ITree.node p1 Color.black (ITree.node k Color.red fl fd fr) d1 S1) d2
        (ITree.node u Color.red UL ud UR) := by
    simp [ITree.recolor, recolor_notin fl np1fl, recolor_notin fr np1fr,
      recolor_notin S1 np1S1, recolor_notin UL np1UL, recolor_notin UR np1UR,
      ngp1, Ne.symm np1k, nup1]
  have e2 : (ITree.node g c2
        (ITree.node p1 Color.black (ITree.node k Color.red fl fd fr) d1 S1) d2
        (ITree.node u Color.red UL ud UR)).recolor u Color.black =
      ITree.node g c2
        (ITree.node p1 Color.black (ITree.node k Color.red fl fd fr) d1 S1) d2
        (ITree.node u Color.black UL ud UR) := by
    simp [ITree.recolor, recolor_notin fl nufl, recolor_notin fr nufr,
      recolor_notin S1 nuS1, recolor_notin UL nuUL, recolor_notin UR nuUR,
      ngu, np1u, Ne.symm nuk]
  have e3 : (ITree.node g c2
        (ITree.node p1 Color.black (ITree.node k Color.red fl fd fr) d1 S1) d2
        (ITree.node u Color.black UL ud UR)).recolor g Color.red =
      ITree.node g Color.red
        (ITree.node p1 Color.black (ITree.node k Color.red fl fd fr) d1 S1) d2
        (ITree.node u Color.black UL ud UR) := by
    simp [ITree.recolor, recolor_notin fl ngfl, recolor_notin fr ngfr,
      recolor_notin S1 ngS1, recolor_notin UL ngUL, recolor_notin UR ngUR,
      np1g, Ne.symm ngk, Ne.symm ngu]
  have E3 : (((plug (ITree.node g c2
        (ITree.node p1 c1 (ITree.node k Color.red fl fd fr) d1 S1) d2
        (ITree.node u Color.red UL ud UR)) rest2).recolor p1 Color.black).recolor
        u Color.black).recolor g Color.red =
      plug (ITree.node g Color.red
        (ITree.node p1 Color.black (ITree.node k Color.red fl fd fr) d1 S1) d2
        (ITree.node u Color.black UL ud UR)) rest2 := by
    rw [plug_recolor, frames_recolor_notin rest2 (by
        simp only [List.mem_append, not_or]
        exact ⟨np1L, np1R⟩), e1,
      plug_recolor, frames_recolor_notin rest2 (by
        simp only [List.mem_append, not_or]
        exact ⟨nuL, nuR⟩), e2,
      plug_recolor, frames_recolor_notin rest2 (by
        simp only [List.mem_append, not_or]
        exact ⟨ngL, ngR⟩), e3]
  have hwf3b : TreeWf
      (writeColor (writeColor (writeColor t p1 Color.black) u Color.black) g Color.red)
      ((((plug (ITree.node g c2
        (ITree.node p1 c1 (ITree.node k Color.red fl fd fr) d1 S1) d2
        (ITree.node u Color.red UL ud UR)) rest2).recolor p1 Color.black).recolor
        u Color.black).recolor g Color.red) := hwf3
  rw [E3] at hwf3b
  have hlast3 : ∀ f ∈ rest2.getLast?, Frame.color f = Color.black := by
    intro f hf
    cases rest2 with
    | nil => simp at hf
    | cons f3 r3 =>
      exact hlast f (by rw [List.getLast?_cons_cons, List.getLast?_cons_cons]; exact hf)
  have hlen3 : rest2.length + 1 ≤ n := by omega
  obtain ⟨ft2, hwfr, hdata2, hnx, hnl, hcm⟩ := ih
    (writeColor (writeColor (writeColor t p1 Color.black) u Color.black) g Color.red)
    rest2 g d2 _ _ hwf3b hlast3 hlen3
  have hdl : (plug (ITree.node g Color.red
        (ITree.node p1 Color.black (ITree.node k Color.red fl fd fr) d1 S1) d2
        (ITree.node u Color.black UL ud UR)) rest2).dataList =
      (plug (ITree.node g c2
        (ITree.node p1 c1 (ITree.node k Color.red fl fd fr) d1 S1) d2
        (ITree.node u Color.red UL ud UR)) rest2).dataList := by
    rw [← E3, recolor_dataList, recolor_dataList, recolor_dataList]
  refine ⟨ft2, ?_, ?_, ?_, ?_, ?_⟩
  · rw [hstep]
    exact hwfr
  · exact hdata2.trans hdl
  · rw [hstep]
    exact hnx
  · rw [hstep]
    exact hnl
  · rw [hstep]
    exact hcm

set_option maxHeartbeats 4000000 in
/-- One red-uncle iteration of insert fixup, right-parent-slot variant of
fixup_red_uncle_ll: the red focus is the right child of its parent, the
parent still the left child of the grandparent. -/
lemma fixup_red_uncle_rl (n : Nat) (ih : FixupIH n)
    (t : RBTree) (rest2 : List Frame) (k fd p1 d1 g d2 u ud : Nat)
    (c1 c2 : Color) (fl fr S1 UL UR : ITree)
    (hwf : TreeWf t (plug (ITree.node k Color.red fl fd fr)
      (Frame.rf p1 c1 d1 S1 ::
        Frame.lf g c2 d2 (ITree.node u Color.red UL ud UR) :: rest2)))
    (hc1red : c1 = Color.red)
    (hlast : ∀ f ∈ (Frame.rf p1 c1 d1 S1 ::
        Frame.lf g c2 d2 (ITree.node u Color.red UL ud UR) :: rest2).getLast?,
      Frame.color f = Color.black)
    (hlen : rest2.length + 3 ≤ n + 1) :
    FixupGoal (n+1) t k (plug (ITree.node k Color.red fl fd fr)
      (Frame.rf p1 c1 d1 S1 ::
        Frame.lf g c2 d2 (ITree.node u Color.red UL ud UR) :: rest2)) := by
  obtain ⟨hokF, hpathF⟩ := (okAt_plug _ _).1 hwf.ok
  rw [okAt_node] at hokF
  obtain ⟨hknil, hk0, hkc, hkd, hkl, hkr, hkp, hokFl, hokFr⟩ := hokF
  simp only [ITree.rootId] at hpathF
  obtain ⟨hp1nil, hp10, hp1c, hp1d, hp1l, hp1r, hp1p, hokS1, hpathRest⟩ :=
    pathOkAt_rf.1 hpathF
  obtain ⟨hgnil, hg0, hgc, hgd, hgl, hgr, hgp, hokU, hpathRest2⟩ :=
    pathOkAt_lf.1 hpathRest
  rw [okAt_node] at hokU
  obtain ⟨hunil, hu0, huc, hud2, hul, hur, hup, hokUL, hokUR⟩ := hokU
  have hkp1 : (t.heap k).parent = p1 := hkp
  have hp1g : (t.heap p1).parent = g := hp1p
  have hgru : (t.heap g).right = u := by simpa [ITree.rootId] using hgr
  -- separation facts from the global id list
  have hshape1 : ((pathIdsL rest2 ++ S1.ids) ++ p1 ::
      (fl.ids ++ k :: (fr.ids ++ g :: (UL.ids ++ u :: (UR.ids ++ pathIdsR rest2))))).Nodup := by
    have h0 := hwf.nodup
    rw [plug_ids] at h0
    simpa [pathIdsL, pathIdsR, ids_node, List.append_assoc] using h0
  have hshape2 : ((pathIdsL rest2 ++ S1.ids ++ p1 :: fl.ids ++ k :: fr.ids) ++ g ::
      (UL.ids ++ u :: (UR.ids ++ pathIdsR rest2))).Nodup := by
    have h0 := hwf.nodup
    rw [plug_ids] at h0
    simpa [pathIdsL, pathIdsR, ids_node, List.append_assoc] using h0
  have hshape3 : ((pathIdsL rest2 ++ S1.ids ++ p1 :: fl.ids ++ k :: fr.ids ++ g :: UL.ids)
      ++ u :: (UR.ids ++ pathIdsR rest2)).Nodup := by
    have h0 := hwf.nodup
    rw [plug_ids] at h0
    simpa [pathIdsL, pathIdsR, ids_node, List.append_assoc] using h0
  obtain ⟨hp1A, hp1B⟩ := nodup_out hshape1
  obtain ⟨hgA, hgB⟩ := nodup_out hshape2
  obtain ⟨huA, huB⟩ := nodup_out hshape3
  simp only [List.mem_append, List.mem_cons, not_or] at hp1A hp1B hgA hgB huA huB
  have np1L : p1 ∉ pathIdsL rest2 := by tauto
  have np1fl : p1 ∉ fl.ids := by tauto
  have np1k : ¬(p1 = k) := by tauto
  have np1fr : p1 ∉ fr.ids := by tauto
  have np1S1 : p1 ∉ S1.ids := by tauto
  have np1g : ¬(p1 = g) := by tauto
  have np1UL : p1 ∉ UL.ids := by tauto
  have np1u : ¬(p1 = u) := by tauto
  have np1UR : p1 ∉ UR.ids := by tauto
  have np1R : p1 ∉ pathIdsR rest2 := by tauto
  have ngL : g ∉ pathIdsL rest2 := by tauto
  have ngfl : g ∉ fl.ids := by tauto
  have ngk : ¬(g = k) := by tauto
  have ngfr : g ∉ fr.ids := by tauto
  have ngp1 : ¬(g = p1) := by tauto
  have ngS1 : g ∉ S1.ids := by tauto
  have ngUL : g ∉ UL.ids := by tauto
  have ngu : ¬(g = u) := by tauto
  have ngUR : g ∉ UR.ids := by tauto
  have ngR : g ∉ pathIdsR rest2 := by tauto
  have nuL : u ∉ pathIdsL rest2 := by tauto
  have nufl : u ∉ fl.ids := by tauto
  have nuk : ¬(u = k) := by tauto
  have nufr : u ∉ fr.ids := by tauto
  have nup1 : ¬(u = p1) := by tauto
  have nuS1 : u ∉ S1.ids := by tauto
  have nuUL : u ∉ UL.ids := by tauto
  have nuUR : u ∉ UR.ids := by tauto
  have nuR : u ∉ pathIdsR rest2 := by tauto
  -- the three color writes and the two-level climb
  have hT2k : (writeColor (writeColor t p1 Color.black) u Color.black).heap k = t.heap k := by
    rw [writeColor_heap, if_neg (fun he => nuk he.symm),
      writeColor_heap, if_neg (fun he => np1k he.symm)]
  have hT2p1 : (writeColor (writeColor t p1 Color.black) u Color.black).heap p1 =
      { t.heap p1 with color := Color.black } := by
    rw [writeColor_heap, if_neg np1u, writeColor_heap, if_pos (show p1 = p1 from rfl)]
  have hT2p1p : ({ t.heap p1 with color := Color.black } : RBNode).parent = g := hp1g
  have hT3k : (writeColor (writeColor (writeColor t p1 Color.black) u Color.black) g
      Color.red).heap k = t.heap k := by
    rw [writeColor_heap, if_neg (fun he => ngk he.symm), hT2k]
  have hT3p1 : (writeColor (writeColor (writeColor t p1 Color.black) u Color.black) g
      Color.red).heap p1 = { t.heap p1 with color := Color.black } := by
    rw [writeColor_heap, if_neg np1g, hT2p1]
  have hstep : gc_rb_tree_insert_fixup_go (n+1) t k =
      gc_rb_tree_insert_fixup_go n
        (writeColor (writeColor (writeColor t p1 Color.black) u Color.black) g Color.red)
        g := by
    simp only [gc_rb_tree_insert_fixup_go]
    rw [hkp1, hp1g, hp1c, hc1red, if_pos (show Color.red = Color.red from rfl),
      hgl, if_pos (show p1 = p1 from rfl), hgru, huc,
      if_pos (show Color.red = Color.red from rfl)]
    rw [hT2k, hkp1, hT2p1, hT2p1p]
    rw [hT3k, hkp1, hT3p1, hT2p1p]
  -- functional effect of the three recolors
  have hwf1 := treeWf_writeColor t _ p1 Color.black hwf hp1nil
  have hwf2 := treeWf_writeColor _ _ u Color.black hwf1 hunil
  have hwf3 := treeWf_writeColor _ _ g Color.red hwf2 hgnil
  have e1 : (ITree.node g c2
        (ITree.node p1 c1 S1 d1 (ITree.node k Color.red fl fd fr)) d2
        (ITree.node u Color.red UL ud UR)).recolor p1 Color.black =
      ITree.node g c2
        (ITree.node p1 Color.black S1 d1 (ITree.node k Color.red fl fd fr)) d2
        (ITree.node u Color.red UL ud UR) := by
    simp [ITree.recolor, recolor_notin fl np1fl, recolor_notin fr np1fr,
      recolor_notin S1 np1S1, recolor_notin UL np1UL, recolor_notin UR np1UR,
      ngp1, Ne.symm np1k, nup1]
  have e2 : (ITree.node g c2
        (ITree.node p1 Color.black S1 d1 (ITree.node k Color.red fl fd fr)) d2
        (ITree.node u Color.red UL ud UR)).recolor u Color.black =
      ITree.node g c2
        (ITree.node p1 Color.black S1 d1 (ITree.node k Color.red fl fd fr)) d2
        (ITree.node u Color.black UL ud UR) := by
    simp [ITree.recolor, recolor_notin fl nufl, recolor_notin fr nufr,
      recolor_notin S1 nuS1, recolor_notin UL nuUL, recolor_notin UR nuUR,
      ngu, np1u, Ne.symm nuk]
  have e3 : (ITree.node g c2
        (ITree.node p1 Color.black S1 d1 (ITree.node k Color.red fl fd fr)) d2
        (ITree.node u Color.black UL ud UR)).recolor g Color.red =
      ITree.node g Color.red
        (ITree.node p1 Color.black S1 d1 (ITree.node k Color.red fl fd fr)) d2
        (ITree.node u Color.black UL ud UR) := by
    simp [ITree.recolor, recolor_notin fl ngfl, recolor_notin fr ngfr,
      recolor_notin S1 ngS1, recolor_notin UL ngUL, recolor_notin UR ngUR,
      np1g, Ne.symm ngk, Ne.symm ngu]
  have E3 : (((plug (ITree.node g c2
        (ITree.node p1 c1 S1 d1 (ITree.node k Color.red fl fd fr)) d2
        (ITree.node u Color.red UL ud UR)) rest2).recolor p1 Color.black).recolor
        u Color.black).recolor g Color.red =
      plug (ITree.node g Color.red
        (ITree.node p1 Color.black S1 d1 (ITree.node k Color.red fl fd fr)) d2
        (ITree.node u Color.black UL ud UR)) rest2 := by
    rw [plug_recolor, frames_recolor_notin rest2 (by
        simp only [List.mem_append, not_or]
        exact ⟨np1L, np1R⟩), e1,
      plug_recolor, frames_recolor_notin rest2 (by
        simp only [List.mem_append, not_or]
        exact ⟨nuL, nuR⟩), e2,
      plug_recolor, frames_recolor_notin rest2 (by
        simp only [List.mem_append, not_or]
        exact ⟨ngL, ngR⟩), e3]
  have hwf3b : TreeWf
      (writeColor (writeColor (writeColor t p1 Color.black) u Color.black) g Color.red)
      ((((plug (ITree.node g c2
        (ITree.node p1 c1 S1 d1 (ITree.node k Color.red fl fd fr)) d2
        (ITree.node u Color.red UL ud UR)) rest2).recolor p1 Color.black).recolor
        u Color.black).recolor g Color.red) := hwf3
  rw [E3] at hwf3b
  have hlast3 : ∀ f ∈ rest2.getLast?, Frame.color f = Color.black := by
    intro f hf
    cases rest2 with
    | nil => simp at hf
    | cons f3 r3 =>
      exact hlast f (by rw [List.getLast?_cons_cons, List.getLast?_cons_cons]; exact hf)
  have hlen3 : rest2.length + 1 ≤ n := by omega
  obtain ⟨ft2, hwfr, hdata2, hnx, hnl, hcm⟩ := ih
    (writeColor (writeColor (writeColor t p1 Color.black) u Color.black) g Color.red)
    rest2 g d2 _ _ hwf3b hlast3 hlen3
  have hdl : (plug (ITree.node g Color.red
        (ITree.node p1 Color.black S1 d1 (ITree.node k Color.red fl fd fr)) d2
        (ITree.node u Color.black UL ud UR)) rest2).dataList =
      (plug (ITree.node g c2
        (ITree.node p1 c1 S1 d1 (ITree.node k Color.red fl fd fr)) d2
        (ITree.node u Color.red UL ud UR)) rest2).dataList := by
    rw [← E3, recolor_dataList, recolor_dataList, recolor_dataList]
  refine ⟨ft2, ?_, ?_, ?_, ?_, ?_⟩
  · rw [hstep]
    exact hwfr
  · exact hdata2.trans hdl
  · rw [hstep]
    exact hnx
  · rw [hstep]
    exact hnl
  · rw [hstep]
    exact hcm


set_option maxHeartbeats 4000000 in
/-- One red-uncle iteration of insert fixup, with the parent sitting as
the right child of the grandparent (uncle on the left). -/
lemma fixup_red_uncle_lr (n : Nat) (ih : FixupIH n)
    (t : RBTree) (rest2 : List Frame) (k fd p1 d1 g d2 u ud : Nat)
    (c1 c2 : Color) (fl fr S1 UL UR : ITree)
    (hwf : TreeWf t (plug (ITree.node k Color.red fl fd fr)
      (Frame.lf p1 c1 d1 S1 ::
        Frame.rf g c2 d2 (ITree.node u Color.red UL ud UR) :: rest2)))
    (hc1red : c1 = Color.red)
    (hlast : ∀ f ∈ (Frame.lf p1 c1 d1 S1 ::
        Frame.rf g c2 d2 (ITree.node u Color.red UL ud UR) :: rest2).getLast?,
      Frame.color f = Color.black)
    (hlen : rest2.length + 3 ≤ n + 1) :
    FixupGoal (n+1) t k (plug (ITree.node k Color.red fl fd fr)
      (Frame.lf p1 c1 d1 S1 ::
        Frame.rf g c2 d2 (ITree.node u Color.red UL ud UR) :: rest2)) := by
  obtain ⟨hokF, hpathF⟩ := (okAt_plug _ _).1 hwf.ok
  rw [okAt_node] at hokF
  obtain ⟨hknil, hk0, hkc, hkd, hkl, hkr, hkp, hokFl, hokFr⟩ := hokF
  simp only [ITree.rootId] at hpathF
  obtain ⟨hp1nil, hp10, hp1c, hp1d, hp1l, hp1r, hp1p, hokS1, hpathRest⟩ :=
    pathOkAt_lf.1 hpathF
  obtain ⟨hgnil, hg0, hgc, hgd, hgl, hgr, hgp, hokU, hpathRest2⟩ :=
    pathOkAt_rf.1 hpathRest
  rw [okAt_node] at hokU
  obtain ⟨hunil, hu0, huc, hud2, hul, hur, hup, hokUL, hokUR⟩ := hokU
  have hkp1 : (t.heap k).parent = p1 := hkp
  have hp1g : (t.heap p1).parent = g := hp1p
  have hglu : (t.heap g).left = u := by simpa [ITree.rootId] using hgl
  have hshape1 : ((pathIdsL rest2 ++ UL.ids ++ u :: UR.ids ++ g :: fl.ids ++ k :: fr.ids)
      ++ p1 :: (S1.ids ++ pathIdsR rest2)).Nodup := by
    have h0 := hwf.nodup
    rw [plug_ids] at h0
    simpa [pathIdsL, pathIdsR, ids_node, List.append_assoc] using h0
  have hshape2 : ((pathIdsL rest2 ++ UL.ids ++ u :: UR.ids) ++ g ::
      (fl.ids ++ k :: (fr.ids ++ p1 :: (S1.ids ++ pathIdsR rest2)))).Nodup := by
    have h0 := hwf.nodup
    rw [plug_ids] at h0
    simpa [pathIdsL, pathIdsR, ids_node, List.append_assoc] using h0
  have hshape3 : ((pathIdsL rest2 ++ UL.ids) ++ u ::
      (UR.ids ++ g :: (fl.ids ++ k :: (fr.ids ++ p1 :: (S1.ids ++ pathIdsR rest2))))).Nodup := by
    have h0 := hwf.nodup
    rw [plug_ids] at h0
    simpa [pathIdsL, pathIdsR, ids_node, List.append_assoc] using h0
  obtain ⟨hp1A, hp1B⟩ := nodup_out hshape1
  obtain ⟨hgA, hgB⟩ := nodup_out hshape2
  obtain ⟨huA, huB⟩ := nodup_out hshape3
  simp only [List.mem_append, List.mem_cons, not_or] at hp1A hp1B hgA hgB huA huB
  have np1L : p1 ∉ pathIdsL rest2 := by tauto
  have np1fl : p1 ∉ fl.ids := by tauto
  have np1k : ¬(p1 = k) := by tauto
  have np1fr : p1 ∉ fr.ids := by tauto
  have np1S1 : p1 ∉ S1.ids := by tauto
  have np1g : ¬(p1 = g) := by tauto
  have np1UL : p1 ∉ UL.ids := by tauto
  have np1u : ¬(p1 = u) := by tauto
  have np1UR : p1 ∉ UR.ids := by tauto
  have np1R : p1 ∉ pathIdsR rest2 := by tauto
  have ngL : g ∉ pathIdsL rest2 := by tauto
  have ngfl : g ∉ fl.ids := by tauto
  have ngk : ¬(g = k) := by tauto
  have ngfr : g ∉ fr.ids := by tauto
  have ngp1 : ¬(g = p1) := by tauto
  have ngS1 : g ∉ S1.ids := by tauto
  have ngUL : g ∉ UL.ids := by tauto
  have ngu : ¬(g = u) := by tauto
  have ngUR : g ∉ UR.ids := by tauto
  have ngR : g ∉ pathIdsR rest2 := by tauto
  have nuL : u ∉ pathIdsL rest2 := by tauto
  have nufl : u ∉ fl.ids := by tauto
  have nuk : ¬(u = k) := by tauto
  have nufr : u ∉ fr.ids := by tauto
  have nup1 : ¬(u = p1) := by tauto
  have nuS1 : u ∉ S1.ids := by tauto
  have nuUL : u ∉ UL.ids := by tauto
  have nuUR : u ∉ UR.ids := by tauto
  have nuR : u ∉ pathIdsR rest2 := by tauto
  have hT2k : (writeColor (writeColor t p1 Color.black) u Color.black).heap k = t.heap k := by
    rw [writeColor_heap, if_neg (fun he => nuk he.symm),
      writeColor_heap, if_neg (fun he => np1k he.symm)]
  have hT2p1 : (writeColor (writeColor t p1 Color.black) u Color.black).heap p1 =
      { t.heap p1 with color := Color.black } := by
    rw [writeColor_heap, if_neg np1u, writeColor_heap, if_pos (show p1 = p1 from rfl)]
  have hT2p1p : ({ t.heap p1 with color := Color.black } : RBNode).parent = g := hp1g
  have hT3k : (writeColor (writeColor (writeColor t p1 Color.black) u Color.black) g
      Color.red).heap k = t.heap k := by
    rw [writeColor_heap, if_neg (fun he => ngk he.symm), hT2k]
  have hT3p1 : (writeColor (writeColor (writeColor t p1 Color.black) u Color.black) g
      Color.red).heap p1 = { t.heap p1 with color := Color.black } := by
    rw [writeColor_heap, if_neg np1g, hT2p1]
  have hstep : gc_rb_tree_insert_fixup_go (n+1) t k =
      gc_rb_tree_insert_fixup_go n
        (writeColor (writeColor (writeColor t p1 Color.black) u Color.black) g Color.red)
        g := by
    simp only [gc_rb_tree_insert_fixup_go]
    rw [hkp1, hp1g, hp1c, hc1red, if_pos (show Color.red = Color.red from rfl),
      hglu, if_neg np1u, huc, if_pos (show Color.red = Color.red from rfl)]
    rw [hT2k, hkp1, hT2p1, hT2p1p]
    rw [hT3k, hkp1, hT3p1, hT2p1p]
  have hwf1 := treeWf_writeColor t _ p1 Color.black hwf hp1nil
  have hwf2 := treeWf_writeColor _ _ u Color.black hwf1 hunil
  have hwf3 := treeWf_writeColor _ _ g Color.red hwf2 hgnil
  have e1 : (ITree.node g c2
        (ITree.node u Color.red UL ud UR) d2
        (ITree.node p1 c1 (ITree.node k Color.red fl fd fr) d1 S1)).recolor p1 Color.black =
      ITree.node g c2
        (ITree.node u Color.red UL ud UR) d2
        (ITree.node p1 Color.black (ITree.node k Color.red fl fd fr) d1 S1) := by
    simp [ITree.recolor, recolor_notin fl np1fl, recolor_notin fr np1fr,
      recolor_notin S1 np1S1, recolor_notin UL np1UL, recolor_notin UR np1UR,
      ngp1, Ne.symm np1k, nup1]
  have e2 : (ITree.node g c2
        (ITree.node u Color.red UL ud UR) d2
        (ITree.node p1 Color.black (ITree.node k Color.red fl fd fr) d1 S1)).recolor u Color.black =
      ITree.node g c2
        (ITree.node u Color.black UL ud UR) d2
        (ITree.node p1 Color.black (ITree.node k Color.red fl fd fr) d1 S1) := by
    simp [ITree.recolor, recolor_notin fl nufl, recolor_notin fr nufr,
      recolor_notin S1 nuS1, recolor_notin UL nuUL, recolor_notin UR nuUR,
      ngu, np1u, Ne.symm nuk]
  have e3 : (ITree.node g c2
        (ITree.node u Color.black UL ud UR) d2
        (ITree.node p1 Color.black (ITree.node k Color.red fl fd fr) d1 S1)).recolor g Color.red =
      ITree.node g Color.red
        (ITree.node u Color.black UL ud UR) d2
        (ITree.node p1 Color.black (ITree.node k Color.red fl fd fr) d1 S1) := by
    simp [ITree.recolor, recolor_notin fl ngfl, recolor_notin fr ngfr,
      recolor_notin S1 ngS1, recolor_notin UL ngUL, recolor_notin UR ngUR,
      np1g, Ne.symm ngk, Ne.symm ngu]
  have E3 : (((plug (ITree.node g c2
        (ITree.node u Color.red UL ud UR) d2
        (ITree.node p1 c1 (ITree.node k Color.red fl fd fr) d1 S1)) rest2).recolor p1 Color.black).recolor
        u Color.black).recolor g Color.red =
      plug (ITree.node g Color.red
        (ITree.node u Color.black UL ud UR) d2
        (ITree.node p1 Color.black (ITree.node k Color.red fl fd fr) d1 S1)) rest2 := by
    rw [plug_recolor, frames_recolor_notin rest2 (by
        simp only [List.mem_append, not_or]
        exact ⟨np1L, np1R⟩), e1,
      plug_recolor, frames_recolor_notin rest2 (by
        simp only [List.mem_append, not_or]
        exact ⟨nuL, nuR⟩), e2,
      plug_recolor, frames_recolor_notin rest2 (by
        simp only [List.mem_append, not_or]
        exact ⟨ngL, ngR⟩), e3]
  have hwf3b : TreeWf
      (writeColor (writeColor (writeColor t p1 Color.black) u Color.black) g Color.red)
      ((((plug (ITree.node g c2
        (ITree.node u Color.red UL ud UR) d2
        (ITree.node p1 c1 (ITree.node k Color.red fl fd fr) d1 S1)) rest2).recolor p1 Color.black).recolor
        u Color.black).recolor g Color.red) := hwf3
  rw [E3] at hwf3b
  have hlast3 : ∀ f ∈ rest2.getLast?, Frame.color f = Color.black := by
    intro f hf
    cases rest2 with
    | nil => simp at hf
    | cons f3 r3 =>
      exact hlast f (by rw [List.getLast?_cons_cons, List.getLast?_cons_cons]; exact hf)
  have hlen3 : rest2.length + 1 ≤ n := by omega
  obtain ⟨ft2, hwfr, hdata2, hnx, hnl, hcm⟩ := ih
    (writeColor (writeColor (writeColor t p1 Color.black) u Color.black) g Color.red)
    rest2 g d2 _ _ hwf3b hlast3 hlen3
  have hdl : (plug (ITree.node g Color.red
        (ITree.node u Color.black UL ud UR) d2
        (ITree.node p1 Color.black (ITree.node k Color.red fl fd fr) d1 S1)) rest2).dataList =
      (plug (ITree.node g c2
        (ITree.node u Color.red UL ud UR) d2
        (ITree.node p1 c1 (ITree.node k Color.red fl fd fr) d1 S1)) rest2).dataList := by
    rw [← E3, recolor_dataList, recolor_dataList, recolor_dataList]
  refine ⟨ft2, ?_, ?_, ?_, ?_, ?_⟩
  · rw [hstep]
    exact hwfr
  · exact hdata2.trans hdl
  · rw [hstep]
    exact hnx
  · rw [hstep]
    exact hnl
  · rw [hstep]
    exact hcm

set_option maxHeartbeats 4000000 in
/-- One red-uncle iteration of insert fixup, with the parent sitting as
the right child of the grandparent (uncle on the left). -/
lemma fixup_red_uncle_rr (n : Nat) (ih : FixupIH n)
    (t : RBTree) (rest2 : List Frame) (k fd p1 d1 g d2 u ud : Nat)
    (c1 c2 : Color) (fl fr S1 UL UR : ITree)
    (hwf : TreeWf t (plug (ITree.node k Color.red fl fd fr)
      (Frame.rf p1 c1 d1 S1 ::
        Frame.rf g c2 d2 (ITree.node u Color.red UL ud UR) :: rest2)))
    (hc1red : c1 = Color.red)
    (hlast : ∀ f ∈ (Frame.rf p1 c1 d1 S1 ::
        Frame.rf g c2 d2 (ITree.node u Color.red UL ud UR) :: rest2).getLast?,
      Frame.color f = Color.black)
    (hlen : rest2.length + 3 ≤ n + 1) :
    FixupGoal (n+1) t k (plug (ITree.node k Color.red fl fd fr)
      (Frame.rf p1 c1 d1 S1 ::
        Frame.rf g c2 d2 (ITree.node u Color.red UL ud UR) :: rest2)) := by
  obtain ⟨hokF, hpathF⟩ := (okAt_plug _ _).1 hwf.ok
  rw [okAt_node] at hokF
  obtain ⟨hknil, hk0, hkc, hkd, hkl, hkr, hkp, hokFl, hokFr⟩ := hokF
  simp only [ITree.rootId] at hpathF
  obtain ⟨hp1nil, hp10, hp1c, hp1d, hp1l, hp1r, hp1p, hokS1, hpathRest⟩ :=
    pathOkAt_rf.1 hpathF
  obtain ⟨hgnil, hg0, hgc, hgd, hgl, hgr, hgp, hokU, hpathRest2⟩ :=
    pathOkAt_rf.1 hpathRest
  rw [okAt_node] at hokU
  obtain ⟨hunil, hu0, huc, hud2, hul, hur, hup, hokUL, hokUR⟩ := hokU
  have hkp1 : (t.heap k).parent = p1 := hkp
  have hp1g : (t.heap p1).parent = g := hp1p
  have hglu : (t.heap g).left = u := by simpa [ITree.rootId] using hgl
  have hshape1 : ((pathIdsL rest2 ++ UL.ids ++ u :: UR.ids ++ g :: S1.ids)
      ++ p1 :: (fl.ids ++ k :: (fr.ids ++ pathIdsR rest2))).Nodup := by
    have h0 := hwf.nodup
    rw [plug_ids] at h0
    simpa [pathIdsL, pathIdsR, ids_node, List.append_assoc] using h0
  have hshape2 : ((pathIdsL rest2 ++ UL.ids ++ u :: UR.ids) ++ g ::
      (S1.ids ++ p1 :: (fl.ids ++ k :: (fr.ids ++ pathIdsR rest2)))).Nodup := by
    have h0 := hwf.nodup
    rw [plug_ids] at h0
    simpa [pathIdsL, pathIdsR, ids_node, List.append_assoc] using h0
  have hshape3 : ((pathIdsL rest2 ++ UL.ids) ++ u ::
      (UR.ids ++ g :: (S1.ids ++ p1 :: (fl.ids ++ k :: (fr.ids ++ pathIdsR rest2))))).Nodup := by
    have h0 := hwf.nodup
    rw [plug_ids] at h0
    simpa [pathIdsL, pathIdsR, ids_node, List.append_assoc] using h0
  obtain ⟨hp1A, hp1B⟩ := nodup_out hshape1
  obtain ⟨hgA, hgB⟩ := nodup_out hshape2
  obtain ⟨huA, huB⟩ := nodup_out hshape3
  simp only [List.mem_append, List.mem_cons, not_or] at hp1A hp1B hgA hgB huA huB
  have np1L : p1 ∉ pathIdsL rest2 := by tauto
  have np1fl : p1 ∉ fl.ids := by tauto
  have np1k : ¬(p1 = k) := by tauto
  have np1fr : p1 ∉ fr.ids := by tauto
  have np1S1 : p1 ∉ S1.ids := by tauto
  have np1g : ¬(p1 = g) := by tauto
  have np1UL : p1 ∉ UL.ids := by tauto
  have np1u : ¬(p1 = u) := by tauto
  have np1UR : p1 ∉ UR.ids := by tauto
  have np1R : p1 ∉ pathIdsR rest2 := by tauto
  have ngL : g ∉ pathIdsL rest2 := by tauto
  have ngfl : g ∉ fl.ids := by tauto
  have ngk : ¬(g = k) := by tauto
  have ngfr : g ∉ fr.ids := by tauto
  have ngp1 : ¬(g = p1) := by tauto
  have ngS1 : g ∉ S1.ids := by tauto
  have ngUL : g ∉ UL.ids := by tauto
  have ngu : ¬(g = u) := by tauto
  have ngUR : g ∉ UR.ids := by tauto
  have ngR : g ∉ pathIdsR rest2 := by tauto
  have nuL : u ∉ pathIdsL rest2 := by tauto
  have nufl : u ∉ fl.ids := by tauto
  have nuk : ¬(u = k) := by tauto
  have nufr : u ∉ fr.ids := by tauto
  have nup1 : ¬(u = p1) := by tauto
  have nuS1 : u ∉ S1.ids := by tauto
  have nuUL : u ∉ UL.ids := by tauto
  have nuUR : u ∉ UR.ids := by tauto
  have nuR : u ∉ pathIdsR rest2 := by tauto
  have hT2k : (writeColor (writeColor t p1 Color.black) u Color.black).heap k = t.heap k := by
    rw [writeColor_heap, if_neg (fun he => nuk he.symm),
      writeColor_heap, if_neg (fun he => np1k he.symm)]
  have hT2p1 : (writeColor (writeColor t p1 Color.black) u Color.black).heap p1 =
      { t.heap p1 with color := Color.black } := by
    rw [writeColor_heap, if_neg np1u, writeColor_heap, if_pos (show p1 = p1 from rfl)]
  have hT2p1p : ({ t.heap p1 with color := Color.black } : RBNode).parent = g := hp1g
  have hT3k : (writeColor (writeColor (writeColor t p1 Color.black) u Color.black) g
      Color.red).heap k = t.heap k := by
    rw [writeColor_heap, if_neg (fun he => ngk he.symm), hT2k]
  have hT3p1 : (writeColor (writeColor (writeColor t p1 Color.black) u Color.black) g
      Color.red).heap p1 = { t.heap p1 with color := Color.black } := by
    rw [writeColor_heap, if_neg np1g, hT2p1]
  have hstep : gc_rb_tree_insert_fixup_go (n+1) t k =
      gc_rb_tree_insert_fixup_go n
        (writeColor (writeColor (writeColor t p1 Color.black) u Color.black) g Color.red)
        g := by
    simp only [gc_rb_tree_insert_fixup_go]
    rw [hkp1, hp1g, hp1c, hc1red, if_pos (show Color.red = Color.red from rfl),
      hglu, if_neg np1u, huc, if_pos (show Color.red = Color.red from rfl)]
    rw [hT2k, hkp1, hT2p1, hT2p1p]
    rw [hT3k, hkp1, hT3p1, hT2p1p]
  have hwf1 := treeWf_writeColor t _ p1 Color.black hwf hp1nil
  have hwf2 := treeWf_writeColor _ _ u Color.black hwf1 hunil
  have hwf3 := treeWf_writeColor _ _ g Color.red hwf2 hgnil
  have e1 : (ITree.node g c2
        (ITree.node u Color.red UL ud UR) d2
        (ITree.node p1 c1 S1 d1 (ITree.node k Color.red fl fd fr))).recolor p1 Color.black =
      ITree.node g c2
        (ITree.node u Color.red UL ud UR) d2
        (ITree.node p1 Color.black S1 d1 (ITree.node k Color.red fl fd fr)) := by
    simp [ITree.recolor, recolor_notin fl np1fl, recolor_notin fr np1fr,
      recolor_notin S1 np1S1, recolor_notin UL np1UL, recolor_notin UR np1UR,
      ngp1, Ne.symm np1k, nup1]
  have e2 : (ITree.node g c2
        (ITree.node u Color.red UL ud UR) d2
        (ITree.node p1 Color.black S1 d1 (ITree.node k Color.red fl fd fr))).recolor u Color.black =
      ITree.node g c2
        (ITree.node u Color.black UL ud UR) d2
        (ITree.node p1 Color.black S1 d1 (ITree.node k Color.red fl fd fr)) := by
    simp [ITree.recolor, recolor_notin fl nufl, recolor_notin fr nufr,
      recolor_notin S1 nuS1, recolor_notin UL nuUL, recolor_notin UR nuUR,
      ngu, np1u, Ne.symm nuk]
  have e3 : (ITree.node g c2
        (ITree.node u Color.black UL ud UR) d2
        (ITree.node p1 Color.black S1 d1 (ITree.node k Color.red fl fd fr))).recolor g Color.red =
      ITree.node g Color.red
        (ITree.node u Color.black UL ud UR) d2
        (ITree.node p1 Color.black S1 d1 (ITree.node k Color.red fl fd fr)) := by
    simp [ITree.recolor, recolor_notin fl ngfl, recolor_notin fr ngfr,
      recolor_notin S1 ngS1, recolor_notin UL ngUL, recolor_notin UR ngUR,
      np1g, Ne.symm ngk, Ne.symm ngu]
  have E3 : (((plug (ITree.node g c2
        (ITree.node u Color.red UL ud UR) d2
        (ITree.node p1 c1 S1 d1 (ITree.node k Color.red fl fd fr))) rest2).recolor p1 Color.black).recolor
        u Color.black).recolor g Color.red =
      plug (ITree.node g Color.red
        (ITree.node u Color.black UL ud UR) d2
        (ITree.node p1 Color.black S1 d1 (ITree.node k Color.red fl fd fr))) rest2 := by
    rw [plug_recolor, frames_recolor_notin rest2 (by
        simp only [List.mem_append, not_or]
        exact ⟨np1L, np1R⟩), e1,
      plug_recolor, frames_recolor_notin rest2 (by
        simp only [List.mem_append, not_or]
        exact ⟨nuL, nuR⟩), e2,
      plug_recolor, frames_recolor_notin rest2 (by
        simp only [List.mem_append, not_or]
        exact ⟨ngL, ngR⟩), e3]
  have hwf3b : TreeWf
      (writeColor (writeColor (writeColor t p1 Color.black) u Color.black) g Color.red)
      ((((plug (ITree.node g c2
        (ITree.node u Color.red UL ud UR) d2
        (ITree.node p1 c1 S1 d1 (ITree.node k Color.red fl fd fr))) rest2).recolor p1 Color.black).recolor
        u Color.black).recolor g Color.red) := hwf3
  rw [E3] at hwf3b
  have hlast3 : ∀ f ∈ rest2.getLast?, Frame.color f = Color.black := by
    intro f hf
    cases rest2 with
    | nil => simp at hf
    | cons f3 r3 =>
      exact hlast f (by rw [List.getLast?_cons_cons, List.getLast?_cons_cons]; exact hf)
  have hlen3 : rest2.length + 1 ≤ n := by omega
  obtain ⟨ft2, hwfr, hdata2, hnx, hnl, hcm⟩ := ih
    (writeColor (writeColor (writeColor t p1 Color.black) u Color.black) g Color.red)
    rest2 g d2 _ _ hwf3b hlast3 hlen3
  have hdl : (plug (ITree.node g Color.red
        (ITree.node u Color.black UL ud UR) d2
        (ITree.node p1 Color.black S1 d1 (ITree.node k Color.red fl fd fr))) rest2).dataList =
      (plug (ITree.node g c2
        (ITree.node u Color.red UL ud UR) d2
        (ITree.node p1 c1 S1 d1 (ITree.node k Color.red fl fd fr))) rest2).dataList := by
    rw [← E3, recolor_dataList, recolor_dataList, recolor_dataList]
  refine ⟨ft2, ?_, ?_, ?_, ?_, ?_⟩
  · rw [hstep]
    exact hwfr
  · exact hdata2.trans hdl
  · rw [hstep]
    exact hnx
  · rw [hstep]
    exact hnl
  · rw [hstep]
    exact hcm

set_option maxHeartbeats 4000000 in
/-- The terminal rotation iteration of insert fixup, left/left form: the
parent turns black, the grandparent red, a right rotation at the
grandparent rebalances, and the loop exits on the next test. -/
lemma fixup_rot_ll (n : Nat)
    (t : RBTree) (rest2 : List Frame) (k fd p1 d1 g d2 : Nat)
    (c1 c2 : Color) (fl fr S1 U : ITree)
    (hwf : TreeWf t (plug (ITree.node k Color.red fl fd fr)
      (Frame.lf p1 c1 d1 S1 :: Frame.lf g c2 d2 U :: rest2)))
    (hc1red : c1 = Color.red)
    (huncle : ¬((t.heap (U.rootId t.nil)).color = Color.red)) :
    FixupGoal (n+1) t k (plug (ITree.node k Color.red fl fd fr)
      (Frame.lf p1 c1 d1 S1 :: Frame.lf g c2 d2 U :: rest2)) := by
  subst hc1red
  obtain ⟨hokF, hpathF⟩ := (okAt_plug _ _).1 hwf.ok
  rw [okAt_node] at hokF
  obtain ⟨hknil, hk0, hkc, hkd, hkl, hkr, hkp, hokFl, hokFr⟩ := hokF
  simp only [ITree.rootId] at hpathF
  obtain ⟨hp1nil, hp10, hp1c, hp1d, hp1l, hp1r, hp1p, hokS1, hpathRest⟩ :=
    pathOkAt_lf.1 hpathF
  obtain ⟨hgnil, hg0, hgc, hgd, hgl, hgr, hgp, hokU, hpathRest2⟩ :=
    pathOkAt_lf.1 hpathRest
  have hkp1 : (t.heap k).parent = p1 := hkp
  have hp1g : (t.heap p1).parent = g := hp1p
  have hshape0 : ((pathIdsL rest2 ++ fl.ids) ++ k :: (fr.ids ++ p1 ::
      (S1.ids ++ g :: (U.ids ++ pathIdsR rest2)))).Nodup := by
    have h0 := hwf.nodup
    rw [plug_ids] at h0
    simpa [pathIdsL, pathIdsR, ids_node, List.append_assoc] using h0
  have hshape1 : ((pathIdsL rest2 ++ fl.ids ++ k :: fr.ids) ++ p1 ::
      (S1.ids ++ g :: (U.ids ++ pathIdsR rest2))).Nodup := by
    have h0 := hwf.nodup
    rw [plug_ids] at h0
    simpa [pathIdsL, pathIdsR, ids_node, List.append_assoc] using h0
  have hshape2 : ((pathIdsL rest2 ++ fl.ids ++ k :: fr.ids ++ p1 :: S1.ids) ++ g ::
      (U.ids ++ pathIdsR rest2)).Nodup := by
    have h0 := hwf.nodup
    rw [plug_ids] at h0
    simpa [pathIdsL, pathIdsR, ids_node, List.append_assoc] using h0
  obtain ⟨hkA, hkB⟩ := nodup_out hshape0
  obtain ⟨hp1A, hp1B⟩ := nodup_out hshape1
  obtain ⟨hgA, hgB⟩ := nodup_out hshape2
  simp only [List.mem_append, List.mem_cons, not_or] at hkA hkB hp1A hp1B hgA hgB
  have nkS1 : k ∉ S1.ids := by tauto
  have np1L : p1 ∉ pathIdsL rest2 := by tauto
  have np1fl : p1 ∉ fl.ids := by tauto
  have np1k : ¬(p1 = k) := by tauto
  have np1fr : p1 ∉ fr.ids := by tauto
  have np1S1 : p1 ∉ S1.ids := by tauto
  have np1g : ¬(p1 = g) := by tauto
  have np1U : p1 ∉ U.ids := by tauto
  have np1R : p1 ∉ pathIdsR rest2 := by tauto
  have ngL : g ∉ pathIdsL rest2 := by tauto
  have ngfl : g ∉ fl.ids := by tauto
  have ngk : ¬(g = k) := by tauto
  have ngfr : g ∉ fr.ids := by tauto
  have ngS1 : g ∉ S1.ids := by tauto
  have ngU : g ∉ U.ids := by tauto
  have ngR : g ∉ pathIdsR rest2 := by tauto
  have hkS1 : ¬(k = S1.rootId t.nil) := by
    intro he
    cases hS1 : S1 with
    | leaf =>
      rw [hS1] at he
      exact hknil he
    | node a b c d9 e =>
      have hmem : S1.rootId t.nil ∈ S1.ids := by
        rw [hS1]
        exact rootId_mem (by simp)
      exact nkS1 (he ▸ hmem)
  have hW1k : (writeColor t p1 Color.black).heap k = t.heap k := by
    rw [writeColor_heap, if_neg (fun he => np1k he.symm)]
  have hW1p1 : (writeColor t p1 Color.black).heap p1 =
      { t.heap p1 with color := Color.black } := by
    rw [writeColor_heap, if_pos (show p1 = p1 from rfl)]
  have hrec : ({ t.heap p1 with color := Color.black } : RBNode).parent = g := hp1g
  have hW2k : (writeColor (writeColor t p1 Color.black) g Color.red).heap k = t.heap k := by
    rw [writeColor_heap, if_neg (fun he => ngk he.symm), hW1k]
  have hW2p1 : (writeColor (writeColor t p1 Color.black) g Color.red).heap p1 =
      { t.heap p1 with color := Color.black } := by
    rw [writeColor_heap, if_neg np1g, hW1p1]
  have hstep : gc_rb_tree_insert_fixup_go (n+1) t k =
      gc_rb_tree_insert_fixup_go n
        (gc_rb_tree_right_rotate
          (writeColor (writeColor t p1 Color.black) g Color.red) g) k := by
    simp only [gc_rb_tree_insert_fixup_go]
    rw [hkp1, hp1g, hp1c, if_pos (show Color.red = Color.red from rfl),
      hgl, if_pos (show p1 = p1 from rfl), hgr, if_neg huncle,
      hp1r, if_neg hkS1]
    simp only []
    rw [hkp1, hW1k, hkp1, hW1p1, hrec]
    rw [hW2k, hkp1, hW2p1, hrec]
  have hwf1 := treeWf_writeColor t _ p1 Color.black hwf hp1nil
  have hwf2 := treeWf_writeColor _ _ g Color.red hwf1 hgnil
  have e1 : (ITree.node g c2
        (ITree.node p1 Color.red (ITree.node k Color.red fl fd fr) d1 S1) d2
        U).recolor p1 Color.black =
      ITree.node g c2
        (ITree.node p1 Color.black (ITree.node k Color.red fl fd fr) d1 S1) d2 U := by
    simp [ITree.recolor, recolor_notin fl np1fl, recolor_notin fr np1fr,
      recolor_notin S1 np1S1, recolor_notin U np1U,
      Ne.symm np1g, Ne.symm np1k]
  have e2 : (ITree.node g c2
        (ITree.node p1 Color.black (ITree.node k Color.red fl fd fr) d1 S1) d2
        U).recolor g Color.red =
      ITree.node g Color.red
        (ITree.node p1 Color.black (ITree.node k Color.red fl fd fr) d1 S1) d2 U := by
    simp [ITree.recolor, recolor_notin fl ngfl, recolor_notin fr ngfr,
      recolor_notin S1 ngS1, recolor_notin U ngU,
      np1g, Ne.symm ngk]
  have E2 : (((plug (ITree.node g c2
        (ITree.node p1 Color.red (ITree.node k Color.red fl fd fr) d1 S1) d2
        U) rest2).recolor p1 Color.black).recolor g Color.red) =
      plug (ITree.node g Color.red
        (ITree.node p1 Color.black (ITree.node k Color.red fl fd fr) d1 S1) d2 U) rest2 := by
    rw [plug_recolor, frames_recolor_notin rest2 (by
        simp only [List.mem_append, not_or]
        exact ⟨np1L, np1R⟩), e1,
      plug_recolor, frames_recolor_notin rest2 (by
        simp only [List.mem_append, not_or]
        exact ⟨ngL, ngR⟩), e2]
  have hwf2b : TreeWf (writeColor (writeColor t p1 Color.black) g Color.red)
      (((plug (ITree.node g c2
        (ITree.node p1 Color.red (ITree.node k Color.red fl fd fr) d1 S1) d2
        U) rest2).recolor p1 Color.black).recolor g Color.red) := hwf2
  rw [E2] at hwf2b
  have hrot := right_rotate_spec (writeColor (writeColor t p1 Color.black) g Color.red)
    rest2 p1 d1 g d2 Color.black Color.red (ITree.node k Color.red fl fd fr) S1 U hwf2b
  have hexit := parent_black_exit hrot.1
  refine ⟨plug (ITree.node p1 Color.black (ITree.node k Color.red fl fd fr) d1
      (ITree.node g Color.red S1 d2 U)) rest2, ?_, ?_, ?_, ?_, ?_⟩
  · rw [hstep, fixup_go_exit hexit n]
    exact hrot.1
  · have hd1 := (lrot_dataList rest2 p1 d1 g d2 Color.black Color.red
      (ITree.node k Color.red fl fd fr) S1 U).symm
    have hd2 : (plug (ITree.node g Color.red
        (ITree.node p1 Color.black (ITree.node k Color.red fl fd fr) d1 S1) d2 U)
          rest2).dataList =
        (plug (ITree.node g c2
        (ITree.node p1 Color.red (ITree.node k Color.red fl fd fr) d1 S1) d2 U)
          rest2).dataList := by
      rw [← E2, recolor_dataList, recolor_dataList]
    exact hd1.trans hd2
  · rw [hstep, fixup_go_exit hexit n]
    exact hrot.2.1
  · rw [hstep, fixup_go_exit hexit n]
    exact hrot.2.2.1
  · rw [hstep, fixup_go_exit hexit n]
    exact hrot.2.2.2

set_option maxHeartbeats 4000000 in
/-- The terminal rotation iteration of insert fixup, right/right form:
parent black, grandparent red, left rotation at the grandparent. -/
lemma fixup_rot_rr (n : Nat)
    (t : RBTree) (rest2 : List Frame) (k fd p1 d1 g d2 : Nat)
    (c1 c2 : Color) (fl fr S1 U : ITree)
    (hwf : TreeWf t (plug (ITree.node k Color.red fl fd fr)
      (Frame.rf p1 c1 d1 S1 :: Frame.rf g c2 d2 U :: rest2)))
    (hc1red : c1 = Color.red)
    (huncle : ¬((t.heap (U.rootId t.nil)).color = Color.red)) :
    FixupGoal (n+1) t k (plug (ITree.node k Color.red fl fd fr)
      (Frame.rf p1 c1 d1 S1 :: Frame.rf g c2 d2 U :: rest2)) := by
  subst hc1red
  obtain ⟨hokF, hpathF⟩ := (okAt_plug _ _).1 hwf.ok
  rw [okAt_node] at hokF
  obtain ⟨hknil, hk0, hkc, hkd, hkl, hkr, hkp, hokFl, hokFr⟩ := hokF
  simp only [ITree.rootId] at hpathF
  obtain ⟨hp1nil, hp10, hp1c, hp1d, hp1l, hp1r, hp1p, hokS1, hpathRest⟩ :=
    pathOkAt_rf.1 hpathF
  obtain ⟨hgnil, hg0, hgc, hgd, hgl, hgr, hgp, hokU, hpathRest2⟩ :=
    pathOkAt_rf.1 hpathRest
  have hkp1 : (t.heap k).parent = p1 := hkp
  have hp1g : (t.heap p1).parent = g := hp1p
  have hshape0 : ((pathIdsL rest2 ++ U.ids ++ g :: S1.ids ++ p1 :: fl.ids) ++ k ::
      (fr.ids ++ pathIdsR rest2)).Nodup := by
    have h0 := hwf.nodup
    rw [plug_ids] at h0
    simpa [pathIdsL, pathIdsR, ids_node, List.append_assoc] using h0
  have hshape1 : ((pathIdsL rest2 ++ U.ids ++ g :: S1.ids) ++ p1 ::
      (fl.ids ++ k :: (fr.ids ++ pathIdsR rest2))).Nodup := by
    have h0 := hwf.nodup
    rw [plug_ids] at h0
    simpa [pathIdsL, pathIdsR, ids_node, List.append_assoc] using h0
  have hshape2 : ((pathIdsL rest2 ++ U.ids) ++ g ::
      (S1.ids ++ p1 :: (fl.ids ++ k :: (fr.ids ++ pathIdsR rest2)))).Nodup := by
    have h0 := hwf.nodup
    rw [plug_ids] at h0
    simpa [pathIdsL, pathIdsR, ids_node, List.append_assoc] using h0
  obtain ⟨hkA, hkB⟩ := nodup_out hshape0
  obtain ⟨hp1A, hp1B⟩ := nodup_out hshape1
  obtain ⟨hgA, hgB⟩ := nodup_out hshape2
  simp only [List.mem_append, List.mem_cons, not_or] at hkA hkB hp1A hp1B hgA hgB
  have nkS1 : k ∉ S1.ids := by tauto
  have np1L : p1 ∉ pathIdsL rest2 := by tauto
  have np1fl : p1 ∉ fl.ids := by tauto
  have np1k : ¬(p1 = k) := by tauto
  have np1fr : p1 ∉ fr.ids := by tauto
  have np1S1 : p1 ∉ S1.ids := by tauto
  have np1g : ¬(p1 = g) := by tauto
  have np1U : p1 ∉ U.ids := by tauto
  have np1R : p1 ∉ pathIdsR rest2 := by tauto
  have ngL : g ∉ pathIdsL rest2 := by tauto
  have ngfl : g ∉ fl.ids := by tauto
  have ngk : ¬(g = k) := by tauto
  have ngfr : g ∉ fr.ids := by tauto
  have ngS1 : g ∉ S1.ids := by tauto
  have ngU : g ∉ U.ids := by tauto
  have ngR : g ∉ pathIdsR rest2 := by tauto
  have hkS1 : ¬(k = S1.rootId t.nil) := by
    intro he
    cases hS1 : S1 with
    | leaf =>
      rw [hS1] at he
      exact hknil he
    | node a b c d9 e =>
      have hmem : S1.rootId t.nil ∈ S1.ids := by
        rw [hS1]
        exact rootId_mem (by simp)
      exact nkS1 (he ▸ hmem)
  have hp1U : ¬(p1 = U.rootId t.nil) := by
    intro he
    cases hU : U with
    | leaf =>
      rw [hU] at he
      exact hp1nil he
    | node a b c d9 e =>
      have hmem : U.rootId t.nil ∈ U.ids := by
        rw [hU]
        exact rootId_mem (by simp)
      exact np1U (he ▸ hmem)
  have hW1k : (writeColor t p1 Color.black).heap k = t.heap k := by
    rw [writeColor_heap, if_neg (fun he => np1k he.symm)]
  have hW1p1 : (writeColor t p1 Color.black).heap p1 =
      { t.heap p1 with color := Color.black } := by
    rw [writeColor_heap, if_pos (show p1 = p1 from rfl)]
  have hrec : ({ t.heap p1 with color := Color.black } : RBNode).parent = g := hp1g
  have hW2k : (writeColor (writeColor t p1 Color.black) g Color.red).heap k = t.heap k := by
    rw [writeColor_heap, if_neg (fun he => ngk he.symm), hW1k]
  have hW2p1 : (writeColor (writeColor t p1 Color.black) g Color.red).heap p1 =
      { t.heap p1 with color := Color.black } := by
    rw [writeColor_heap, if_neg np1g, hW1p1]
  have hstep : gc_rb_tree_insert_fixup_go (n+1) t k =
      gc_rb_tree_insert_fixup_go n
        (gc_rb_tree_left_rotate
          (writeColor (writeColor t p1 Color.black) g Color.red) g) k := by
    simp only [gc_rb_tree_insert_fixup_go]
    rw [hkp1, hp1g, hp1c, if_pos (show Color.red = Color.red from rfl),
      hgl, if_neg hp1U, if_neg huncle,
      hp1l, if_neg hkS1]
    simp only []
    rw [hkp1, hW1k, hkp1, hW1p1, hrec]
    rw [hW2k, hkp1, hW2p1, hrec]
  have hwf1 := treeWf_writeColor t _ p1 Color.black hwf hp1nil
  have hwf2 := treeWf_writeColor _ _ g Color.red hwf1 hgnil
  have e1 : (ITree.node g c2 U d2
        (ITree.node p1 Color.red S1 d1 (ITree.node k Color.red fl fd fr))).recolor
          p1 Color.black =
      ITree.node g c2 U d2
        (ITree.node p1 Color.black S1 d1 (ITree.node k Color.red fl fd fr)) := by
    simp [ITree.recolor, recolor_notin fl np1fl, recolor_notin fr np1fr,
      recolor_notin S1 np1S1, recolor_notin U np1U,
      Ne.symm np1g, Ne.symm np1k]
  have e2 : (ITree.node g c2 U d2
        (ITree.node p1 Color.black S1 d1 (ITree.node k Color.red fl fd fr))).recolor
          g Color.red =
      ITree.node g Color.red U d2
        (ITree.node p1 Color.black S1 d1 (ITree.node k Color.red fl fd fr)) := by
    simp [ITree.recolor, recolor_notin fl ngfl, recolor_notin fr ngfr,
      recolor_notin S1 ngS1, recolor_notin U ngU,
      np1g, Ne.symm ngk]
  have E2 : (((plug (ITree.node g c2 U d2
        (ITree.node p1 Color.red S1 d1 (ITree.node k Color.red fl fd fr)))
          rest2).recolor p1 Color.black).recolor g Color.red) =
      plug (ITree.node g Color.red U d2
        (ITree.node p1 Color.black S1 d1 (ITree.node k Color.red fl fd fr))) rest2 := by
    rw [plug_recolor, frames_recolor_notin rest2 (by
        simp only [List.mem_append, not_or]
        exact ⟨np1L, np1R⟩), e1,
      plug_recolor, frames_recolor_notin rest2 (by
        simp only [List.mem_append, not_or]
        exact ⟨ngL, ngR⟩), e2]
  have hwf2b : TreeWf (writeColor (writeColor t p1 Color.black) g Color.red)
      (((plug (ITree.node g c2 U d2
        (ITree.node p1 Color.red S1 d1 (ITree.node k Color.red fl fd fr)))
          rest2).recolor p1 Color.black).recolor g Color.red) := hwf2
  rw [E2] at hwf2b
  have hrot := left_rotate_spec (writeColor (writeColor t p1 Color.black) g Color.red)
    rest2 g d2 p1 d1 Color.red Color.black U S1 (ITree.node k Color.red fl fd fr) hwf2b
  have hexit := parent_black_exit2 hrot.1
  refine ⟨plug (ITree.node p1 Color.black (ITree.node g Color.red U d2 S1) d1
      (ITree.node k Color.red fl fd fr)) rest2, ?_, ?_, ?_, ?_, ?_⟩
  · rw [hstep, fixup_go_exit hexit n]
    exact hrot.1
  · have hd1 := lrot_dataList rest2 g d2 p1 d1 Color.red Color.black U S1
      (ITree.node k Color.red fl fd fr)
    have hd2 : (plug (ITree.node g Color.red U d2
        (ITree.node p1 Color.black S1 d1 (ITree.node k Color.red fl fd fr)))
          rest2).dataList =
        (plug (ITree.node g c2 U d2
        (ITree.node p1 Color.red S1 d1 (ITree.node k Color.red fl fd fr)))
          rest2).dataList := by
      rw [← E2, recolor_dataList, recolor_dataList]
    exact hd1.trans hd2
  · rw [hstep, fixup_go_exit hexit n]
    exact hrot.2.1
  · rw [hstep, fixup_go_exit hexit n]
    exact hrot.2.2.1
  · rw [hstep, fixup_go_exit hexit n]
    exact hrot.2.2.2

set_option maxHeartbeats 4000000 in
/-- The terminal double-rotation iteration of insert fixup, right/left
form: a left rotation at the parent straightens the zig-zag, then the
colors flip and a right rotation at the grandparent rebalances. -/
lemma fixup_rot_rl (n : Nat)
    (t : RBTree) (rest2 : List Frame) (k fd p1 d1 g d2 : Nat)
    (c1 c2 : Color) (fl fr S1 U : ITree)
    (hwf : TreeWf t (plug (ITree.node k Color.red fl fd fr)
      (Frame.rf p1 c1 d1 S1 :: Frame.lf g c2 d2 U :: rest2)))
    (hc1red : c1 = Color.red)
    (huncle : ¬((t.heap (U.rootId t.nil)).color = Color.red)) :
    FixupGoal (n+1) t k (plug (ITree.node k Color.red fl fd fr)
      (Frame.rf p1 c1 d1 S1 :: Frame.lf g c2 d2 U :: rest2)) := by
  subst hc1red
  obtain ⟨hokF, hpathF⟩ := (okAt_plug _ _).1 hwf.ok
  rw [okAt_node] at hokF
  obtain ⟨hknil, hk0, hkc, hkd, hkl, hkr, hkp, hokFl, hokFr⟩ := hokF
  simp only [ITree.rootId] at hpathF
  obtain ⟨hp1nil, hp10, hp1c, hp1d, hp1l, hp1r, hp1p, hokS1, hpathRest⟩ :=
    pathOkAt_rf.1 hpathF
  obtain ⟨hgnil, hg0, hgc, hgd, hgl, hgr, hgp, hokU, hpathRest2⟩ :=
    pathOkAt_lf.1 hpathRest
  have hkp1 : (t.heap k).parent = p1 := hkp
  have hp1g : (t.heap p1).parent = g := hp1p
  -- the inner left rotation at the parent straightens the zig-zag
  have hwfpre : TreeWf t (plug
      (ITree.node p1 Color.red S1 d1 (ITree.node k Color.red fl fd fr))
      (Frame.lf g c2 d2 U :: rest2)) := hwf
  have hrotL := left_rotate_spec t (Frame.lf g c2 d2 U :: rest2)
    p1 d1 k fd Color.red Color.red S1 fl fr hwfpre
  -- reads on the rotated heap
  obtain ⟨hokF2, hpathF2⟩ := (okAt_plug _ _).1 hrotL.1.ok
  rw [okAt_node] at hokF2
  obtain ⟨hknil2, hk02, hkc2, hkd2, hkl2, hkr2, hkp2, hokP1, hokFr2⟩ := hokF2
  rw [okAt_node] at hokP1
  obtain ⟨hp1nil2, hp102, hp1c2, hp1d2, hp1l2, hp1r2, hp1p2, hokS12, hokfl2⟩ := hokP1
  have htkp : ((gc_rb_tree_left_rotate t p1).heap k).parent = g := hkp2
  have htp1p : ((gc_rb_tree_left_rotate t p1).heap p1).parent = k := hp1p2
  -- separation facts on the rotated tree
  have hshape0 : ((pathIdsL rest2 ++ S1.ids ++ p1 :: fl.ids) ++ k ::
      (fr.ids ++ g :: (U.ids ++ pathIdsR rest2))).Nodup := by
    have h0 := hrotL.1.nodup
    rw [plug_ids] at h0
    simpa [pathIdsL, pathIdsR, ids_node, List.append_assoc] using h0
  have hshape1 : ((pathIdsL rest2 ++ S1.ids) ++ p1 ::
      (fl.ids ++ k :: (fr.ids ++ g :: (U.ids ++ pathIdsR rest2)))).Nodup := by
    have h0 := hrotL.1.nodup
    rw [plug_ids] at h0
    simpa [pathIdsL, pathIdsR, ids_node, List.append_assoc] using h0
  have hshape2 : ((pathIdsL rest2 ++ S1.ids ++ p1 :: fl.ids ++ k :: fr.ids) ++ g ::
      (U.ids ++ pathIdsR rest2)).Nodup := by
    have h0 := hrotL.1.nodup
    rw [plug_ids] at h0
    simpa [pathIdsL, pathIdsR, ids_node, List.append_assoc] using h0
  obtain ⟨hkA, hkB⟩ := nodup_out hshape0
  obtain ⟨hp1A, hp1B⟩ := nodup_out hshape1
  obtain ⟨hgA, hgB⟩ := nodup_out hshape2
  simp only [List.mem_append, List.mem_cons, not_or] at hkA hkB hp1A hp1B hgA hgB
  have nkL : k ∉ pathIdsL rest2 := by tauto
  have nkS1 : k ∉ S1.ids := by tauto
  have nkp1 : ¬(k = p1) := by tauto
  have nkfl : k ∉ fl.ids := by tauto
  have nkfr : k ∉ fr.ids := by tauto
  have nkg : ¬(k = g) := by tauto
  have nkU : k ∉ U.ids := by tauto
  have nkR : k ∉ pathIdsR rest2 := by tauto
  have np1g : ¬(p1 = g) := by tauto
  have ngL : g ∉ pathIdsL rest2 := by tauto
  have ngS1 : g ∉ S1.ids := by tauto
  have ngp1 : ¬(g = p1) := by tauto
  have ngfl : g ∉ fl.ids := by tauto
  have ngk : ¬(g = k) := by tauto
  have ngfr : g ∉ fr.ids := by tauto
  have ngU : g ∉ U.ids := by tauto
  have ngR : g ∉ pathIdsR rest2 := by tauto
  -- reads through the two color writes
  have hW1p1 : (writeColor (gc_rb_tree_left_rotate t p1) k Color.black).heap p1 =
      (gc_rb_tree_left_rotate t p1).heap p1 := by
    rw [writeColor_heap, if_neg (fun he => nkp1 he.symm)]
  have hW1k : (writeColor (gc_rb_tree_left_rotate t p1) k Color.black).heap k =
      { (gc_rb_tree_left_rotate t p1).heap k with color := Color.black } := by
    rw [writeColor_heap, if_pos (show k = k from rfl)]
  have hreck : ({ (gc_rb_tree_left_rotate t p1).heap k with color := Color.black } :
      RBNode).parent = g := htkp
  have hW2p1 : (writeColor (writeColor (gc_rb_tree_left_rotate t p1) k Color.black) g
      Color.red).heap p1 = (gc_rb_tree_left_rotate t p1).heap p1 := by
    rw [writeColor_heap, if_neg np1g, hW1p1]
  have hW2k : (writeColor (writeColor (gc_rb_tree_left_rotate t p1) k Color.black) g
      Color.red).heap k =
      { (gc_rb_tree_left_rotate t p1).heap k with color := Color.black } := by
    rw [writeColor_heap, if_neg nkg, hW1k]
  have hstep : gc_rb_tree_insert_fixup_go (n+1) t k =
      gc_rb_tree_insert_fixup_go n
        (gc_rb_tree_right_rotate
          (writeColor (writeColor (gc_rb_tree_left_rotate t p1) k Color.black) g
            Color.red) g) p1 := by
    simp only [gc_rb_tree_insert_fixup_go]
    rw [hkp1, hp1g, hp1c, if_pos (show Color.red = Color.red from rfl),
      hgl, if_pos (show p1 = p1 from rfl), hgr, if_neg huncle,
      hp1r, if_pos (show k = k from rfl)]
    simp only []
    rw [htp1p, hW1p1, htp1p, hW1k, hreck]
    rw [hW2p1, htp1p, hW2k, hreck]
  -- recolors on the rotated tree
  have hknil3 : k ≠ (gc_rb_tree_left_rotate t p1).nil := by
    rw [hrotL.2.2.1]
    exact hknil
  have hgnil3 : g ≠ (gc_rb_tree_left_rotate t p1).nil := by
    rw [hrotL.2.2.1]
    exact hgnil
  have hwf1 := treeWf_writeColor _ _ k Color.black hrotL.1 hknil3
  have hwf2 := treeWf_writeColor _ _ g Color.red hwf1 hgnil3
  have e1 : (ITree.node g c2
        (ITree.node k Color.red (ITree.node p1 Color.red S1 d1 fl) fd fr) d2
        U).recolor k Color.black =
      ITree.node g c2
        (ITree.node k Color.black (ITree.node p1 Color.red S1 d1 fl) fd fr) d2 U := by
    simp [ITree.recolor, recolor_notin fl nkfl, recolor_notin fr nkfr,
      recolor_notin S1 nkS1, recolor_notin U nkU,
      Ne.symm nkg, Ne.symm nkp1]
  have e2 : (ITree.node g c2
        (ITree.node k Color.black (ITree.node p1 Color.red S1 d1 fl) fd fr) d2
        U).recolor g Color.red =
      ITree.node g Color.red
        (ITree.node k Color.black (ITree.node p1 Color.red S1 d1 fl) fd fr) d2 U := by
    simp [ITree.recolor, recolor_notin fl ngfl, recolor_notin fr ngfr,
      recolor_notin S1 ngS1, recolor_notin U ngU,
      Ne.symm ngk, ngp1]
  have E2 : (((plug (ITree.node g c2
        (ITree.node k Color.red (ITree.node p1 Color.red S1 d1 fl) fd fr) d2
        U) rest2).recolor k Color.black).recolor g Color.red) =
      plug (ITree.node g Color.red
        (ITree.node k Color.black (ITree.node p1 Color.red S1 d1 fl) fd fr) d2 U)
        rest2 := by
    rw [plug_recolor, frames_recolor_notin rest2 (by
        simp only [List.mem_append, not_or]
        exact ⟨nkL, nkR⟩), e1,
      plug_recolor, frames_recolor_notin rest2 (by
        simp only [List.mem_append, not_or]
        exact ⟨ngL, ngR⟩), e2]
  have hwf2b : TreeWf
      (writeColor (writeColor (gc_rb_tree_left_rotate t p1) k Color.black) g Color.red)
      (((plug (ITree.node g c2
        (ITree.node k Color.red (ITree.node p1 Color.red S1 d1 fl) fd fr) d2
        U) rest2).recolor k Color.black).recolor g Color.red) := hwf2
  rw [E2] at hwf2b
  have hrotR := right_rotate_spec
    (writeColor (writeColor (gc_rb_tree_left_rotate t p1) k Color.black) g Color.red)
    rest2 k fd g d2 Color.black Color.red (ITree.node p1 Color.red S1 d1 fl) fr U hwf2b
  have hexit := parent_black_exit hrotR.1
  refine ⟨plug (ITree.node k Color.black (ITree.node p1 Color.red S1 d1 fl) fd
      (ITree.node g Color.red fr d2 U)) rest2, ?_, ?_, ?_, ?_, ?_⟩
  · rw [hstep, fixup_go_exit hexit n]
    exact hrotR.1
  · have hd1 := (lrot_dataList rest2 k fd g d2 Color.black Color.red
      (ITree.node p1 Color.red S1 d1 fl) fr U).symm
    have hd2 : (plug (ITree.node g Color.red
        (ITree.node k Color.black (ITree.node p1 Color.red S1 d1 fl) fd fr) d2 U)
          rest2).dataList =
        (plug (ITree.node g c2
        (ITree.node k Color.red (ITree.node p1 Color.red S1 d1 fl) fd fr) d2 U)
          rest2).dataList := by
      rw [← E2, recolor_dataList, recolor_dataList]
    have hd3 := lrot_dataList (Frame.lf g c2 d2 U :: rest2)
      p1 d1 k fd Color.red Color.red S1 fl fr
    exact hd1.trans (hd2.trans hd3)
  · rw [hstep, fixup_go_exit hexit n]
    exact hrotR.2.1.trans hrotL.2.1
  · rw [hstep, fixup_go_exit hexit n]
    exact hrotR.2.2.1.trans hrotL.2.2.1
  · rw [hstep, fixup_go_exit hexit n]
    exact hrotR.2.2.2.trans hrotL.2.2.2

set_option maxHeartbeats 4000000 in
/-- The terminal double-rotation iteration of insert fixup, left/right
form: a right rotation at the parent straightens the zig-zag, then the
colors flip and a left rotation at the grandparent rebalances. -/
lemma fixup_rot_lr (n : Nat)
    (t : RBTree) (rest2 : List Frame) (k fd p1 d1 g d2 : Nat)
    (c1 c2 : Color) (fl fr S1 U : ITree)
    (hwf : TreeWf t (plug (ITree.node k Color.red fl fd fr)
      (Frame.lf p1 c1 d1 S1 :: Frame.rf g c2 d2 U :: rest2)))
    (hc1red : c1 = Color.red)
    (huncle : ¬((t.heap (U.rootId t.nil)).color = Color.red)) :
    FixupGoal (n+1) t k (plug (ITree.node k Color.red fl fd fr)
      (Frame.lf p1 c1 d1 S1 :: Frame.rf g c2 d2 U :: rest2)) := by
  subst hc1red
  obtain ⟨hokF, hpathF⟩ := (okAt_plug _ _).1 hwf.ok
  rw [okAt_node] at hokF
  obtain ⟨hknil, hk0, hkc, hkd, hkl, hkr, hkp, hokFl, hokFr⟩ := hokF
  simp only [ITree.rootId] at hpathF
  obtain ⟨hp1nil, hp10, hp1c, hp1d, hp1l, hp1r, hp1p, hokS1, hpathRest⟩ :=
    pathOkAt_lf.1 hpathF
  obtain ⟨hgnil, hg0, hgc, hgd, hgl, hgr, hgp, hokU, hpathRest2⟩ :=
    pathOkAt_rf.1 hpathRest
  have hkp1 : (t.heap k).parent = p1 := hkp
  have hp1g : (t.heap p1).parent = g := hp1p
  -- the inner right rotation at the parent straightens the zig-zag
  have hwfpre : TreeWf t (plug
      (ITree.node p1 Color.red (ITree.node k Color.red fl fd fr) d1 S1)
      (Frame.rf g c2 d2 U :: rest2)) := hwf
  have hrotR1 := right_rotate_spec t (Frame.rf g c2 d2 U :: rest2)
    k fd p1 d1 Color.red Color.red fl fr S1 hwfpre
  -- reads on the rotated heap
  obtain ⟨hokF2, hpathF2⟩ := (okAt_plug _ _).1 hrotR1.1.ok
  rw [okAt_node] at hokF2
  obtain ⟨hknil2, hk02, hkc2, hkd2, hkl2, hkr2, hkp2, hokfl2, hokP1⟩ := hokF2
  rw [okAt_node] at hokP1
  obtain ⟨hp1nil2, hp102, hp1c2, hp1d2, hp1l2, hp1r2, hp1p2, hokfr2, hokS12⟩ := hokP1
  have htkp : ((gc_rb_tree_right_rotate t p1).heap k).parent = g := hkp2
  have htp1p : ((gc_rb_tree_right_rotate t p1).heap p1).parent = k := hp1p2
  -- separation facts on the rotated tree
  have hshape0 : ((pathIdsL rest2 ++ U.ids ++ g :: fl.ids) ++ k ::
      (fr.ids ++ p1 :: (S1.ids ++ pathIdsR rest2))).Nodup := by
    have h0 := hrotR1.1.nodup
    rw [plug_ids] at h0
    simpa [pathIdsL, pathIdsR, ids_node, List.append_assoc] using h0
  have hshape1 : ((pathIdsL rest2 ++ U.ids ++ g :: fl.ids ++ k :: fr.ids) ++ p1 ::
      (S1.ids ++ pathIdsR rest2)).Nodup := by
    have h0 := hrotR1.1.nodup
    rw [plug_ids] at h0
    simpa [pathIdsL, pathIdsR, ids_node, List.append_assoc] using h0
  have hshape2 : ((pathIdsL rest2 ++ U.ids) ++ g ::
      (fl.ids ++ k :: (fr.ids ++ p1 :: (S1.ids ++ pathIdsR rest2)))).Nodup := by
    have h0 := hrotR1.1.nodup
    rw [plug_ids] at h0
    simpa [pathIdsL, pathIdsR, ids_node, List.append_assoc] using h0
  obtain ⟨hkA, hkB⟩ := nodup_out hshape0
  obtain ⟨hp1A, hp1B⟩ := nodup_out hshape1
  obtain ⟨hgA, hgB⟩ := nodup_out hshape2
  simp only [List.mem_append, List.mem_cons, not_or] at hkA hkB hp1A hp1B hgA hgB
  have nkL : k ∉ pathIdsL rest2 := by tauto
  have nkS1 : k ∉ S1.ids := by tauto
  have nkp1 : ¬(k = p1) := by tauto
  have nkfl : k ∉ fl.ids := by tauto
  have nkfr : k ∉ fr.ids := by tauto
  have nkg : ¬(k = g) := by tauto
  have nkU : k ∉ U.ids := by tauto
  have nkR : k ∉ pathIdsR rest2 := by tauto
  have np1g : ¬(p1 = g) := by tauto
  have ngL : g ∉ pathIdsL rest2 := by tauto
  have ngS1 : g ∉ S1.ids := by tauto
  have ngp1 : ¬(g = p1) := by tauto
  have ngfl : g ∉ fl.ids := by tauto
  have ngk : ¬(g = k) := by tauto
  have ngfr : g ∉ fr.ids := by tauto
  have ngU : g ∉ U.ids := by tauto
  have ngR : g ∉ pathIdsR rest2 := by tauto
  -- reads through the two color writes
  have hW1p1 : (writeColor (gc_rb_tree_right_rotate t p1) k Color.black).heap p1 =
      (gc_rb_tree_right_rotate t p1).heap p1 := by
    rw [writeColor_heap, if_neg (fun he => nkp1 he.symm)]
  have hW1k : (writeColor (gc_rb_tree_right_rotate t p1) k Color.black).heap k =
      { (gc_rb_tree_right_rotate t p1).heap k with color := Color.black } := by
    rw [writeColor_heap, if_pos (show k = k from rfl)]
  have hreck : ({ (gc_rb_tree_right_rotate t p1).heap k with color := Color.black } :
      RBNode).parent = g := htkp
  have hW2p1 : (writeColor (writeColor (gc_rb_tree_right_rotate t p1) k Color.black) g
      Color.red).heap p1 = (gc_rb_tree_right_rotate t p1).heap p1 := by
    rw [writeColor_heap, if_neg np1g, hW1p1]
  have hW2k : (writeColor (writeColor (gc_rb_tree_right_rotate t p1) k Color.black) g
      Color.red).heap k =
      { (gc_rb_tree_right_rotate t p1).heap k with color := Color.black } := by
    rw [writeColor_heap, if_neg nkg, hW1k]
  have hp1U : ¬(p1 = U.rootId t.nil) := by
    intro he
    cases hU : U with
    | leaf =>
      rw [hU] at he
      exact hp1nil he
    | node a b c d9 e =>
      have hmem : U.rootId t.nil ∈ U.ids := by
        rw [hU]
        exact rootId_mem (by simp)
      have hp1U2 : p1 ∉ U.ids := by tauto
      exact hp1U2 (he ▸ hmem)
  have hstep : gc_rb_tree_insert_fixup_go (n+1) t k =
      gc_rb_tree_insert_fixup_go n
        (gc_rb_tree_left_rotate
          (writeColor (writeColor (gc_rb_tree_right_rotate t p1) k Color.black) g
            Color.red) g) p1 := by
    simp only [gc_rb_tree_insert_fixup_go]
    rw [hkp1, hp1g, hp1c, if_pos (show Color.red = Color.red from rfl),
      hgl, if_neg hp1U, if_neg huncle,
      hp1l, if_pos (show k = k from rfl)]
    simp only []
    rw [htp1p, hW1p1, htp1p, hW1k, hreck]
    rw [hW2p1, htp1p, hW2k, hreck]
  -- recolors on the rotated tree
  have hknil3 : k ≠ (gc_rb_tree_right_rotate t p1).nil := by
    rw [hrotR1.2.2.1]
    exact hknil
  have hgnil3 : g ≠ (gc_rb_tree_right_rotate t p1).nil := by
    rw [hrotR1.2.2.1]
    exact hgnil
  have hwf1 := treeWf_writeColor _ _ k Color.black hrotR1.1 hknil3
  have hwf2 := treeWf_writeColor _ _ g Color.red hwf1 hgnil3
  have e1 : (ITree.node g c2 U d2
        (ITree.node k Color.red fl fd (ITree.node p1 Color.red fr d1 S1))).recolor
          k Color.black =
      ITree.node g c2 U d2
        (ITree.node k Color.black fl fd (ITree.node p1 Color.red fr d1 S1)) := by
    simp [ITree.recolor, recolor_notin fl nkfl, recolor_notin fr nkfr,
      recolor_notin S1 nkS1, recolor_notin U nkU,
      Ne.symm nkg, Ne.symm nkp1]
  have e2 : (ITree.node g c2 U d2
        (ITree.node k Color.black fl fd (ITree.node p1 Color.red fr d1 S1))).recolor
          g Color.red =
      ITree.node g Color.red U d2
        (ITree.node k Color.black fl fd (ITree.node p1 Color.red fr d1 S1)) := by
    simp [ITree.recolor, recolor_notin fl ngfl, recolor_notin fr ngfr,
      recolor_notin S1 ngS1, recolor_notin U ngU,
      Ne.symm ngk, ngp1]
  have E2 : (((plug (ITree.node g c2 U d2
        (ITree.node k Color.red fl fd (ITree.node p1 Color.red fr d1 S1)))
          rest2).recolor k Color.black).recolor g Color.red) =
      plug (ITree.node g Color.red U d2
        (ITree.node k Color.black fl fd (ITree.node p1 Color.red fr d1 S1)))
        rest2 := by
    rw [plug_recolor, frames_recolor_notin rest2 (by
        simp only [List.mem_append, not_or]
        exact ⟨nkL, nkR⟩), e1,
      plug_recolor, frames_recolor_notin rest2 (by
        simp only [List.mem_append, not_or]
        exact ⟨ngL, ngR⟩), e2]
  have hwf2b : TreeWf
      (writeColor (writeColor (gc_rb_tree_right_rotate t p1) k Color.black) g Color.red)
      (((plug (ITree.node g c2 U d2
        (ITree.node k Color.red fl fd (ITree.node p1 Color.red fr d1 S1)))
          rest2).recolor k Color.black).recolor g Color.red) := hwf2
  rw [E2] at hwf2b
  have hrotL2 := left_rotate_spec
    (writeColor (writeColor (gc_rb_tree_right_rotate t p1) k Color.black) g Color.red)
    rest2 g d2 k fd Color.red Color.black U fl (ITree.node p1 Color.red fr d1 S1) hwf2b
  have hexit := parent_black_exit2 hrotL2.1
  refine ⟨plug (ITree.node k Color.black (ITree.node g Color.red U d2 fl) fd
      (ITree.node p1 Color.red fr d1 S1)) rest2, ?_, ?_, ?_, ?_, ?_⟩
  · rw [hstep, fixup_go_exit hexit n]
    exact hrotL2.1
  · have hd1 := lrot_dataList rest2 g d2 k fd Color.red Color.black U fl
      (ITree.node p1 Color.red fr d1 S1)
    have hd2 : (plug (ITree.node g Color.red U d2
        (ITree.node k Color.black fl fd (ITree.node p1 Color.red fr d1 S1)))
          rest2).dataList =
        (plug (ITree.node g c2 U d2
        (ITree.node k Color.red fl fd (ITree.node p1 Color.red fr d1 S1)))
          rest2).dataList := by
      rw [← E2, recolor_dataList, recolor_dataList]
    have hd3 := (lrot_dataList (Frame.rf g c2 d2 U :: rest2)
      k fd p1 d1 Color.red Color.red fl fr S1).symm
    exact hd1.trans (hd2.trans hd3)
  · rw [hstep, fixup_go_exit hexit n]
    exact hrotL2.2.1.trans hrotR1.2.1
  · rw [hstep, fixup_go_exit hexit n]
    exact hrotL2.2.2.1.trans hrotR1.2.2.1
  · rw [hstep, fixup_go_exit hexit n]
    exact hrotL2.2.2.2.trans hrotR1.2.2.2

set_option maxHeartbeats 2000000 in
/-- The insert-fixup loop, run with enough fuel on a well-formed tree with
a red focus (and a black root when the focus is not the root), returns a
well-formed tree with the same in-order payload sequence and untouched
scalar fields. -/
lemma insert_fixup_go_spec : ∀ n : Nat, FixupIH n := by
  intro n
  induction n with
  | zero =>
    intro t path k fd fl fr _ _ hlen
    exact absurd hlen (by omega)
  | succ n ih =>
    intro t path k fd fl fr hwf hlast hlen
    obtain ⟨hokF, hpathF⟩ := (okAt_plug path _).1 hwf.ok
    rw [okAt_node] at hokF
    obtain ⟨hknil, hk0, hkc, hkd, hkl, hkr, hkp, hokFl, hokFr⟩ := hokF
    simp only [ITree.rootId] at hpathF
    cases path with
    | nil =>
      have hcond : ¬((t.heap (t.heap k).parent).color = Color.red) := by
        have hkpn : (t.heap k).parent = t.nil := hkp
        rw [hkpn, hwf.nil_black]
        simp
      have hx := fixup_go_exit hcond (n+1)
      refine ⟨_, ?_, rfl, ?_, ?_, ?_⟩
      · rw [hx]
        exact hwf
      · rw [hx]
      · rw [hx]
      · rw [hx]
    | cons f1 rest =>
      cases f1 with
      | lf p1 c1 d1 S1 =>
        obtain ⟨hp1nil, hp10, hp1c, hp1d, hp1l, hp1r, hp1p, hokS1, hpathRest⟩ :=
          pathOkAt_lf.1 hpathF
        by_cases hc1 : c1 = Color.red
        · cases rest with
          | nil =>
            have hb := hlast (Frame.lf p1 c1 d1 S1) (by simp)
            rw [hc1] at hb
            simp [Frame.color] at hb
          | cons f2 rest2 =>
            cases f2 with
            | lf g c2 d2 U =>
              obtain ⟨hgnil, hg0, hgc, hgd, hgl, hgr, hgp, hokU, hpathRest2⟩ :=
                pathOkAt_lf.1 hpathRest
              by_cases hun : (t.heap (U.rootId t.nil)).color = Color.red
              · cases U with
                | leaf =>
                  exact absurd (show (t.heap t.nil).color = Color.red from hun)
                    (by rw [hwf.nil_black]; simp)
                | node u uc UL ud UR =>
                  rw [okAt_node] at hokU
                  obtain ⟨hunil, hu0, huc, hu2, hu3, hu4, hu5, hu6, hu7⟩ := hokU
                  have hucred : uc = Color.red := by
                    rw [← huc]
                    exact hun
                  subst hucred
                  exact fixup_red_uncle_ll n ih t rest2 k fd p1 d1 g d2 u ud c1 c2
                    fl fr S1 UL UR hwf hc1 hlast
                    (by simp only [List.length_cons] at hlen; omega)
              · exact fixup_rot_ll n t rest2 k fd p1 d1 g d2 c1 c2 fl fr S1 U hwf hc1 hun
            | rf g c2 d2 U =>
              obtain ⟨hgnil, hg0, hgc, hgd, hgl, hgr, hgp, hokU, hpathRest2⟩ :=
                pathOkAt_rf.1 hpathRest
              by_cases hun : (t.heap (U.rootId t.nil)).color = Color.red
              · cases U with
                | leaf =>
                  exact absurd (show (t.heap t.nil).color = Color.red from hun)
                    (by rw [hwf.nil_black]; simp)
                | node u uc UL ud UR =>
                  rw [okAt_node] at hokU
                  obtain ⟨hunil, hu0, huc, hu2, hu3, hu4, hu5, hu6, hu7⟩ := hokU
                  have hucred : uc = Color.red := by
                    rw [← huc]
                    exact hun
                  subst hucred
                  exact fixup_red_uncle_lr n ih t rest2 k fd p1 d1 g d2 u ud c1 c2
                    fl fr S1 UL UR hwf hc1 hlast
                    (by simp only [List.length_cons] at hlen; omega)
              · exact fixup_rot_lr n t rest2 k fd p1 d1 g d2 c1 c2 fl fr S1 U hwf hc1 hun
        · have hcond : ¬((t.heap (t.heap k).parent).color = Color.red) := by
            have hkpn : (t.heap k).parent = p1 := hkp
            rw [hkpn, hp1c]
            exact hc1
          have hx := fixup_go_exit hcond (n+1)
          refine ⟨_, ?_, rfl, ?_, ?_, ?_⟩
          · rw [hx]
            exact hwf
          · rw [hx]
          · rw [hx]
          · rw [hx]
      | rf p1 c1 d1 S1 =>
        obtain ⟨hp1nil, hp10, hp1c, hp1d, hp1l, hp1r, hp1p, hokS1, hpathRest⟩ :=
          pathOkAt_rf.1 hpathF
        by_cases hc1 : c1 = Color.red
        · cases rest with
          | nil =>
            have hb := hlast (Frame.rf p1 c1 d1 S1) (by simp)
            rw [hc1] at hb
            simp [Frame.color] at hb
          | cons f2 rest2 =>
            cases f2 with
            | lf g c2 d2 U =>
              obtain ⟨hgnil, hg0, hgc, hgd, hgl, hgr, hgp, hokU, hpathRest2⟩ :=
                pathOkAt_lf.1 hpathRest
              by_cases hun : (t.heap (U.rootId t.nil)).color = Color.red
              · cases U with
                | leaf =>
                  exact absurd (show (t.heap t.nil).color = Color.red from hun)
                    (by rw [hwf.nil_black]; simp)
                | node u uc UL ud UR =>
                  rw [okAt_node] at hokU
                  obtain ⟨hunil, hu0, huc, hu2, hu3, hu4, hu5, hu6, hu7⟩ := hokU
                  have hucred : uc = Color.red := by
                    rw [← huc]
                    exact hun
                  subst hucred
                  exact fixup_red_uncle_rl n ih t rest2 k fd p1 d1 g d2 u ud c1 c2
                    fl fr S1 UL UR hwf hc1 hlast
                    (by simp only [List.length_cons] at hlen; omega)
              · exact fixup_rot_rl n t rest2 k fd p1 d1 g d2 c1 c2 fl fr S1 U hwf hc1 hun
            | rf g c2 d2 U =>
              obtain ⟨hgnil, hg0, hgc, hgd, hgl, hgr, hgp, hokU, hpathRest2⟩ :=
                pathOkAt_rf.1 hpathRest
              by_cases hun : (t.heap (U.rootId t.nil)).color = Color.red
              · cases U with
                | leaf =>
                  exact absurd (show (t.heap t.nil).color = Color.red from hun)
                    (by rw [hwf.nil_black]; simp)
                | node u uc UL ud UR =>
                  rw [okAt_node] at hokU
                  obtain ⟨hunil, hu0, huc, hu2, hu3, hu4, hu5, hu6, hu7⟩ := hokU
                  have hucred : uc = Color.red := by
                    rw [← huc]
                    exact hun
                  subst hucred
                  exact fixup_red_uncle_rr n ih t rest2 k fd p1 d1 g d2 u ud c1 c2
                    fl fr S1 UL UR hwf hc1 hlast
                    (by simp only [List.length_cons] at hlen; omega)
              · exact fixup_rot_rr n t rest2 k fd p1 d1 g d2 c1 c2 fl fr S1 U hwf hc1 hun
        · have hcond : ¬((t.heap (t.heap k).parent).color = Color.red) := by
            have hkpn : (t.heap k).parent = p1 := hkp
            rw [hkpn, hp1c]
            exact hc1
          have hx := fixup_go_exit hcond (n+1)
          refine ⟨_, ?_, rfl, ?_, ?_, ?_⟩
          · rw [hx]
            exact hwf
          · rw [hx]
          · rw [hx]
          · rw [hx]

/-- The climb loop of successor exits immediately, whatever the fuel. -/
lemma succ_climb_exit {t : RBTree} {node y : Nat}
    (h : ¬(y ≠ t.nil ∧ node = (t.heap y).right)) :
    ∀ f, gc_rb_tree_succ_climb t f node y = y := by
  intro f
  cases f with
  | zero => rfl
  | succ f2 => rw [gc_rb_tree_succ_climb, if_neg h]

/-- Central successor lemma.  For a subtree ft stored at parent pid, with
the guarantee that climbing out of the subtree root yields C (given at
least n0 fuel), successive in-order ids are linked by gc_rb_tree_successor
and the last one climbs out to C. -/
lemma succ_chain (t : RBTree) :
    ∀ (ft : ITree) (pid C n0 : Nat),
      okAt t.heap t.nil pid ft = true →
      ft.ids.Nodup →
      (∀ f, n0 ≤ f → gc_rb_tree_succ_climb t f (ft.rootId t.nil) pid = C) →
      n0 + ft.ids.length + 1 ≤ t.next →
      List.Chain' (fun a b => gc_rb_tree_successor t a = b) ft.ids ∧
      (ft.ids ≠ [] →
        gc_rb_tree_successor t (ft.ids.getLastD 0) = if C ≠ t.nil then C else 0) := by
  intro ft
  induction ft with
  | leaf =>
    intro pid C n0 _ _ _ _
    exact ⟨List.chain'_nil, fun h => absurd rfl h⟩
  | node i c l d r ihl ihr =>
    intro pid C n0 hok hnd hC hfuel
    rw [okAt_node] at hok
    obtain ⟨hine, hi0, _, _, hleft, hright, hpar, hokl, hokr⟩ := hok
    rw [ids_node] at hnd hfuel ⊢
    rw [List.nodup_append] at hnd
    obtain ⟨hndl, hndr2, hdisj⟩ := hnd
    have hndr : r.ids.Nodup := (List.nodup_cons.1 hndr2).2
    have hlensum : l.ids.length + r.ids.length + 1 =
        (l.ids ++ i :: r.ids).length := by
      simp only [List.length_append, List.length_cons]
      omega
    -- climbing out of a non-empty left subtree lands on i
    have hCl : l ≠ ITree.leaf →
        ∀ f, gc_rb_tree_succ_climb t f (l.rootId t.nil) i = i := by
      intro hlnl f
      refine succ_climb_exit ?_ f
      rintro ⟨-, habs⟩
      rw [hright] at habs
      cases hr : r with
      | leaf =>
        rw [hr] at habs
        exact rootId_ne_nil hokl hlnl habs
      | node ri rc rl rd rr =>
        have h1 : l.rootId t.nil ∈ l.ids := rootId_mem hlnl
        have h2 : l.rootId t.nil ∈ i :: r.ids := by
          rw [habs, hr]
          exact List.mem_cons_of_mem i (rootId_mem (by simp))
        exact hdisj h1 h2
    -- climbing out of the right subtree continues from (i, pid), giving C
    have hCr : ∀ f, n0 + 1 ≤ f → gc_rb_tree_succ_climb t f (r.rootId t.nil) i = C := by
      intro f hf
      obtain ⟨f2, rfl⟩ : ∃ f2, f = f2 + 1 := ⟨f - 1, by omega⟩
      rw [gc_rb_tree_succ_climb, if_pos ⟨hine, hright.symm⟩, hpar]
      exact hC f2 (by omega)
    -- chain on the left part
    have hchl : List.Chain' (fun a b => gc_rb_tree_successor t a = b) l.ids := by
      cases hl : l with
      | leaf => simp [ITree.ids]
      | node li lc ll ld lr =>
        rw [← hl]
        exact (ihl i i 0 hokl hndl (fun f _ => hCl (by rw [hl]; simp) f)
          (by omega)).1
    -- the last element of a non-empty left part has successor i
    have hlastl : l.ids ≠ [] → gc_rb_tree_successor t (l.ids.getLastD 0) = i := by
      intro hlne
      have hlnl : l ≠ ITree.leaf := by
        intro habs
        rw [habs] at hlne
        exact hlne rfl
      have := (ihl i i 0 hokl hndl (fun f _ => hCl hlnl f) (by omega)).2 hlne
      rw [this, if_pos hine]
    -- successor of i when the right subtree is non-empty
    have hsuccr : r ≠ ITree.leaf → gc_rb_tree_successor t i = r.ids.headI := by
      intro hrnl
      rw [gc_rb_tree_successor, hright, if_pos (rootId_ne_nil hokr hrnl)]
      exact minimum_go_spec t r i t.next hokr hrnl (by omega)
    -- chain on i :: the right part, and the right part last element
    have hchr : List.Chain' (fun a b => gc_rb_tree_successor t a = b) r.ids := by
      cases hr : r with
      | leaf => simp [ITree.ids]
      | node ri rc rl rd rr =>
        rw [← hr]
        exact (ihr i C (n0 + 1) hokr hndr hCr (by omega)).1
    constructor
    · rw [List.chain'_append]
      refine ⟨hchl, ?_, ?_⟩
      · rw [List.chain'_cons']
        refine ⟨?_, hchr⟩
        intro b hb
        cases hr : r with
        | leaf => rw [hr] at hb; simp [ITree.ids] at hb
        | node ri rc rl rd rr =>
          rw [hsuccr (by rw [hr]; simp)]
          rw [hr] at hb ⊢
          cases hri : (ITree.node ri rc rl rd rr).ids with
          | nil => simp [ids_node] at hri
          | cons hd tl =>
            rw [hri] at hb
            simp only [List.head?_cons, Option.mem_def, Option.some.injEq] at hb
            exact hb
      · intro x hx b hb
        simp only [List.head?_cons, Option.mem_def, Option.some.injEq] at hb
        subst hb
        have hlne : l.ids ≠ [] := by
          intro habs
          rw [habs] at hx
          simp at hx
        have hxval : x = l.ids.getLastD 0 := by
          rw [List.getLastD_eq_getLast?]
          rw [Option.mem_def] at hx
          rw [hx]
          rfl
        rw [hxval]
        exact hlastl hlne
    · intro _
      rw [getLastD_append_cons]
      cases hr : r with
      | leaf =>
        show gc_rb_tree_successor t i = _
        rw [gc_rb_tree_successor, hright, hr]
        simp only [ITree.rootId, ne_eq, not_true_eq_false, if_false]
        rw [hpar]
        have hCi : gc_rb_tree_succ_climb t t.next i pid = C := hC t.next (by omega)
        rw [hCi]
      | node ri rc rl rd rr =>
        rw [List.getLastD_cons, getLastD_of_ne (by simp [ids_node]) i 0, ← hr]
        refine (ihr i C (n0 + 1) hokr hndr hCr (by omega)).2 ?_
        rw [hr]
        simp [ids_node]


/-- Under TreeWf the number of in-order nodes is at most next - 2 (ids
are distinct, nonzero, distinct from the sentinel, and below next). -/
lemma TreeWf.ids_len {t : RBTree} {ft : ITree} (h : TreeWf t ft) :
    ft.ids.length + 2 ≤ t.next := by
  have hsub : ft.ids.toFinset ⊆ ((Finset.range t.next).erase 0).erase t.nil := by
    intro i hi
    rw [List.mem_toFinset] at hi
    have h1 := okAt_ids_ne h.ok i hi
    have h2 := h.bound i hi
    rw [Finset.mem_erase, Finset.mem_erase, Finset.mem_range]
    exact ⟨h1.1, h1.2, h2⟩
  have hcard := Finset.card_le_card hsub
  rw [List.toFinset_card_of_nodup h.nodup] at hcard
  have h0mem : (0 : Nat) ∈ Finset.range t.next := by
    rw [Finset.mem_range]
    have := h.nil_lt
    omega
  have hnilmem : t.nil ∈ (Finset.range t.next).erase 0 := by
    rw [Finset.mem_erase, Finset.mem_range]
    exact ⟨h.nil_ne, h.nil_lt⟩
  rw [Finset.card_erase_of_mem hnilmem, Finset.card_erase_of_mem h0mem,
    Finset.card_range] at hcard
  have hnil0 : t.nil ≠ 0 := h.nil_ne
  have hnillt : t.nil < t.next := h.nil_lt
  omega

/-- On a well-formed tree, in-order ids are chained by successor and the
last id has no successor (NULL). -/
lemma treeWf_chain {t : RBTree} {ft : ITree} (h : TreeWf t ft) :
    List.Chain' (fun a b => gc_rb_tree_successor t a = b) ft.ids ∧
    (ft.ids ≠ [] → gc_rb_tree_successor t (ft.ids.getLastD 0) = 0) := by
  have hC : ∀ f, 0 ≤ f → gc_rb_tree_succ_climb t f (ft.rootId t.nil) t.nil = t.nil :=
    fun f _ => succ_climb_exit (by simp) f
  have hlen := h.ids_len
  have hmain := succ_chain t ft t.nil t.nil 0 h.ok h.nodup hC (by omega)
  refine ⟨hmain.1, fun hne => ?_⟩
  rw [hmain.2 hne]
  simp

lemma inorderSuccWalk_zero (t : RBTree) (f : Nat) : inorderSuccWalk t f 0 = [] := by
  cases f with
  | zero => rfl
  | succ f2 => rw [inorderSuccWalk, if_pos rfl]

/-- Generic walk lemma: a successor-chained id list with a terminating
last element is exactly what the min/successor walk visits. -/
lemma walk_of_chain (t : RBTree) :
    ∀ (L : List Nat) (fuel : Nat),
      List.Chain' (fun a b => gc_rb_tree_successor t a = b) L →
      (L ≠ [] → gc_rb_tree_successor t (L.getLastD 0) = 0) →
      (∀ i ∈ L, i ≠ 0) →
      L.length ≤ fuel →
      inorderSuccWalk t fuel L.headI = L.map (fun i => (t.heap i).data) := by
  intro L
  induction L with
  | nil => intro fuel _ _ _ _; exact inorderSuccWalk_zero t fuel
  | cons a L2 ih =>
    intro fuel hch hlast hne hfuel
    obtain ⟨f, rfl⟩ : ∃ f, fuel = f + 1 := by
      cases fuel with
      | zero => simp at hfuel
      | succ f2 => exact ⟨f2, rfl⟩
    have ha0 : a ≠ 0 := hne a (by simp)
    show inorderSuccWalk t (f + 1) a = _
    rw [inorderSuccWalk, if_neg ha0]
    cases L2 with
    | nil =>
      have hs : gc_rb_tree_successor t a = 0 := by
        have := hlast (by simp)
        simpa using this
      rw [hs, inorderSuccWalk_zero]
      rfl
    | cons b L3 =>
      have hab : gc_rb_tree_successor t a = b := (List.chain'_cons.1 hch).1
      rw [hab]
      have htail : gc_rb_tree_successor t ((b :: L3).getLastD 0) = 0 := by
        have := hlast (by simp)
        rwa [List.getLastD_cons, getLastD_of_ne (by simp) a 0] at this
      have := ih f (List.chain'_cons.1 hch).2 (fun _ => htail)
        (fun i hi => hne i (List.mem_cons_of_mem a hi))
        (by simp only [List.length_cons] at hfuel ⊢; omega)
      rw [List.headI] at this
      rw [this]
      rfl

/-- On a well-formed tree the min/successor walk lists exactly the
in-order payload sequence. -/
lemma treeWf_inorder_walk {t : RBTree} {ft : ITree} (h : TreeWf t ft) :
    inorderSuccWalk t t.next (gc_rb_tree_min t) = ft.dataList := by
  cases hft : ft with
  | leaf =>
    have hmin : gc_rb_tree_min t = 0 := by
      rw [gc_rb_tree_min, if_pos]
      rw [h.root_eq, hft]
      rfl
    rw [hmin, inorderSuccWalk_zero]
    rfl
  | node i c l d r =>
    rw [← hft]
    have hne : ft ≠ ITree.leaf := by rw [hft]; simp
    have hlen := h.ids_len
    have hidne : ft.ids ≠ [] := by rw [hft]; simp [ids_node]
    have hmin : gc_rb_tree_min t = ft.ids.headI := by
      rw [gc_rb_tree_min, if_neg, h.root_eq]
      · exact minimum_go_spec t ft t.nil t.next h.ok hne (by omega)
      · rw [h.root_eq]
        exact rootId_ne_nil h.ok hne
    rw [hmin]
    have hch := treeWf_chain h
    rw [walk_of_chain t ft.ids t.next hch.1 hch.2
      (fun i hi => (okAt_ids_ne h.ok i hi).2) (by omega)]
    exact (dataList_eq_map h.ok).symm

/-- Plugging a leaf into the context accumulated by descend reassembles
the tree being descended. -/
lemma descend_plug (cmp : Nat → Nat → Int) (d : Nat) :
    ∀ (ft : ITree) (path : List Frame),
      plug ITree.leaf (descend cmp d ft path) = plug ft path := by
  intro ft
  induction ft with
  | leaf => intro path; rfl
  | node i c l dd r ihl ihr =>
    intro path
    simp only [descend]
    by_cases hc : cmp d dd < 0
    · rw [if_pos hc, ihl]
      rfl
    · rw [if_neg hc, ihr]
      rfl

/-- descend only prepends frames to the initial context. -/
lemma descend_append (cmp : Nat → Nat → Int) (d : Nat) :
    ∀ (ft : ITree) (path : List Frame),
      ∃ pre, descend cmp d ft path = pre ++ path := by
  intro ft
  induction ft with
  | leaf => intro path; exact ⟨[], rfl⟩
  | node i c l dd r ihl ihr =>
    intro path
    simp only [descend]
    by_cases hc : cmp d dd < 0
    · rw [if_pos hc]
      obtain ⟨pre, hp⟩ := ihl (Frame.lf i c dd r :: path)
      exact ⟨pre ++ [Frame.lf i c dd r], by rw [hp]; simp⟩
    · rw [if_neg hc]
      obtain ⟨pre, hp⟩ := ihr (Frame.rf i c dd l :: path)
      exact ⟨pre ++ [Frame.rf i c dd l], by rw [hp]; simp⟩

/-- The outermost frame produced by a full descent carries the color of
the root of the descended tree. -/
lemma descend_last_color (cmp : Nat → Nat → Int) (d : Nat)
    (i : Nat) (c : Color) (l : ITree) (dd : Nat) (r : ITree) :
    ∀ f ∈ (descend cmp d (ITree.node i c l dd r) []).getLast?,
      Frame.color f = c := by
  intro f hf
  simp only [descend] at hf
  by_cases hc : cmp d dd < 0
  · rw [if_pos hc] at hf
    obtain ⟨pre, hp⟩ := descend_append cmp d l [Frame.lf i c dd r]
    rw [hp, List.getLast?_concat] at hf
    simp only [Option.mem_def, Option.some.injEq] at hf
    rw [← hf]
    rfl
  · rw [if_neg hc] at hf
    obtain ⟨pre, hp⟩ := descend_append cmp d r [Frame.rf i c dd l]
    rw [hp, List.getLast?_concat] at hf
    simp only [Option.mem_def, Option.some.injEq] at hf
    rw [← hf]
    rfl

/-- Shape of a descent result: either the tree was empty, or the
innermost frame records the branch decision at the link point. -/
lemma descend_cases (cmp : Nat → Nat → Int) (d : Nat) :
    ∀ (ft : ITree) (path : List Frame),
      (ft = ITree.leaf ∧ descend cmp d ft path = path) ∨
      (∃ i c dd r rest, descend cmp d ft path = Frame.lf i c dd r :: rest ∧
        cmp d dd < 0 ∧ i ∈ ft.ids) ∨
      (∃ i c dd l rest, descend cmp d ft path = Frame.rf i c dd l :: rest ∧
        ¬(cmp d dd < 0) ∧ i ∈ ft.ids) := by
  intro ft
  induction ft with
  | leaf => intro path; exact Or.inl ⟨rfl, rfl⟩
  | node i c l dd r ihl ihr =>
    intro path
    by_cases hc : cmp d dd < 0
    · rcases ihl (Frame.lf i c dd r :: path) with ⟨hlf, heq⟩ | h | h
      · refine Or.inr (Or.inl ⟨i, c, dd, r, path, ?_, hc, by simp [ids_node]⟩)
        simp only [descend]
        rw [if_pos hc, heq]
      · obtain ⟨i2, c2, dd2, r2, rest, heq, hcc, hmem⟩ := h
        refine Or.inr (Or.inl ⟨i2, c2, dd2, r2, rest, ?_, hcc, ?_⟩)
        · simp only [descend]
          rw [if_pos hc, heq]
        · simp only [ids_node, List.mem_append, List.mem_cons]
          exact Or.inl hmem
      · obtain ⟨i2, c2, dd2, l2, rest, heq, hcc, hmem⟩ := h
        refine Or.inr (Or.inr ⟨i2, c2, dd2, l2, rest, ?_, hcc, ?_⟩)
        · simp only [descend]
          rw [if_pos hc, heq]
        · simp only [ids_node, List.mem_append, List.mem_cons]
          exact Or.inl hmem
    · rcases ihr (Frame.rf i c dd l :: path) with ⟨hlf, heq⟩ | h | h
      · refine Or.inr (Or.inr ⟨i, c, dd, l, path, ?_, hc, by simp [ids_node]⟩)
        simp only [descend]
        rw [if_neg hc, heq]
      · obtain ⟨i2, c2, dd2, r2, rest, heq, hcc, hmem⟩ := h
        refine Or.inr (Or.inl ⟨i2, c2, dd2, r2, rest, ?_, hcc, ?_⟩)
        · simp only [descend]
          rw [if_neg hc, heq]
        · simp only [ids_node, List.mem_append, List.mem_cons]
          exact Or.inr (Or.inr hmem)
      · obtain ⟨i2, c2, dd2, l2, rest, heq, hcc, hmem⟩ := h
        refine Or.inr (Or.inr ⟨i2, c2, dd2, l2, rest, ?_, hcc, ?_⟩)
        · simp only [descend]
          rw [if_neg hc, heq]
        · simp only [ids_node, List.mem_append, List.mem_cons]
          exact Or.inr (Or.inr hmem)

/-- The C descent loop lands on exactly the parent of the functional
descent's insertion point. -/
lemma descend_go_spec (t : RBTree) (d : Nat) :
    ∀ (ft : ITree) (path : List Frame) (fuel : Nat),
      okAt t.heap t.nil (parentOfPath t.nil path) ft = true →
      ft.ids.length < fuel →
      gc_rb_tree_insert_descend t d fuel (ft.rootId t.nil) (parentOfPath t.nil path) =
        parentOfPath t.nil (descend t.cmp d ft path) := by
  intro ft
  induction ft with
  | leaf =>
    intro path fuel _ hfuel
    cases fuel with
    | zero => omega
    | succ m =>
      simp only [gc_rb_tree_insert_descend, descend, ITree.rootId]
      rw [if_neg (by simp)]
  | node i c l dd r ihl ihr =>
    intro path fuel hok hfuel
    rw [okAt_node] at hok
    obtain ⟨hinil, hi0, hic, hid, hil, hir, hip, hokl, hokr⟩ := hok
    cases fuel with
    | zero => omega
    | succ m =>
      have hlen2 : l.ids.length < m ∧ r.ids.length < m := by
        rw [ids_node] at hfuel
        rw [List.length_append, List.length_cons] at hfuel
        omega
      simp only [gc_rb_tree_insert_descend, descend, ITree.rootId]
      rw [hid, if_pos hinil]
      by_cases hc : t.cmp d dd < 0
      · rw [if_pos hc, if_pos hc]
        rw [hil]
        exact ihl (Frame.lf i c dd r :: path) m hokl hlen2.1
      · rw [if_neg hc, if_neg hc]
        rw [hir]
        exact ihr (Frame.rf i c dd l :: path) m hokr hlen2.2

/-- Each context frame contributes at least one id. -/
lemma pathIds_len : ∀ p : List Frame, p.length ≤ (pathIdsL p ++ pathIdsR p).length := by
  intro p
  induction p with
  | nil => simp
  | cons f p ih =>
    cases f with
    | lf i c d r =>
      simp only [pathIdsL, pathIdsR, List.length_append, List.length_cons] at *
      omega
    | rf i c d l =>
      simp only [pathIdsL, pathIdsR, List.length_append, List.length_cons] at *
      omega

/-- Allocating a fresh node (bumping next and writing an unused heap
cell) preserves well-formedness. -/
lemma treeWf_alloc (t : RBTree) (ft : ITree) (r0 : RBNode) (hwf : TreeWf t ft) :
    TreeWf { t with heap := hupd t.heap t.next r0, next := t.next + 1 } ft := by
  have hag : ∀ i ∈ ft.ids, hupd t.heap t.next r0 i = t.heap i := by
    intro i hi
    exact hupd_ne t.heap r0 (by have := hwf.bound i hi; omega)
  have hniln : t.nil ≠ t.next := by
    have := hwf.nil_lt
    omega
  refine ⟨?_, hwf.root_eq, hwf.nodup, ?_, hwf.nil_ne, ?_, ?_, ?_, ?_⟩
  · show okAt (hupd t.heap t.next r0) t.nil t.nil ft = true
    rw [okAt_congr ft hag]
    exact hwf.ok
  · intro i hi
    have := hwf.bound i hi
    show i < t.next + 1
    omega
  · show t.nil < t.next + 1
    have := hwf.nil_lt
    omega
  · show (hupd t.heap t.next r0 t.nil).color = Color.black
    rw [hupd_ne t.heap r0 hniln]
    exact hwf.nil_black
  · show (hupd t.heap t.next r0 t.nil).left = t.nil
    rw [hupd_ne t.heap r0 hniln]
    exact hwf.nil_left
  · show (hupd t.heap t.next r0 t.nil).right = t.nil
    rw [hupd_ne t.heap r0 hniln]
    exact hwf.nil_right

set_option maxHeartbeats 2000000 in
/-- gc_rb_tree_insert_fixup: the loop result followed by blackening the
root keeps the tree well formed with the same payload sequence, and
leaves a black root. -/
lemma insert_fixup_spec (t : RBTree) (path : List Frame) (k fd : Nat) (fl fr : ITree)
    (hwf : TreeWf t (plug (ITree.node k Color.red fl fd fr) path))
    (hlast : ∀ f ∈ path.getLast?, Frame.color f = Color.black)
    (hlen : path.length + 1 ≤ t.next) :
    ∃ ft2 : ITree,
      TreeWf (gc_rb_tree_insert_fixup t k) ft2 ∧
      ft2.dataList = (plug (ITree.node k Color.red fl fd fr) path).dataList ∧
      (gc_rb_tree_insert_fixup t k).next = t.next ∧
      (gc_rb_tree_insert_fixup t k).nil = t.nil ∧
      (gc_rb_tree_insert_fixup t k).cmp = t.cmp ∧
      (∀ i c l dd r, ft2 = ITree.node i c l dd r → c = Color.black) := by
  obtain ⟨ft2, hwf2, hdata, hnx, hnl, hcm⟩ :=
    insert_fixup_go_spec t.next t path k fd fl fr hwf hlast hlen
  cases hft2 : ft2 with
  | leaf =>
    exfalso
    rw [hft2] at hdata
    have hfd : fd ∈ (ITree.leaf : ITree).dataList := by
      rw [hdata, plug_dataList]
      simp [dataList_node]
    simp [ITree.dataList] at hfd
  | node rid rc rl rd rr =>
    rw [hft2] at hwf2 hdata
    have hok2 := hwf2.ok
    rw [okAt_node] at hok2
    obtain ⟨hrnil, hr0, hrc, hrd, hrl, hrr, hrp, hokrl, hokrr⟩ := hok2
    have hroot : (gc_rb_tree_insert_fixup_go t.next t k).root = rid := hwf2.root_eq
    have hwf3 := treeWf_writeColor _ _ rid Color.black hwf2 hrnil
    have hnd := hwf2.nodup
    rw [ids_node] at hnd
    have hout := nodup_out hnd
    have e : (ITree.node rid rc rl rd rr).recolor rid Color.black =
        ITree.node rid Color.black rl rd rr := by
      simp [ITree.recolor, recolor_notin rl hout.1, recolor_notin rr hout.2]
    rw [e] at hwf3
    have hfix : gc_rb_tree_insert_fixup t k =
        writeColor (gc_rb_tree_insert_fixup_go t.next t k) rid Color.black := by
      simp only [gc_rb_tree_insert_fixup]
      rw [hroot]
    refine ⟨ITree.node rid Color.black rl rd rr, ?_, ?_, ?_, ?_, ?_, ?_⟩
    · rw [hfix]
      exact hwf3
    · rw [show (ITree.node rid Color.black rl rd rr).dataList =
        (ITree.node rid rc rl rd rr).dataList from by simp [dataList_node]]
      exact hdata
    · rw [hfix]
      exact hnx
    · rw [hfix]
      exact hnl
    · rw [hfix]
      exact hcm
    · intro i c l dd r heq
      injection heq with h1 h2 h3 h4 h5
      exact h2.symm

set_option maxHeartbeats 1000000 in
/-- On a stored subtree with enough fuel, gc_rb_tree_validate_rec either
succeeds (non-negative height, error word untouched) or fails with a
nonzero error word: fuel exhaustion cannot be reached. -/
lemma validate_rec_ok_or_err (t : RBTree) :
    ∀ (ft : ITree) (pid : Nat) (fuel : Nat) (err : Int),
      okAt t.heap t.nil pid ft = true →
      ft.ids.length < fuel →
      (0 ≤ (gc_rb_tree_validate_rec t fuel (ft.rootId t.nil) err).1 ∧
        (gc_rb_tree_validate_rec t fuel (ft.rootId t.nil) err).2 = err) ∨
      ((gc_rb_tree_validate_rec t fuel (ft.rootId t.nil) err).1 < 0 ∧
        (gc_rb_tree_validate_rec t fuel (ft.rootId t.nil) err).2 ≠ 0) := by
  intro ft
  induction ft with
  | leaf =>
    intro pid fuel err _ hfuel
    cases fuel with
    | zero => omega
    | succ m =>
      simp only [gc_rb_tree_validate_rec, ITree.rootId]
      rw [if_pos trivial]
      exact Or.inl ⟨by norm_num, rfl⟩
  | node i c l d r ihl ihr =>
    intro pid fuel err hok hfuel
    rw [okAt_node] at hok
    obtain ⟨hinil, hi0, hic, hid, hil, hir, hip, hokl, hokr⟩ := hok
    cases fuel with
    | zero => omega
    | succ m =>
      have hlen2 : l.ids.length < m ∧ r.ids.length < m := by
        rw [ids_node, List.length_append, List.length_cons] at hfuel
        omega
      simp only [gc_rb_tree_validate_rec, ITree.rootId]
      rw [if_neg hinil]
      by_cases h1 : (t.heap i).color = Color.red ∧
          ((t.heap (t.heap i).left).color = Color.red ∨
            (t.heap (t.heap i).right).color = Color.red)
      · rw [if_pos h1]
        exact Or.inr ⟨by norm_num, by norm_num⟩
      · rw [if_neg h1]
        by_cases h2 : (t.heap i).left ≠ t.nil ∧
            t.cmp ((t.heap (t.heap i).left).data) ((t.heap i).data) ≥ 0
        · rw [if_pos h2]
          exact Or.inr ⟨by norm_num, by norm_num⟩
        · rw [if_neg h2]
          by_cases h3 : (t.heap i).right ≠ t.nil ∧
              t.cmp ((t.heap (t.heap i).right).data) ((t.heap i).data) ≤ 0
          · rw [if_pos h3]
            exact Or.inr ⟨by norm_num, by norm_num⟩
          · rw [if_neg h3]
            rw [hil, hir]
            rcases ihl i m err hokl hlen2.1 with ⟨hpos, herr⟩ | ⟨hneg, herr⟩
            · rw [if_neg (not_lt.2 hpos)]
              rcases ihr i m ((gc_rb_tree_validate_rec t m (l.rootId t.nil) err).2)
                  hokr hlen2.2 with ⟨hpos2, herr2⟩ | ⟨hneg2, herr2⟩
              · rw [if_neg (not_lt.2 hpos2)]
                by_cases h4 : (gc_rb_tree_validate_rec t m (l.rootId t.nil) err).1 ≠
                    (gc_rb_tree_validate_rec t m (r.rootId t.nil)
                      ((gc_rb_tree_validate_rec t m (l.rootId t.nil) err).2)).1
                · rw [if_pos h4]
                  exact Or.inr ⟨by norm_num, by norm_num⟩
                · rw [if_neg h4]
                  refine Or.inl ⟨?_, herr2.trans herr⟩
                  have : (0 : Int) ≤ if (t.heap i).color = Color.black then 1 else 0 := by
                    split <;> norm_num
                  simp only []
                  omega
              · rw [if_pos hneg2]
                exact Or.inr ⟨by norm_num, herr2⟩
            · rw [if_pos hneg]
              exact Or.inr ⟨by norm_num, herr⟩

set_option maxHeartbeats 1000000 in
/-- A stored subtree containing an immediate parent/child order violation
makes gc_rb_tree_validate_rec fail with a nonzero error word, whatever the
incoming error word. -/
lemma validate_rec_viol (t : RBTree) :
    ∀ (ft : ITree) (pid : Nat) (fuel : Nat) (err : Int),
      okAt t.heap t.nil pid ft = true →
      ft.ids.length < fuel →
      hasViol t.cmp ft = true →
      (gc_rb_tree_validate_rec t fuel (ft.rootId t.nil) err).1 < 0 ∧
      (gc_rb_tree_validate_rec t fuel (ft.rootId t.nil) err).2 ≠ 0 := by
  intro ft
  induction ft with
  | leaf =>
    intro pid fuel err _ _ hviol
    simp [hasViol] at hviol
  | node i c l d r ihl ihr =>
    intro pid fuel err hok hfuel hviol
    rw [okAt_node] at hok
    obtain ⟨hinil, hi0, hic, hid, hil, hir, hip, hokl, hokr⟩ := hok
    cases fuel with
    | zero => omega
    | succ m =>
      have hlen2 : l.ids.length < m ∧ r.ids.length < m := by
        rw [ids_node, List.length_append, List.length_cons] at hfuel
        omega
      simp only [gc_rb_tree_validate_rec, ITree.rootId]
      rw [if_neg hinil]
      by_cases h1 : (t.heap i).color = Color.red ∧
          ((t.heap (t.heap i).left).color = Color.red ∨
            (t.heap (t.heap i).right).color = Color.red)
      · rw [if_pos h1]
        exact ⟨by norm_num, by norm_num⟩
      · rw [if_neg h1]
        by_cases h2 : (t.heap i).left ≠ t.nil ∧
            t.cmp ((t.heap (t.heap i).left).data) ((t.heap i).data) ≥ 0
        · rw [if_pos h2]
          exact ⟨by norm_num, by norm_num⟩
        · rw [if_neg h2]
          by_cases h3 : (t.heap i).right ≠ t.nil ∧
              t.cmp ((t.heap (t.heap i).right).data) ((t.heap i).data) ≤ 0
          · rw [if_pos h3]
            exact ⟨by norm_num, by norm_num⟩
          · rw [if_neg h3]
            rw [hil, hir]
            simp only [hasViol, Bool.or_eq_true] at hviol
            rcases hviol with ((hA | hB) | hVl) | hVr
            · exfalso
              cases hL : l with
              | leaf =>
                rw [hL] at hA
                simp at hA
              | node li lc ll dl lr =>
                rw [hL] at hA
                simp only [decide_eq_true_eq] at hA
                rw [hL] at hokl
                rw [okAt_node] at hokl
                obtain ⟨hlinil, _, _, hld, _, _, _, _, _⟩ := hokl
                refine h2 ⟨?_, ?_⟩
                · rw [hil, hL]
                  simp only [ITree.rootId]
                  exact hlinil
                · rw [hil, hL]
                  simp only [ITree.rootId]
                  rw [hld, hid]
                  exact hA
            · exfalso
              cases hR : r with
              | leaf =>
                rw [hR] at hB
                simp at hB
              | node ri rc rl dr rr =>
                rw [hR] at hB
                simp only [decide_eq_true_eq] at hB
                rw [hR] at hokr
                rw [okAt_node] at hokr
                obtain ⟨hrinil, _, _, hrd, _, _, _, _, _⟩ := hokr
                refine h3 ⟨?_, ?_⟩
                · rw [hir, hR]
                  simp only [ITree.rootId]
                  exact hrinil
                · rw [hir, hR]
                  simp only [ITree.rootId]
                  rw [hrd, hid]
                  exact hB
            · have hres := ihl i m err hokl hlen2.1 hVl
              rw [if_pos hres.1]
              exact ⟨by norm_num, hres.2⟩
            · rcases validate_rec_ok_or_err t l i m err hokl hlen2.1 with
                ⟨hpos, herr⟩ | ⟨hneg, herr⟩
              · rw [if_neg (not_lt.2 hpos)]
                have hres := ihr i m ((gc_rb_tree_validate_rec t m (l.rootId t.nil) err).2)
                  hokr hlen2.2 hVr
                rw [if_pos hres.1]
                exact ⟨by norm_num, hres.2⟩
              · rw [if_pos hneg]
                exact ⟨by norm_num, herr⟩

/-- The lower_bound descent returns its initial candidate or some node of
the stored subtree. -/
lemma lower_bound_go_mem (t : RBTree) (key incl : Nat) :
    ∀ (ft : ITree) (fuel : Nat) (res pid : Nat),
      okAt t.heap t.nil pid ft = true →
      gc_rb_tree_lower_bound_go t key incl fuel (ft.rootId t.nil) res = res ∨
        gc_rb_tree_lower_bound_go t key incl fuel (ft.rootId t.nil) res ∈ ft.ids := by
  intro ft
  induction ft with
  | leaf =>
    intro fuel res pid _
    cases fuel with
    | zero => exact Or.inl rfl
    | succ m =>
      simp only [gc_rb_tree_lower_bound_go, ITree.rootId]
      rw [if_neg (by simp)]
      exact Or.inl rfl
  | node i c l d r ihl ihr =>
    intro fuel res pid hok
    rw [okAt_node] at hok
    obtain ⟨hinil, hi0, hic, hid, hil, hir, hip, hokl, hokr⟩ := hok
    cases fuel with
    | zero => exact Or.inl rfl
    | succ m =>
      simp only [gc_rb_tree_lower_bound_go, ITree.rootId]
      rw [if_pos hinil]
      by_cases hc : t.cmp ((t.heap i).data) key > 0 ∨
          (incl ≠ 0 ∧ t.cmp ((t.heap i).data) key = 0)
      · rw [if_pos hc, hil]
        rcases ihl m i i hokl with h | h
        · refine Or.inr ?_
          rw [h]
          simp [ids_node]
        · refine Or.inr ?_
          simp only [ids_node, List.mem_append, List.mem_cons]
          exact Or.inl h
      · rw [if_neg hc, hir]
        rcases ihr m res i hokr with h | h
        · exact Or.inl h
        · refine Or.inr ?_
          simp only [ids_node, List.mem_append, List.mem_cons]
          exact Or.inr (Or.inr h)

/-- Every stored node id carries a payload that appears in the in-order
payload list. -/
lemma mem_ids_data {h : Nat → RBNode} {nilId : Nat} :
    ∀ (ft : ITree) (pid : Nat), okAt h nilId pid ft = true →
      ∀ i ∈ ft.ids, (h i).data ∈ ft.dataList := by
  intro ft
  induction ft with
  | leaf =>
    intro pid _ i hi
    simp [ITree.ids] at hi
  | node j c l d r ihl ihr =>
    intro pid hok i hi
    rw [okAt_node] at hok
    obtain ⟨hjnil, hj0, hjc, hjd, hjl, hjr, hjp, hokl, hokr⟩ := hok
    rw [ids_node, List.mem_append, List.mem_cons] at hi
    rw [dataList_node, List.mem_append, List.mem_cons]
    rcases hi with hi | hi | hi
    · exact Or.inl (ihl j hokl i hi)
    · rw [hi, hjd]
      exact Or.inr (Or.inl rfl)
    · exact Or.inr (Or.inr (ihr j hokr i hi))

set_option maxHeartbeats 1000000 in
/-- For any well-formed tree whose payloads all compare strictly above
the NULL pointer, the forward both-inclusive range iterator with both
bounds NULL starts out invalid: the high-bound recheck in range_begin
applies the comparator to the NULL bound and rejects the start node. -/
lemma range_begin_null_bounds_dead (t : RBTree) (ft : ITree)
    (hwf : TreeWf t ft)
    (hord : ∀ d0 ∈ ft.dataList, t.cmp d0 0 > 0) :
    (gc_rb_tree_iterator_range_begin t 0 0
      (Nat.lor GC_RB_RANGE_INCLUSIVE_LOW GC_RB_RANGE_INCLUSIVE_HIGH)).current = 0 := by
  simp only [gc_rb_tree_iterator_range_begin]
  by_cases hroot : t.root = t.nil
  · rw [if_pos hroot]
  · rw [if_neg hroot]
    simp only []
    by_cases hc0 : gc_rb_tree_lower_bound t 0
        (Nat.land (Nat.lor GC_RB_RANGE_INCLUSIVE_LOW GC_RB_RANGE_INCLUSIVE_HIGH)
          GC_RB_RANGE_INCLUSIVE_LOW) = 0
    · rw [if_neg (fun hne => hne hc0)]
      exact hc0
    · rw [if_pos hc0]
      -- the start candidate is a real node, so its payload defeats the
      -- NULL high bound
      have hmem : gc_rb_tree_lower_bound t 0
          (Nat.land (Nat.lor GC_RB_RANGE_INCLUSIVE_LOW GC_RB_RANGE_INCLUSIVE_HIGH)
            GC_RB_RANGE_INCLUSIVE_LOW) ∈ ft.ids := by
        simp only [gc_rb_tree_lower_bound] at hc0 ⊢
        by_cases hres : gc_rb_tree_lower_bound_go t 0
            (Nat.land (Nat.lor GC_RB_RANGE_INCLUSIVE_LOW GC_RB_RANGE_INCLUSIVE_HIGH)
              GC_RB_RANGE_INCLUSIVE_LOW) t.next t.root t.nil = t.nil
        · rw [if_neg (fun hne => hne hres)] at hc0
          exact absurd rfl hc0
        · rw [if_pos hres] at hc0 ⊢
          have hroot2 : t.root = ft.rootId t.nil := hwf.root_eq
          rw [hroot2] at hres ⊢
          rcases lower_bound_go_mem t 0 _ ft t.next t.nil t.nil hwf.ok with h | h
          · exact absurd h hres
          · exact h
      have hdata := mem_ids_data ft t.nil hwf.ok _ hmem
      rw [if_pos (Or.inl (hord _ hdata))]
  
lemma allocNode_cmp (t : RBTree) (d : Nat) : (allocNode t d).cmp = t.cmp := rfl

lemma allocNode_nil (t : RBTree) (d : Nat) : (allocNode t d).nil = t.nil := rfl

lemma allocNode_next (t : RBTree) (d : Nat) : (allocNode t d).next = t.next + 1 := rfl

lemma allocNode_heap_self (t : RBTree) (d : Nat) :
    (allocNode t d).heap t.next =
      { data := d, color := Color.red, left := t.nil, right := t.nil, parent := t.nil } :=
  hupd_self t.heap t.next _

lemma allocNode_heap_ne (t : RBTree) (d : Nat) {j : Nat} (hj : j ≠ t.next) :
    (allocNode t d).heap j = t.heap j :=
  hupd_ne t.heap _ hj

/-- gc_rb_tree_insert unfolded: allocate, name the descent result y, link
under y, fix up.  The reads in the link conditions are kept exactly as
the code performs them. -/
lemma insert_char (t : RBTree) (d y : Nat)
    (hy : gc_rb_tree_insert_descend (allocNode t d) d (t.next + 1) t.root t.nil = y) :
    gc_rb_tree_insert t d =
      gc_rb_tree_insert_fixup
        (if y = (writeParent (allocNode t d) t.next y).nil then
          { writeParent (allocNode t d) t.next y with root := t.next }
        else if (writeParent (allocNode t d) t.next y).cmp
            ((writeParent (allocNode t d) t.next y).heap t.next).data
            ((writeParent (allocNode t d) t.next y).heap y).data < 0 then
          writeLeft (writeParent (allocNode t d) t.next y) y t.next
        else writeRight (writeParent (allocNode t d) t.next y) y t.next)
        t.next := by
  rw [← hy]
  simp only [gc_rb_tree_insert, allocNode]
  rw [hupd_self]

set_option maxHeartbeats 2000000 in
/-- gc_rb_tree_insert on a well-formed tree whose root (if any) is black:
the result stores a functional tree whose payload sequence is the old
in-order sequence with d spliced in at the position found by the
functional descent; the bump counter grows by one, nil and cmp are
unchanged, and the new root is black. -/
lemma gc_rb_tree_insert_spec (t : RBTree) (ft : ITree) (d : Nat)
    (hwf : TreeWf t ft)
    (hrb : ∀ i c l dd r, ft = ITree.node i c l dd r → c = Color.black) :
    ∃ ft2 : ITree,
      TreeWf (gc_rb_tree_insert t d) ft2 ∧
      ft2.dataList =
        pathDataL (descend t.cmp d ft []) ++ d :: pathDataR (descend t.cmp d ft []) ∧
      pathDataL (descend t.cmp d ft []) ++ pathDataR (descend t.cmp d ft []) = ft.dataList ∧
      (gc_rb_tree_insert t d).next = t.next + 1 ∧
      (gc_rb_tree_insert t d).nil = t.nil ∧
      (gc_rb_tree_insert t d).cmp = t.cmp ∧
      (∀ i c l dd r, ft2 = ITree.node i c l dd r → c = Color.black) := by
  have hids := hwf.ids_len
  have hnilz : t.nil ≠ t.next := by have := hwf.nil_lt; omega
  have hz0 : t.next ≠ 0 := by have := hwf.nil_lt; omega
  have hwf1 : TreeWf (allocNode t d) ft := treeWf_alloc t ft _ hwf
  have hdesc : gc_rb_tree_insert_descend (allocNode t d) d (t.next + 1) t.root t.nil =
      parentOfPath t.nil (descend t.cmp d ft []) := by
    rw [hwf.root_eq]
    exact descend_go_spec (allocNode t d) d ft [] (t.next + 1) hwf1.ok (by omega)
  have hsplitdata : pathDataL (descend t.cmp d ft []) ++ pathDataR (descend t.cmp d ft []) =
      ft.dataList := by
    have h0 : (plug ITree.leaf (descend t.cmp d ft [])).dataList = ft.dataList := by
      rw [descend_plug]
      rfl
    rw [plug_dataList] at h0
    simpa [ITree.dataList] using h0
  have hfullids : pathIdsL (descend t.cmp d ft []) ++ pathIdsR (descend t.cmp d ft []) =
      ft.ids := by
    have h0 : (plug ITree.leaf (descend t.cmp d ft [])).ids = ft.ids := by
      rw [descend_plug]
      rfl
    rw [plug_ids] at h0
    simpa [ITree.ids] using h0
  have hlenpath : (descend t.cmp d ft []).length + 2 ≤ t.next := by
    have h1 := pathIds_len (descend t.cmp d ft [])
    rw [hfullids] at h1
    omega
  have hbnd : ∀ j ∈ ft.ids, j ≠ t.next := by
    intro j hj
    have := hwf.bound j hj
    omega
  have hnd3 : ∀ p : List Frame, pathIdsL p ++ pathIdsR p = ft.ids →
      (plug (ITree.node t.next Color.red ITree.leaf d ITree.leaf) p).ids.Nodup := by
    intro p hp
    rw [plug_ids]
    have h1 : pathIdsL p ++ (ITree.node t.next Color.red ITree.leaf d ITree.leaf).ids ++
        pathIdsR p = pathIdsL p ++ t.next :: pathIdsR p := by
      simp [ITree.ids]
    rw [h1, List.nodup_middle, List.nodup_cons, hp]
    exact ⟨fun hmem2 => hbnd t.next hmem2 rfl, hwf.nodup⟩
  have hbnd3 : ∀ p : List Frame, pathIdsL p ++ pathIdsR p = ft.ids →
      ∀ j ∈ (plug (ITree.node t.next Color.red ITree.leaf d ITree.leaf) p).ids,
        j < t.next + 1 := by
    intro p hp j hj
    rw [plug_ids] at hj
    rcases List.mem_append.1 hj with h | h
    · rcases List.mem_append.1 h with h2 | h2
      · have h3 : j ∈ ft.ids := by
          rw [← hp]
          exact List.mem_append_left _ h2
        have := hwf.bound j h3
        omega
      · simp [ITree.ids] at h2
        omega
    · have h3 : j ∈ ft.ids := by
        rw [← hp]
        exact List.mem_append_right _ h
      have := hwf.bound j h3
      omega
  rcases descend_cases t.cmp d ft [] with ⟨hleaf, hdp⟩ |
    ⟨i, c0, dd, r0, rest, hdp, hcmp0, hmem⟩ | ⟨i, c0, dd, l0, rest, hdp, hcmp0, hmem⟩
  · -- empty tree: the new node becomes the root
    subst hleaf
    have hy : gc_rb_tree_insert_descend (allocNode t d) d (t.next + 1) t.root t.nil = t.nil := by
      rw [hdesc, hdp]
      rfl
    have hchar := insert_char t d t.nil hy
    rw [if_pos (show t.nil = (writeParent (allocNode t d) t.next t.nil).nil from rfl)] at hchar
    have hT3z : ({ writeParent (allocNode t d) t.next t.nil with root := t.next } : RBTree).heap
        t.next =
        { data := d, color := Color.red, left := t.nil, right := t.nil, parent := t.nil } := by
      show (writeParent (allocNode t d) t.next t.nil).heap t.next = _
      rw [writeParent_heap, if_pos (show t.next = t.next from rfl), allocNode_heap_self]
    have hT3o : ∀ j, j ≠ t.next →
        ({ writeParent (allocNode t d) t.next t.nil with root := t.next } : RBTree).heap j =
          t.heap j := by
      intro j hj
      show (writeParent (allocNode t d) t.next t.nil).heap j = t.heap j
      rw [writeParent_heap, if_neg hj]
      exact allocNode_heap_ne t d hj
    have hwf3 : TreeWf { writeParent (allocNode t d) t.next t.nil with root := t.next }
        (plug (ITree.node t.next Color.red ITree.leaf d ITree.leaf) []) := by
      refine ⟨?_, rfl, by simp [ITree.ids], ?_, hwf.nil_ne, ?_, ?_, ?_, ?_⟩
      · refine okAt_node.2 ⟨Ne.symm hnilz, hz0, by rw [hT3z]; try rfl, by rw [hT3z]; try rfl,
          by rw [hT3z]; try rfl, by rw [hT3z]; try rfl, by rw [hT3z]; try rfl, rfl, rfl⟩
      · intro j hj
        simp [plug, ITree.ids] at hj
        show j < t.next + 1
        omega
      · show t.nil < t.next + 1
        have := hwf.nil_lt
        omega
      · show (({ writeParent (allocNode t d) t.next t.nil with root := t.next } : RBTree).heap
          t.nil).color = Color.black
        rw [hT3o t.nil hnilz]
        exact hwf.nil_black
      · show (({ writeParent (allocNode t d) t.next t.nil with root := t.next } : RBTree).heap
          t.nil).left = t.nil
        rw [hT3o t.nil hnilz]
        exact hwf.nil_left
      · show (({ writeParent (allocNode t d) t.next t.nil with root := t.next } : RBTree).heap
          t.nil).right = t.nil
        rw [hT3o t.nil hnilz]
        exact hwf.nil_right
    obtain ⟨ft2, hwf2, hdl2, hnx2, hnl2, hcm2, hblack2⟩ :=
      insert_fixup_spec { writeParent (allocNode t d) t.next t.nil with root := t.next } []
        t.next d ITree.leaf ITree.leaf hwf3 (by intro f hf; simp at hf)
        (by show 0 + 1 ≤ t.next + 1; omega)
    refine ⟨ft2, by rw [hchar]; exact hwf2, ?_, hsplitdata, ?_, ?_, ?_, hblack2⟩
    · rw [hdl2, hdp]
      simp [plug, ITree.dataList, pathDataL, pathDataR]
    · rw [hchar, hnx2]
      rfl
    · rw [hchar, hnl2]
      rfl
    · rw [hchar, hcm2]
      rfl
  · -- the descent ends as the left child of node i
    have hok2 : okAt (allocNode t d).heap t.nil t.nil
        (plug ITree.leaf (Frame.lf i c0 dd r0 :: rest)) = true := by
      rw [← hdp, descend_plug]
      exact hwf1.ok
    obtain ⟨-, hpath⟩ := (okAt_plug (Frame.lf i c0 dd r0 :: rest) ITree.leaf).1 hok2
    obtain ⟨hinil, hi0, hiC, hiD, hiL, hiR, hiP, hokR, hpathRest⟩ := pathOkAt_lf.1 hpath
    have hfull2 : pathIdsL (Frame.lf i c0 dd r0 :: rest) ++
        pathIdsR (Frame.lf i c0 dd r0 :: rest) = ft.ids := by
      rw [← hdp]
      exact hfullids
    have hids2 : ft.ids = pathIdsL rest ++ i :: (r0.ids ++ pathIdsR rest) := by
      rw [← hfull2]
      simp [pathIdsL, pathIdsR]
    have hnd := hwf.nodup
    rw [hids2] at hnd
    obtain ⟨hiL1, hiR1⟩ := nodup_out hnd
    have hiz : i ≠ t.next := hbnd i hmem
    have hy : gc_rb_tree_insert_descend (allocNode t d) d (t.next + 1) t.root t.nil = i := by
      rw [hdesc, hdp]
      rfl
    have hchar := insert_char t d i hy
    rw [if_neg (show ¬(i = (writeParent (allocNode t d) t.next i).nil) from hinil)] at hchar
    have hc1 : ((writeParent (allocNode t d) t.next i).heap t.next).data = d := by
      rw [writeParent_heap, if_pos (show t.next = t.next from rfl), allocNode_heap_self]
    have hc2 : ((writeParent (allocNode t d) t.next i).heap i).data = dd := by
      rw [writeParent_heap, if_neg hiz]
      exact hiD
    rw [hc1, hc2, writeParent_cmp, allocNode_cmp, if_pos hcmp0] at hchar
    have hT3z : (writeLeft (writeParent (allocNode t d) t.next i) i t.next).heap t.next =
        { data := d, color := Color.red, left := t.nil, right := t.nil, parent := i } := by
      rw [writeLeft_heap, if_neg (Ne.symm hiz), writeParent_heap,
        if_pos (show t.next = t.next from rfl), allocNode_heap_self]
    have hT3i : (writeLeft (writeParent (allocNode t d) t.next i) i t.next).heap i =
        { (allocNode t d).heap i with left := t.next } := by
      rw [writeLeft_heap, if_pos (show i = i from rfl), writeParent_heap, if_neg hiz]
    have hT3o : ∀ j, j ≠ i → j ≠ t.next →
        (writeLeft (writeParent (allocNode t d) t.next i) i t.next).heap j =
          (allocNode t d).heap j := by
      intro j h1 h2
      rw [writeLeft_heap, if_neg h1, writeParent_heap, if_neg h2]
    have hagR : ∀ j ∈ r0.ids,
        (writeLeft (writeParent (allocNode t d) t.next i) i t.next).heap j =
          (allocNode t d).heap j := by
      intro j hj
      have hjft : j ∈ ft.ids := by
        rw [hids2]
        simp [hj]
      exact hT3o j (fun he => hiR1 (List.mem_append_left _ (he ▸ hj))) (hbnd j hjft)
    have hagRest : ∀ j ∈ pathIdsL rest ++ pathIdsR rest,
        (writeLeft (writeParent (allocNode t d) t.next i) i t.next).heap j =
          (allocNode t d).heap j := by
      intro j hj
      have hjft : j ∈ ft.ids := by
        rw [hids2]
        rcases List.mem_append.1 hj with h | h
        · exact List.mem_append_left _ h
        · simp [h]
      refine hT3o j ?_ (hbnd j hjft)
      intro he
      subst he
      rcases List.mem_append.1 hj with h | h
      · exact hiL1 h
      · exact hiR1 (List.mem_append_right _ h)
    have hok3 : okAt (writeLeft (writeParent (allocNode t d) t.next i) i t.next).heap t.nil t.nil
        (plug (ITree.node t.next Color.red ITree.leaf d ITree.leaf)
          (Frame.lf i c0 dd r0 :: rest)) = true := by
      refine (okAt_plug _ _).2 ⟨?_, ?_⟩
      · refine okAt_node.2 ⟨Ne.symm hnilz, hz0, by rw [hT3z]; try rfl, by rw [hT3z]; try rfl,
          by rw [hT3z]; try rfl, by rw [hT3z]; try rfl, by rw [hT3z]; try rfl, rfl, rfl⟩
      · refine pathOkAt_lf.2 ⟨hinil, hi0, ?_, ?_, ?_, ?_, ?_, ?_, ?_⟩
        · rw [hT3i]
          exact hiC
        · rw [hT3i]
          exact hiD
        · rw [hT3i]
          rfl
        · rw [hT3i]
          exact hiR
        · rw [hT3i]
          exact hiP
        · exact okAt_frame r0 hokR hagR
        · rw [pathOkAt_congr rest (fun j hj => hagRest j hj) i]
          exact hpathRest
    have hroot3 : (writeLeft (writeParent (allocNode t d) t.next i) i t.next).root =
        (plug (ITree.node t.next Color.red ITree.leaf d ITree.leaf)
          (Frame.lf i c0 dd r0 :: rest)).rootId t.nil := by
      rw [plug_rootId t.nil (Frame.lf i c0 dd r0 :: rest) _ ITree.leaf (by simp), ← hdp,
        descend_plug]
      show t.root = (plug ft []).rootId t.nil
      rw [hwf.root_eq]
      rfl
    have hT3nil : (writeLeft (writeParent (allocNode t d) t.next i) i t.next).heap t.nil =
        t.heap t.nil := by
      rw [hT3o t.nil (Ne.symm hinil) hnilz]
      exact allocNode_heap_ne t d hnilz
    have hwf3 : TreeWf (writeLeft (writeParent (allocNode t d) t.next i) i t.next)
        (plug (ITree.node t.next Color.red ITree.leaf d ITree.leaf)
          (Frame.lf i c0 dd r0 :: rest)) := by
      refine ⟨hok3, hroot3, hnd3 _ hfull2, hbnd3 _ hfull2, hwf.nil_ne, ?_, ?_, ?_, ?_⟩
      · show t.nil < t.next + 1
        have := hwf.nil_lt
        omega
      · show ((writeLeft (writeParent (allocNode t d) t.next i) i t.next).heap t.nil).color =
          Color.black
        rw [hT3nil]
        exact hwf.nil_black
      · show ((writeLeft (writeParent (allocNode t d) t.next i) i t.next).heap t.nil).left =
          t.nil
        rw [hT3nil]
        exact hwf.nil_left
      · show ((writeLeft (writeParent (allocNode t d) t.next i) i t.next).heap t.nil).right =
          t.nil
        rw [hT3nil]
        exact hwf.nil_right
    have hlast3 : ∀ f ∈ (Frame.lf i c0 dd r0 :: rest).getLast?, Frame.color f = Color.black := by
      cases hft : ft with
      | leaf =>
        rw [hft] at hmem
        simp [ITree.ids] at hmem
      | node ri rc rl rd rr =>
        intro f hf
        have hb := hrb ri rc rl rd rr hft
        have hdp2 : descend t.cmp d (ITree.node ri rc rl rd rr) [] =
            Frame.lf i c0 dd r0 :: rest := by
          rw [← hft]
          exact hdp
        have hcol := descend_last_color t.cmp d ri rc rl rd rr f (by rw [hdp2]; exact hf)
        rw [← hb]
        exact hcol
    have hlen3 : (Frame.lf i c0 dd r0 :: rest).length + 1 ≤
        (writeLeft (writeParent (allocNode t d) t.next i) i t.next).next := by
      show _ ≤ t.next + 1
      have h2 := hlenpath
      rw [hdp] at h2
      simp only [List.length_cons] at h2 ⊢
      omega
    obtain ⟨ft2, hwf2, hdl2, hnx2, hnl2, hcm2, hblack2⟩ :=
      insert_fixup_spec (writeLeft (writeParent (allocNode t d) t.next i) i t.next)
        (Frame.lf i c0 dd r0 :: rest) t.next d ITree.leaf ITree.leaf hwf3 hlast3 hlen3
    refine ⟨ft2, by rw [hchar]; exact hwf2, ?_, hsplitdata, ?_, ?_, ?_, hblack2⟩
    · rw [hdl2, hdp, plug_dataList]
      simp [ITree.dataList, pathDataL, pathDataR, List.append_assoc]
    · rw [hchar, hnx2]
      rfl
    · rw [hchar, hnl2]
      rfl
    · rw [hchar, hcm2]
      rfl
  · -- the descent ends as the right child of node i
    have hok2 : okAt (allocNode t d).heap t.nil t.nil
        (plug ITree.leaf (Frame.rf i c0 dd l0 :: rest)) = true := by
      rw [← hdp, descend_plug]
      exact hwf1.ok
    obtain ⟨-, hpath⟩ := (okAt_plug (Frame.rf i c0 dd l0 :: rest) ITree.leaf).1 hok2
    obtain ⟨hinil, hi0, hiC, hiD, hiL, hiR, hiP, hokL, hpathRest⟩ := pathOkAt_rf.1 hpath
    have hfull2 : pathIdsL (Frame.rf i c0 dd l0 :: rest) ++
        pathIdsR (Frame.rf i c0 dd l0 :: rest) = ft.ids := by
      rw [← hdp]
      exact hfullids
    have hids2 : ft.ids = (pathIdsL rest ++ l0.ids) ++ i :: pathIdsR rest := by
      rw [← hfull2]
      simp [pathIdsL, pathIdsR, List.append_assoc]
    have hnd := hwf.nodup
    rw [hids2] at hnd
    obtain ⟨hiL1, hiR1⟩ := nodup_out hnd
    have hiz : i ≠ t.next := hbnd i hmem
    have hy : gc_rb_tree_insert_descend (allocNode t d) d (t.next + 1) t.root t.nil = i := by
      rw [hdesc, hdp]
      rfl
    have hchar := insert_char t d i hy
    rw [if_neg (show ¬(i = (writeParent (allocNode t d) t.next i).nil) from hinil)] at hchar
    have hc1 : ((writeParent (allocNode t d) t.next i).heap t.next).data = d := by
      rw [writeParent_heap, if_pos (show t.next = t.next from rfl), allocNode_heap_self]
    have hc2 : ((writeParent (allocNode t d) t.next i).heap i).data = dd := by
      rw [writeParent_heap, if_neg hiz]
      exact hiD
    rw [hc1, hc2, writeParent_cmp, allocNode_cmp, if_neg hcmp0] at hchar
    have hT3z : (writeRight (writeParent (allocNode t d) t.next i) i t.next).heap t.next =
        { data := d, color := Color.red, left := t.nil, right := t.nil, parent := i } := by
      rw [writeRight_heap, if_neg (Ne.symm hiz), writeParent_heap,
        if_pos (show t.next = t.next from rfl), allocNode_heap_self]
    have hT3i : (writeRight (writeParent (allocNode t d) t.next i) i t.next).heap i =
        { (allocNode t d).heap i with right := t.next } := by
      rw [writeRight_heap, if_pos (show i = i from rfl), writeParent_heap, if_neg hiz]
    have hT3o : ∀ j, j ≠ i → j ≠ t.next →
        (writeRight (writeParent (allocNode t d) t.next i) i t.next).heap j =
          (allocNode t d).heap j := by
      intro j h1 h2
      rw [writeRight_heap, if_neg h1, writeParent_heap, if_neg h2]
    have hagL : ∀ j ∈ l0.ids,
        (writeRight (writeParent (allocNode t d) t.next i) i t.next).heap j =
          (allocNode t d).heap j := by
      intro j hj
      have hjft : j ∈ ft.ids := by
        rw [hids2]
        simp [hj]
      exact hT3o j (fun he => hiL1 (List.mem_append_right _ (he ▸ hj))) (hbnd j hjft)
    have hagRest : ∀ j ∈ pathIdsL rest ++ pathIdsR rest,
        (writeRight (writeParent (allocNode t d) t.next i) i t.next).heap j =
          (allocNode t d).heap j := by
      intro j hj
      have hjft : j ∈ ft.ids := by
        rw [hids2]
        rcases List.mem_append.1 hj with h | h
        · simp [h]
        · simp [h]
      refine hT3o j ?_ (hbnd j hjft)
      intro he
      subst he
      rcases List.mem_append.1 hj with h | h
      · exact hiL1 (List.mem_append_left _ h)
      · exact hiR1 h
    have hok3 : okAt (writeRight (writeParent (allocNode t d) t.next i) i t.next).heap t.nil
        t.nil (plug (ITree.node t.next Color.red ITree.leaf d ITree.leaf)
          (Frame.rf i c0 dd l0 :: rest)) = true := by
      refine (okAt_plug _ _).2 ⟨?_, ?_⟩
      · refine okAt_node.2 ⟨Ne.symm hnilz, hz0, by rw [hT3z]; try rfl, by rw [hT3z]; try rfl,
          by rw [hT3z]; try rfl, by rw [hT3z]; try rfl, by rw [hT3z]; try rfl, rfl, rfl⟩
      · refine pathOkAt_rf.2 ⟨hinil, hi0, ?_, ?_, ?_, ?_, ?_, ?_, ?_⟩
        · rw [hT3i]
          exact hiC
        · rw [hT3i]
          exact hiD
        · rw [hT3i]
          exact hiL
        · rw [hT3i]
          rfl
        · rw [hT3i]
          exact hiP
        · exact okAt_frame l0 hokL hagL
        · rw [pathOkAt_congr rest (fun j hj => hagRest j hj) i]
          exact hpathRest
    have hroot3 : (writeRight (writeParent (allocNode t d) t.next i) i t.next).root =
        (plug (ITree.node t.next Color.red ITree.leaf d ITree.leaf)
          (Frame.rf i c0 dd l0 :: rest)).rootId t.nil := by
      rw [plug_rootId t.nil (Frame.rf i c0 dd l0 :: rest) _ ITree.leaf (by simp), ← hdp,
        descend_plug]
      show t.root = (plug ft []).rootId t.nil
      rw [hwf.root_eq]
      rfl
    have hT3nil : (writeRight (writeParent (allocNode t d) t.next i) i t.next).heap t.nil =
        t.heap t.nil := by
      rw [hT3o t.nil (Ne.symm hinil) hnilz]
      exact allocNode_heap_ne t d hnilz
    have hwf3 : TreeWf (writeRight (writeParent (allocNode t d) t.next i) i t.next)
        (plug (ITree.node t.next Color.red ITree.leaf d ITree.leaf)
          (Frame.rf i c0 dd l0 :: rest)) := by
      refine ⟨hok3, hroot3, hnd3 _ hfull2, hbnd3 _ hfull2, hwf.nil_ne, ?_, ?_, ?_, ?_⟩
      · show t.nil < t.next + 1
        have := hwf.nil_lt
        omega
      · show ((writeRight (writeParent (allocNode t d) t.next i) i t.next).heap t.nil).color =
          Color.black
        rw [hT3nil]
        exact hwf.nil_black
      · show ((writeRight (writeParent (allocNode t d) t.next i) i t.next).heap t.nil).left =
          t.nil
        rw [hT3nil]
        exact hwf.nil_left
      · show ((writeRight (writeParent (allocNode t d) t.next i) i t.next).heap t.nil).right =
          t.nil
        rw [hT3nil]
        exact hwf.nil_right
    have hlast3 : ∀ f ∈ (Frame.rf i c0 dd l0 :: rest).getLast?, Frame.color f = Color.black := by
      cases hft : ft with
      | leaf =>
        rw [hft] at hmem
        simp [ITree.ids] at hmem
      | node ri rc rl rd rr =>
        intro f hf
        have hb := hrb ri rc rl rd rr hft
        have hdp2 : descend t.cmp d (ITree.node ri rc rl rd rr) [] =
            Frame.rf i c0 dd l0 :: rest := by
          rw [← hft]
          exact hdp
        have hcol := descend_last_color t.cmp d ri rc rl rd rr f (by rw [hdp2]; exact hf)
        rw [← hb]
        exact hcol
    have hlen3 : (Frame.rf i c0 dd l0 :: rest).length + 1 ≤
        (writeRight (writeParent (allocNode t d) t.next i) i t.next).next := by
      show _ ≤ t.next + 1
      have h2 := hlenpath
      rw [hdp] at h2
      simp only [List.length_cons] at h2 ⊢
      omega
    obtain ⟨ft2, hwf2, hdl2, hnx2, hnl2, hcm2, hblack2⟩ :=
      insert_fixup_spec (writeRight (writeParent (allocNode t d) t.next i) i t.next)
        (Frame.rf i c0 dd l0 :: rest) t.next d ITree.leaf ITree.leaf hwf3 hlast3 hlen3
    refine ⟨ft2, by rw [hchar]; exact hwf2, ?_, hsplitdata, ?_, ?_, ?_, hblack2⟩
    · rw [hdl2, hdp, plug_dataList]
      simp [ITree.dataList, pathDataL, pathDataR, List.append_assoc]
    · rw [hchar, hnx2]
      rfl
    · rw [hchar, hnl2]
      rfl
    · rw [hchar, hcm2]
      rfl

lemma intCmp_laws : CmpLaws intCmp := by
  constructor
  · intro a b
    simp only [intCmp]
    split_ifs <;> omega
  · intro a b c h1 h2
    simp only [intCmp] at h1 h2 ⊢
    split_ifs at h1 h2 ⊢ <;> omega

lemma CmpLaws.ne_symm {cmp : Nat → Nat → Int} (L : CmpLaws cmp) {a b : Nat}
    (h : cmp a b ≠ 0) : cmp b a ≠ 0 := by
  have h1 := L.asym a b
  have h2 := L.asym b a
  omega

lemma CmpLaws.flip {cmp : Nat → Nat → Int} (L : CmpLaws cmp) {a b : Nat}
    (h1 : ¬cmp a b < 0) (h2 : cmp a b ≠ 0) : cmp b a < 0 := by
  have h3 := L.asym b a
  omega

/-- On a tree whose in-order payloads are strictly sorted and contain no
tie with d, the functional descent splits the payloads: everything that
went to the left context is below d, everything that went right is
above. -/
lemma descend_split (cmp : Nat → Nat → Int) (L : CmpLaws cmp) (d : Nat) :
    ∀ (ft : ITree) (path : List Frame),
      ft.dataList.Pairwise (fun a b => cmp a b < 0) →
      (∀ a ∈ ft.dataList, cmp d a ≠ 0) →
      ∃ LL RR,
        ft.dataList = LL ++ RR ∧
        (∀ a ∈ LL, cmp a d < 0) ∧ (∀ a ∈ RR, cmp d a < 0) ∧
        pathDataL (descend cmp d ft path) = pathDataL path ++ LL ∧
        pathDataR (descend cmp d ft path) = RR ++ pathDataR path := by
  intro ft
  induction ft with
  | leaf =>
    intro path _ _
    exact ⟨[], [], rfl, by simp, by simp, by simp [descend], by simp [descend]⟩
  | node i c l dd r ihl ihr =>
    intro path hsort hne
    rw [dataList_node, List.pairwise_append] at hsort
    obtain ⟨hsL, hsR0, hcross⟩ := hsort
    rw [List.pairwise_cons] at hsR0
    obtain ⟨hddR, hsR⟩ := hsR0
    by_cases hc : cmp d dd < 0
    · obtain ⟨LL, RR, hsplit, hLL, hRR, hPL, hPR⟩ :=
        ihl (Frame.lf i c dd r :: path) hsL (fun a ha => hne a (by simp [dataList_node, ha]))
      refine ⟨LL, RR ++ dd :: r.dataList, ?_, hLL, ?_, ?_, ?_⟩
      · rw [dataList_node, hsplit]
        simp [List.append_assoc]
      · intro a ha
        rcases List.mem_append.1 ha with h | h
        · exact hRR a h
        · rcases List.mem_cons.1 h with rfl | h2
          · exact hc
          · exact L.lt_trans d dd a hc (hddR a h2)
      · simp only [descend]
        rw [if_pos hc, hPL]
        rfl
      · simp only [descend]
        rw [if_pos hc, hPR]
        simp [pathDataR, List.append_assoc]
    · have hnedd : cmp d dd ≠ 0 := hne dd (by simp [dataList_node])
      obtain ⟨LL, RR, hsplit, hLL, hRR, hPL, hPR⟩ :=
        ihr (Frame.rf i c dd l :: path) hsR (fun a ha => hne a (by simp [dataList_node, ha]))
      have hdd : cmp dd d < 0 := L.flip hc hnedd
      refine ⟨l.dataList ++ dd :: LL, RR, ?_, ?_, hRR, ?_, ?_⟩
      · rw [dataList_node, hsplit]
        simp [List.append_assoc]
      · intro a ha
        rcases List.mem_append.1 ha with h | h
        · exact L.lt_trans a dd d (hcross a h dd (by simp)) hdd
        · rcases List.mem_cons.1 h with rfl | h2
          · exact hdd
          · exact hLL a h2
      · simp only [descend]
        rw [if_neg hc, hPL]
        simp [pathDataL, List.append_assoc]
      · simp only [descend]
        rw [if_neg hc, hPR]
        rfl

/-- Splicing a payload between a lower and an upper part keeps the
sequence strictly sorted. -/
lemma sorted_insert_middle {lt : Nat → Nat → Prop} {LL RR : List Nat} {d : Nat}
    (h : (LL ++ RR).Pairwise lt) (hL : ∀ a ∈ LL, lt a d) (hR : ∀ a ∈ RR, lt d a) :
    (LL ++ d :: RR).Pairwise lt := by
  rw [List.pairwise_append] at h
  obtain ⟨h1, h2, h3⟩ := h
  rw [List.pairwise_append]
  refine ⟨h1, ?_, ?_⟩
  · rw [List.pairwise_cons]
    exact ⟨hR, h2⟩
  · intro a ha b hb
    rcases List.mem_cons.1 hb with rfl | hb2
    · exact hL a ha
    · exact h3 a ha b hb2

set_option maxHeartbeats 1000000 in
/-- Folding gc_rb_tree_insert over a list of keys with no comparator
ties (among themselves or against the tree) keeps the tree well formed
and strictly sorted, and appends exactly the new keys, up to order. -/
lemma insertAll_spec (cmp : Nat → Nat → Int) (L : CmpLaws cmp) :
    ∀ (keys : List Nat) (t : RBTree) (ft : ITree),
      TreeWf t ft → t.cmp = cmp →
      ft.dataList.Pairwise (fun a b => cmp a b < 0) →
      (∀ i c l dd r, ft = ITree.node i c l dd r → c = Color.black) →
      (∀ k ∈ keys, ∀ a ∈ ft.dataList, cmp k a ≠ 0) →
      keys.Pairwise (fun a b => cmp a b ≠ 0) →
      ∃ ft2, TreeWf (insertAll t keys) ft2 ∧
        (insertAll t keys).cmp = cmp ∧
        ft2.dataList.Pairwise (fun a b => cmp a b < 0) ∧
        ft2.dataList.Perm (ft.dataList ++ keys) := by
  intro keys
  induction keys with
  | nil =>
    intro t ft hwf hcmp hsort _ _ _
    exact ⟨ft, hwf, hcmp, hsort, by simp⟩
  | cons k keys ih =>
    intro t ft hwf hcmp hsort hblack hkeys hdist
    obtain ⟨ft1, hwf1, hdl1, hsplit0, hnx, hnl, hcm, hblack1⟩ :=
      gc_rb_tree_insert_spec t ft k hwf hblack
    obtain ⟨LL, RR, hsplit, hLL, hRR, hPL, hPR⟩ :=
      descend_split cmp L k ft [] hsort (fun a ha => hkeys k (by simp) a ha)
    rw [hcmp] at hdl1
    rw [hPL, hPR] at hdl1
    simp only [pathDataL, pathDataR, List.nil_append, List.append_nil] at hdl1
    have hsort1 : ft1.dataList.Pairwise (fun a b => cmp a b < 0) := by
      rw [hdl1]
      exact sorted_insert_middle (hsplit ▸ hsort) hLL hRR
    have hperm1 : ft1.dataList.Perm (ft.dataList ++ [k]) := by
      rw [hdl1, hsplit]
      exact List.perm_middle.trans (List.perm_append_singleton k _).symm
    have hcm1 : (gc_rb_tree_insert t k).cmp = cmp := by
      rw [hcm, hcmp]
    have hkeys1 : ∀ k2 ∈ keys, ∀ a ∈ ft1.dataList, cmp k2 a ≠ 0 := by
      intro k2 hk2 a ha
      have ha2 : a ∈ ft.dataList ++ [k] := hperm1.mem_iff.1 ha
      rcases List.mem_append.1 ha2 with h | h
      · exact hkeys k2 (by simp [hk2]) a h
      · have hkk2 : cmp k k2 ≠ 0 := (List.pairwise_cons.1 hdist).1 k2 hk2
        rw [List.mem_singleton.1 h]
        exact L.ne_symm hkk2
    obtain ⟨ft2, hwf2, hcm2, hsort2, hperm2⟩ :=
      ih (gc_rb_tree_insert t k) ft1 hwf1 hcm1 hsort1 hblack1 hkeys1
        (List.pairwise_cons.1 hdist).2
    refine ⟨ft2, hwf2, hcm2, hsort2, ?_⟩
    have hstep : ft.dataList ++ k :: keys = (ft.dataList ++ [k]) ++ keys := by
      simp [List.append_assoc]
    rw [hstep]
    exact hperm2.trans (hperm1.append_right keys)

/-- gc_rb_tree_create stores the empty functional tree. -/
lemma treeWf_create (cmp : Nat → Nat → Int) : TreeWf (gc_rb_tree_create cmp) ITree.leaf := by
  refine ⟨rfl, rfl, List.nodup_nil, ?_, ?_, ?_, rfl, rfl, rfl⟩
  · intro i hi
    simp [ITree.ids] at hi
  · exact Nat.one_ne_zero
  · exact Nat.one_lt_two

lemma CmpLaws.gt_trans {cmp : Nat → Nat → Int} (L : CmpLaws cmp) {a b k : Nat}
    (h1 : cmp a k > 0) (h2 : cmp a b < 0) : cmp b k > 0 := by
  have h3 := (L.asym k a).2 h1
  have h4 := L.lt_trans k a b h3 h2
  exact (L.asym k b).1 h4

lemma intCmp_lawsEq : CmpLawsEq intCmp := by
  refine ⟨intCmp_laws, ?_, ?_⟩ <;>
  · intro a b c h1 h2
    simp only [intCmp] at h1 h2 ⊢
    split_ifs at h1 h2 ⊢ <;> omega

/-- The low-bound acceptance test is upward closed along the order. -/
lemma CmpLawsEq.lowOk_up {cmp : Nat → Nat → Int} (E : CmpLawsEq cmp) {key incl a b : Nat}
    (h : cmp a key > 0 ∨ (incl ≠ 0 ∧ cmp a key = 0)) (hab : cmp a b < 0) :
    cmp b key > 0 ∨ (incl ≠ 0 ∧ cmp b key = 0) := by
  rcases h with h | ⟨hi, h0⟩
  · exact Or.inl (E.toCmpLaws.gt_trans h hab)
  · exact Or.inl ((E.toCmpLaws.asym key b).1 (E.tie_substl a key b h0 hab))

/-- The low-bound rejection propagates downward along the order. -/
lemma CmpLawsEq.lowOk_down {cmp : Nat → Nat → Int} (E : CmpLawsEq cmp) {key incl a b : Nat}
    (h : ¬(cmp b key > 0 ∨ (incl ≠ 0 ∧ cmp b key = 0))) (hab : cmp a b < 0) :
    ¬(cmp a key > 0 ∨ (incl ≠ 0 ∧ cmp a key = 0)) :=
  fun ha => h (E.lowOk_up ha hab)

/-- The high-bound acceptance test is downward closed along the order. -/
lemma CmpLawsEq.highOk_down {cmp : Nat → Nat → Int} (E : CmpLawsEq cmp) {key incl a b : Nat}
    (h : cmp b key < 0 ∨ (incl ≠ 0 ∧ cmp b key = 0)) (hab : cmp a b < 0) :
    cmp a key < 0 ∨ (incl ≠ 0 ∧ cmp a key = 0) := by
  rcases h with h | ⟨hi, h0⟩
  · exact Or.inl (E.toCmpLaws.lt_trans a b key hab h)
  · exact Or.inl (E.tie_substr b key a h0 hab)

/-- The high-bound rejection propagates upward along the order. -/
lemma CmpLawsEq.highOk_up_neg {cmp : Nat → Nat → Int} (E : CmpLawsEq cmp) {key incl a b : Nat}
    (h : ¬(cmp a key < 0 ∨ (incl ≠ 0 ∧ cmp a key = 0))) (hab : cmp a b < 0) :
    ¬(cmp b key < 0 ∨ (incl ≠ 0 ∧ cmp b key = 0)) :=
  fun hb => h (E.highOk_down hb hab)


set_option maxHeartbeats 1000000 in
/-- The descent loop of gc_rb_tree_lower_bound on a strictly sorted
subtree, under strict-weak-order comparator laws and for any
inclusivity setting: either no payload of the subtree passes the
low-bound test and the loop returns its accumulator, or the in-order
ids split around the first node whose payload passes and the loop
returns that node. -/
lemma lower_bound_go_split (t : RBTree) (cmp : Nat → Nat → Int) (E : CmpLawsEq cmp)
    (hcmp : t.cmp = cmp) (key incl : Nat) :
    ∀ (ft : ITree) (pid fuel res : Nat),
      okAt t.heap t.nil pid ft = true →
      ft.ids.length < fuel →
      ft.dataList.Pairwise (fun a b => cmp a b < 0) →
      ((∀ j ∈ ft.ids, ¬(cmp ((t.heap j).data) key > 0 ∨
          (incl ≠ 0 ∧ cmp ((t.heap j).data) key = 0))) ∧
        gc_rb_tree_lower_bound_go t key incl fuel (ft.rootId t.nil) res = res) ∨
      (∃ A j B, ft.ids = A ++ j :: B ∧
        (∀ a ∈ A, ¬(cmp ((t.heap a).data) key > 0 ∨
          (incl ≠ 0 ∧ cmp ((t.heap a).data) key = 0))) ∧
        (cmp ((t.heap j).data) key > 0 ∨ (incl ≠ 0 ∧ cmp ((t.heap j).data) key = 0)) ∧
        gc_rb_tree_lower_bound_go t key incl fuel (ft.rootId t.nil) res = j) := by
  intro ft
  induction ft with
  | leaf =>
    intro pid fuel res _ _ _
    left
    refine ⟨by simp [ITree.ids], ?_⟩
    cases fuel with
    | zero => rfl
    | succ f =>
      show gc_rb_tree_lower_bound_go t key incl (f + 1) t.nil res = res
      rw [gc_rb_tree_lower_bound_go, if_neg (by simp)]
  | node i c l dd r ihl ihr =>
    intro pid fuel res hok hfuel hsort
    rw [okAt_node] at hok
    obtain ⟨hine, hi0, hic, hidata, hileft, hiright, hipar, hokl, hokr⟩ := hok
    rw [ids_node, List.length_append, List.length_cons] at hfuel
    rw [dataList_node, List.pairwise_append] at hsort
    obtain ⟨hsL, hsR0, hcross⟩ := hsort
    have hsR : r.dataList.Pairwise (fun a b => cmp a b < 0) := (List.pairwise_cons.1 hsR0).2
    obtain ⟨f, rfl⟩ : ∃ f, fuel = f + 1 := ⟨fuel - 1, by omega⟩
    have hstep : gc_rb_tree_lower_bound_go t key incl (f + 1)
        ((ITree.node i c l dd r).rootId t.nil) res =
        if t.cmp ((t.heap i).data) key > 0 ∨
            (incl ≠ 0 ∧ t.cmp ((t.heap i).data) key = 0) then
          gc_rb_tree_lower_bound_go t key incl f ((t.heap i).left) i
        else
          gc_rb_tree_lower_bound_go t key incl f ((t.heap i).right) res := by
      show gc_rb_tree_lower_bound_go t key incl (f + 1) i res = _
      rw [gc_rb_tree_lower_bound_go, if_pos hine]
    by_cases hP : cmp dd key > 0 ∨ (incl ≠ 0 ∧ cmp dd key = 0)
    · rw [hstep, if_pos (by rw [hcmp, hidata]; exact hP), hileft] at *
      rcases ihl i f i hokl (by omega) hsL with ⟨hall, heq⟩ |
        ⟨A, j, B, hsplit, hA, hPj, heq⟩
      · right
        refine ⟨l.ids, i, r.ids, by rw [ids_node], hall, by rw [hidata]; exact hP, heq⟩
      · right
        refine ⟨A, j, B ++ i :: r.ids, ?_, hA, hPj, heq⟩
        rw [ids_node, hsplit]
        simp [List.append_assoc]
    · have hlfail : ∀ a ∈ l.ids, ¬(cmp ((t.heap a).data) key > 0 ∨
          (incl ≠ 0 ∧ cmp ((t.heap a).data) key = 0)) := by
        intro a ha
        have hdmem : (t.heap a).data ∈ l.dataList := by
          rw [dataList_eq_map hokl]
          exact List.mem_map_of_mem _ ha
        exact E.lowOk_down hP (hcross _ hdmem dd (by simp))
      rw [hstep, if_neg (by rw [hcmp, hidata]; exact hP), hiright] at *
      rcases ihr i f res hokr (by omega) hsR with ⟨hall, heq⟩ |
        ⟨A, j, B, hsplit, hA, hPj, heq⟩
      · left
        refine ⟨?_, heq⟩
        intro j hj
        rw [ids_node] at hj
        rcases List.mem_append.1 hj with h | h
        · exact hlfail j h
        · rcases List.mem_cons.1 h with rfl | h2
          · rw [hidata]
            exact hP
          · exact hall j h2
      · right
        refine ⟨l.ids ++ i :: A, j, B, ?_, ?_, hPj, heq⟩
        · rw [ids_node, hsplit]
          simp [List.append_assoc]
        · intro a ha
          rcases List.mem_append.1 ha with h | h
          · exact hlfail a h
          · rcases List.mem_cons.1 h with rfl | h2
            · rw [hidata]
              exact hP
            · exact hA a h2

/-- gc_rb_tree_lower_bound on a strictly sorted well-formed tree, for
any inclusivity setting: NULL (0) when no payload passes the low-bound
test, otherwise the first node (in symmetric order) whose payload
does. -/
lemma lower_bound_split (t : RBTree) (cmp : Nat → Nat → Int) (E : CmpLawsEq cmp)
    (hcmp : t.cmp = cmp) (key incl : Nat) (ft : ITree) (hwf : TreeWf t ft)
    (hsort : ft.dataList.Pairwise (fun a b => cmp a b < 0)) :
    ((∀ a ∈ ft.dataList, ¬(cmp a key > 0 ∨ (incl ≠ 0 ∧ cmp a key = 0))) ∧
      gc_rb_tree_lower_bound t key incl = 0) ∨
    (∃ A j B, ft.ids = A ++ j :: B ∧
      (∀ a ∈ A, ¬(cmp ((t.heap a).data) key > 0 ∨
        (incl ≠ 0 ∧ cmp ((t.heap a).data) key = 0))) ∧
      (cmp ((t.heap j).data) key > 0 ∨ (incl ≠ 0 ∧ cmp ((t.heap j).data) key = 0)) ∧
      j ≠ t.nil ∧ j ≠ 0 ∧
      gc_rb_tree_lower_bound t key incl = j) := by
  have hlen := hwf.ids_len
  rcases lower_bound_go_split t cmp E hcmp key incl ft t.nil t.next t.nil hwf.ok
      (by omega) hsort with ⟨hall, heq⟩ | ⟨A, j, B, hsplit, hA, hPj, heq⟩
  · left
    refine ⟨?_, ?_⟩
    · intro a ha
      rw [dataList_eq_map hwf.ok] at ha
      obtain ⟨j, hj, rfl⟩ := List.mem_map.1 ha
      exact hall j hj
    · rw [gc_rb_tree_lower_bound, hwf.root_eq, heq, if_neg (by simp)]
  · right
    have hjid : j ∈ ft.ids := by
      rw [hsplit]
      simp
    have hjne := okAt_ids_ne hwf.ok j hjid
    refine ⟨A, j, B, hsplit, hA, hPj, hjne.1, hjne.2, ?_⟩
    rw [gc_rb_tree_lower_bound, hwf.root_eq, heq, if_pos hjne.1]

/-- gc_rb_tree_iterator_range_valid on a forward iterator, with the
record fields spelled out. -/
lemma range_valid_fwd (t : RBTree) (j low high flags : Nat) :
    gc_rb_tree_iterator_range_valid
      { tree := t, current := j, low := low, high := high, flags := flags, reverse := false } =
      (if j = 0 ∨ j = t.nil then false
      else if (t.heap j).data = 0 then false
      else
        if (if high ≠ 0 then t.cmp ((t.heap j).data) high else -1) > 0 ∨
            (Nat.land flags GC_RB_RANGE_INCLUSIVE_HIGH = 0 ∧
              (if high ≠ 0 then t.cmp ((t.heap j).data) high else -1) = 0) then false
        else true) := rfl

/-- gc_rb_tree_iterator_range_next on a forward iterator with a live
current node, with the record fields spelled out. -/
lemma range_next_fwd (t : RBTree) (j low high flags : Nat) (hj0 : j ≠ 0) :
    gc_rb_tree_iterator_range_next
      { tree := t, current := j, low := low, high := high, flags := flags, reverse := false } =
      (if gc_rb_tree_successor t j = 0 then
        { tree := t, current := 0, low := low, high := high, flags := flags, reverse := false }
      else if t.cmp ((t.heap (gc_rb_tree_successor t j)).data) high > 0 ∨
          (Nat.land flags GC_RB_RANGE_INCLUSIVE_HIGH = 0 ∧
            t.cmp ((t.heap (gc_rb_tree_successor t j)).data) high = 0) then
        { tree := t, current := 0, low := low, high := high, flags := flags, reverse := false }
      else
        { tree := t, current := gc_rb_tree_successor t j, low := low, high := high,
          flags := flags, reverse := false }) := by
  rw [gc_rb_tree_iterator_range_next, if_neg hj0]
  rfl

/-- gc_rb_tree_iterator_range_data on a live current node. -/
lemma range_data_live (t : RBTree) (j low high flags : Nat) (rev : Bool) (hj0 : j ≠ 0)
    (hjnil : j ≠ t.nil) :
    gc_rb_tree_iterator_range_data
      { tree := t, current := j, low := low, high := high, flags := flags, reverse := rev } =
      (t.heap j).data := by
  rw [gc_rb_tree_iterator_range_data, if_pos ⟨hj0, hjnil⟩]

/-- The range walk stops at once on a NULL current node. -/
lemma rangeCollect_current_zero (t : RBTree) (low high flags : Nat) (rev : Bool) (fuel : Nat) :
    rangeCollectLoop fuel
      { tree := t, current := 0, low := low, high := high, flags := flags,
        reverse := rev } = [] := by
  cases fuel with
  | zero => rfl
  | succ f =>
    rw [rangeCollectLoop, if_neg (by simp [gc_rb_tree_iterator_range_valid])]

set_option maxHeartbeats 1000000 in
/-- The forward range walk along a successor chain, for any inclusivity
flags: with a non-NULL high bound and nonzero payloads, the collected
payloads are the longest prefix of the chain that passes the
flag-respecting high-bound test. -/
lemma rangeCollect_suffix (t : RBTree) (cmp : Nat → Nat → Int) (hcmp : t.cmp = cmp)
    (low high flags : Nat) (hh0 : high ≠ 0) :
    ∀ (S : List Nat) (fuel : Nat),
      List.Chain' (fun a b => gc_rb_tree_successor t a = b) S →
      (S ≠ [] → gc_rb_tree_successor t (S.getLastD 0) = 0) →
      (∀ j ∈ S, j ≠ 0 ∧ j ≠ t.nil ∧ (t.heap j).data ≠ 0) →
      S.length ≤ fuel →
      rangeCollectLoop fuel
        { tree := t, current := S.headI, low := low, high := high, flags := flags,
          reverse := false } =
        (S.map (fun j => (t.heap j).data)).takeWhile
          (fun a => decide (cmp a high < 0 ∨
            (Nat.land flags GC_RB_RANGE_INCLUSIVE_HIGH ≠ 0 ∧ cmp a high = 0))) := by
  intro S
  induction S with
  | nil =>
    intro fuel _ _ _ _
    rw [show ([] : List Nat).headI = 0 from rfl, rangeCollect_current_zero]
    rfl
  | cons j B ih =>
    intro fuel hch hlast hfacts hfuel
    obtain ⟨hj0, hjnil, hjd0⟩ := hfacts j (by simp)
    obtain ⟨f, rfl⟩ : ∃ f, fuel = f + 1 := ⟨fuel - 1, by simp at hfuel; omega⟩
    rw [List.headI_cons]
    by_cases hQ : cmp ((t.heap j).data) high < 0 ∨
        (Nat.land flags GC_RB_RANGE_INCLUSIVE_HIGH ≠ 0 ∧ cmp ((t.heap j).data) high = 0)
    · have hvalid : gc_rb_tree_iterator_range_valid
          { tree := t, current := j, low := low, high := high, flags := flags,
            reverse := false } = true := by
        rw [range_valid_fwd, if_neg (by simp [hj0, hjnil]), if_neg hjd0, if_pos hh0, hcmp,
          if_neg (by omega)]
      rw [rangeCollectLoop, if_pos (by rw [hvalid]),
        range_data_live t j low high flags false hj0 hjnil, range_next_fwd t j low high flags hj0]
      cases B with
      | nil =>
        have hs0 : gc_rb_tree_successor t j = 0 := by simpa using hlast (by simp)
        rw [if_pos hs0, rangeCollect_current_zero, List.map_cons, List.map_nil,
          List.takeWhile_cons, if_pos (decide_eq_true hQ)]
        rfl
      | cons b B2 =>
        have hsb : gc_rb_tree_successor t j = b := (List.chain'_cons.1 hch).1
        obtain ⟨hb0, hbnil, hbd0⟩ := hfacts b (by simp)
        rw [hsb, if_neg hb0]
        by_cases hQb : cmp ((t.heap b).data) high < 0 ∨
            (Nat.land flags GC_RB_RANGE_INCLUSIVE_HIGH ≠ 0 ∧ cmp ((t.heap b).data) high = 0)
        · rw [if_neg (by rw [hcmp]; omega)]
          have hlast2 : b :: B2 ≠ [] → gc_rb_tree_successor t ((b :: B2).getLastD 0) = 0 := by
            intro _
            have h2 := hlast (by simp)
            rw [List.getLastD_cons, getLastD_of_ne (by simp) j 0] at h2
            exact h2
          have hrec := ih f (List.chain'_cons.1 hch).2 hlast2
            (fun x hx => hfacts x (by simp [hx]))
            (by simp only [List.length_cons] at hfuel ⊢; omega)
          rw [List.headI_cons] at hrec
          rw [hrec]
          conv_rhs => rw [List.map_cons, List.takeWhile_cons, if_pos (decide_eq_true hQ)]
        · rw [if_pos (by rw [hcmp]; omega), rangeCollect_current_zero]
          conv_rhs => rw [List.map_cons, List.takeWhile_cons, if_pos (decide_eq_true hQ),
            List.map_cons, List.takeWhile_cons,
            if_neg (show ¬(decide (cmp ((t.heap b).data) high < 0 ∨
              (Nat.land flags GC_RB_RANGE_INCLUSIVE_HIGH ≠ 0 ∧
                cmp ((t.heap b).data) high = 0)) = true) by simpa using hQb)]
    · have hvalid : gc_rb_tree_iterator_range_valid
          { tree := t, current := j, low := low, high := high, flags := flags,
            reverse := false } = false := by
        rw [range_valid_fwd, if_neg (by simp [hj0, hjnil]), if_neg hjd0, if_pos hh0, hcmp,
          if_pos (by omega)]
      rw [rangeCollectLoop, if_neg (by rw [hvalid]; simp), List.map_cons,
        List.takeWhile_cons,
        if_neg (show ¬(decide (cmp ((t.heap j).data) high < 0 ∨
          (Nat.land flags GC_RB_RANGE_INCLUSIVE_HIGH ≠ 0 ∧
            cmp ((t.heap j).data) high = 0)) = true) by simpa using hQ)]

/-- On a strictly sorted list a downward-closed Bool predicate filters
to exactly its initial segment. -/
lemma filter_eq_takeWhile_sorted {Q : Nat → Bool} {lt : Nat → Nat → Prop}
    (hdc : ∀ a b, lt a b → Q b = true → Q a = true) :
    ∀ {M : List Nat}, M.Pairwise lt → M.filter Q = M.takeWhile Q := by
  intro M
  induction M with
  | nil => intro _; rfl
  | cons a M2 ih =>
    intro hp
    rw [List.pairwise_cons] at hp
    by_cases hQ : Q a = true
    · rw [List.filter_cons_of_pos hQ, List.takeWhile_cons_of_pos hQ, ih hp.2]
    · rw [List.filter_cons_of_neg (by simpa using hQ),
        List.takeWhile_cons_of_neg (by simpa using hQ)]
      apply List.filter_eq_nil.2
      intro b hb hQb
      exact hQ (hdc a b (hp.1 b hb) hQb)

/-- gc_rb_tree_iterator_range_begin on a nonempty tree, with the
lower-bound result given a name. -/
lemma range_begin_char (t : RBTree) (low high flags cval : Nat)
    (hroot : ¬t.root = t.nil)
    (hc : gc_rb_tree_lower_bound t low (Nat.land flags GC_RB_RANGE_INCLUSIVE_LOW) = cval) :
    gc_rb_tree_iterator_range_begin t low high flags =
      { tree := t,
        current :=
          if cval ≠ 0 then
            if t.cmp ((t.heap cval).data) high > 0 ∨
                (Nat.land flags GC_RB_RANGE_INCLUSIVE_HIGH = 0 ∧
                  t.cmp ((t.heap cval).data) high = 0) then 0 else cval
          else cval,
        low := low, high := high, flags := flags, reverse := false } := by
  rw [gc_rb_tree_iterator_range_begin, if_neg hroot, hc]

set_option maxHeartbeats 1000000 in
/-- Forward direction: on a well-formed strictly sorted tree with
non-NULL payloads and a non-NULL high bound, the forward range walk
lists exactly the in-order traversal filtered by the flag-respecting
boundary predicate. -/
theorem range_fwd_equiv_filtered (t : RBTree) (ft : ITree) (cmp : Nat → Nat → Int)
    (E : CmpLawsEq cmp) (low high flags : Nat) (hwf : TreeWf t ft) (hcmp : t.cmp = cmp)
    (hsort : ft.dataList.Pairwise (fun a b => cmp a b < 0))
    (hdata0 : ∀ a ∈ ft.dataList, a ≠ 0)
    (hh0 : high ≠ 0) :
    rangeCollectLoop t.next (gc_rb_tree_iterator_range_begin t low high flags) =
      (inorderSuccWalk t t.next (gc_rb_tree_min t)).filter
        (fun a => decide (cmp a low > 0 ∨
            (Nat.land flags GC_RB_RANGE_INCLUSIVE_LOW ≠ 0 ∧ cmp a low = 0)) &&
          decide (cmp a high < 0 ∨
            (Nat.land flags GC_RB_RANGE_INCLUSIVE_HIGH ≠ 0 ∧ cmp a high = 0))) := by
  rw [treeWf_inorder_walk hwf]
  by_cases hroot : t.root = t.nil
  · have hft : ft = ITree.leaf := by
      cases hft2 : ft with
      | leaf => rfl
      | node i c l dd r =>
        exfalso
        have h1 := hwf.root_eq
        rw [hft2] at h1
        have h2 := rootId_ne_nil (hft2 ▸ hwf.ok) (by simp)
        rw [← h1] at h2
        exact h2 hroot
    rw [gc_rb_tree_iterator_range_begin, if_pos hroot, rangeCollect_current_zero, hft]
    rfl
  · rcases lower_bound_split t cmp E hcmp low (Nat.land flags GC_RB_RANGE_INCLUSIVE_LOW) ft
        hwf hsort with ⟨hallP, hlb⟩ | ⟨A, j, B, hids, hAfail, hPj, hjnil, hj0, hlb⟩
    · rw [range_begin_char t low high flags 0 hroot hlb, if_neg (by simp),
        rangeCollect_current_zero]
      symm
      apply List.filter_eq_nil.2
      intro a ha
      simp only [Bool.and_eq_true, decide_eq_true_eq]
      rintro ⟨hp, -⟩
      exact hallP a ha hp
    · have hdlmap : ft.dataList = (A.map fun x => (t.heap x).data) ++
          ((t.heap j).data :: (B.map fun x => (t.heap x).data)) := by
        rw [dataList_eq_map hwf.ok, hids]
        simp
      have hsortS : ((t.heap j).data :: (B.map fun x => (t.heap x).data)).Pairwise
          (fun a b => cmp a b < 0) := by
        rw [hdlmap] at hsort
        exact (List.pairwise_append.1 hsort).2.1
      rw [range_begin_char t low high flags j hroot hlb, if_pos hj0, hcmp]
      by_cases hQj : cmp ((t.heap j).data) high < 0 ∨
          (Nat.land flags GC_RB_RANGE_INCLUSIVE_HIGH ≠ 0 ∧ cmp ((t.heap j).data) high = 0)
      · rw [if_neg (by omega)]
        have hchain := (treeWf_chain hwf).1
        rw [hids] at hchain
        have hchainS : List.Chain' (fun a b => gc_rb_tree_successor t a = b) (j :: B) :=
          (List.chain'_append.1 hchain).2.1
        have hlastS : (j :: B) ≠ [] → gc_rb_tree_successor t ((j :: B).getLastD 0) = 0 := by
          intro _
          have h2 := (treeWf_chain hwf).2 (by rw [hids]; simp)
          rw [hids, getLastD_append_cons] at h2
          exact h2
        have hfactsS : ∀ x ∈ j :: B, x ≠ 0 ∧ x ≠ t.nil ∧ (t.heap x).data ≠ 0 := by
          intro x hx
          have hxids : x ∈ ft.ids := by
            rw [hids]
            exact List.mem_append_right _ hx
          have hne := okAt_ids_ne hwf.ok x hxids
          have hdm : (t.heap x).data ∈ ft.dataList := by
            rw [dataList_eq_map hwf.ok]
            exact List.mem_map_of_mem _ hxids
          exact ⟨hne.2, hne.1, hdata0 _ hdm⟩
        have hlen := hwf.ids_len
        have hfuelS : (j :: B).length ≤ t.next := by
          rw [hids, List.length_append] at hlen
          omega
        have hwalk := rangeCollect_suffix t cmp hcmp low high flags hh0 (j :: B) t.next
          hchainS hlastS hfactsS hfuelS
        rw [List.headI_cons] at hwalk
        rw [hwalk, hdlmap, List.filter_append]
        have hfA : ((A.map fun x => (t.heap x).data).filter
            (fun a => decide (cmp a low > 0 ∨
                (Nat.land flags GC_RB_RANGE_INCLUSIVE_LOW ≠ 0 ∧ cmp a low = 0)) &&
              decide (cmp a high < 0 ∨
                (Nat.land flags GC_RB_RANGE_INCLUSIVE_HIGH ≠ 0 ∧ cmp a high = 0)))) = [] := by
          apply List.filter_eq_nil.2
          intro a ha
          obtain ⟨x, hx, rfl⟩ := List.mem_map.1 ha
          simp only [Bool.and_eq_true, decide_eq_true_eq]
          rintro ⟨hp, -⟩
          exact hAfail x hx hp
        have hPsuffix : ∀ a ∈ (t.heap j).data :: (B.map fun x => (t.heap x).data),
            cmp a low > 0 ∨
              (Nat.land flags GC_RB_RANGE_INCLUSIVE_LOW ≠ 0 ∧ cmp a low = 0) := by
          intro a ha
          rcases List.mem_cons.1 ha with rfl | ha2
          · exact hPj
          · exact E.lowOk_up hPj ((List.pairwise_cons.1 hsortS).1 a ha2)
        have hfS : (((t.heap j).data :: B.map fun x => (t.heap x).data).filter
            (fun a => decide (cmp a low > 0 ∨
                (Nat.land flags GC_RB_RANGE_INCLUSIVE_LOW ≠ 0 ∧ cmp a low = 0)) &&
              decide (cmp a high < 0 ∨
                (Nat.land flags GC_RB_RANGE_INCLUSIVE_HIGH ≠ 0 ∧ cmp a high = 0)))) =
            (((t.heap j).data :: B.map fun x => (t.heap x).data).takeWhile
              (fun a => decide (cmp a high < 0 ∨
                (Nat.land flags GC_RB_RANGE_INCLUSIVE_HIGH ≠ 0 ∧ cmp a high = 0)))) := by
          have hcongr : ∀ a ∈ (t.heap j).data :: (B.map fun x => (t.heap x).data),
              (decide (cmp a low > 0 ∨
                  (Nat.land flags GC_RB_RANGE_INCLUSIVE_LOW ≠ 0 ∧ cmp a low = 0)) &&
                decide (cmp a high < 0 ∨
                  (Nat.land flags GC_RB_RANGE_INCLUSIVE_HIGH ≠ 0 ∧ cmp a high = 0))) =
                decide (cmp a high < 0 ∨
                  (Nat.land flags GC_RB_RANGE_INCLUSIVE_HIGH ≠ 0 ∧ cmp a high = 0)) := by
            intro a ha
            simp [hPsuffix a ha]
          rw [List.filter_congr hcongr]
          exact filter_eq_takeWhile_sorted
            (fun a b hab hQb => by
              simp only [decide_eq_true_eq] at hQb ⊢
              exact E.highOk_down hQb hab) hsortS
        rw [hfA, hfS, List.nil_append, List.map_cons]
      · rw [if_pos (by omega), rangeCollect_current_zero]
        symm
        apply List.filter_eq_nil.2
        rw [hdlmap]
        intro a ha
        simp only [Bool.and_eq_true, decide_eq_true_eq]
        rcases List.mem_append.1 ha with hA | hS
        · obtain ⟨x, hx, rfl⟩ := List.mem_map.1 hA
          rintro ⟨hp, -⟩
          exact hAfail x hx hp
        · rcases List.mem_cons.1 hS with rfl | hB
          · rintro ⟨-, hq⟩
            exact hQj hq
          · rintro ⟨-, hq⟩
            exact E.highOk_up_neg hQj ((List.pairwise_cons.1 hsortS).1 a hB) hq

lemma pred_climb_exit {t : RBTree} {node y : Nat}
    (h : ¬(y ≠ t.nil ∧ node = (t.heap y).left)) :
    ∀ f, gc_rb_tree_pred_climb t f node y = y := by
  intro f
  cases f with
  | zero => rfl
  | succ f2 => rw [gc_rb_tree_pred_climb, if_neg h]

set_option maxHeartbeats 1000000 in
/-- Central predecessor lemma, the mirror of succ_chain: successive
reverse in-order ids are linked by gc_rb_tree_predecessor and the first
in-order id climbs out to C. -/
lemma pred_chain (t : RBTree) :
    ∀ (ft : ITree) (pid C n0 : Nat),
      okAt t.heap t.nil pid ft = true →
      ft.ids.Nodup →
      (∀ f, n0 ≤ f → gc_rb_tree_pred_climb t f (ft.rootId t.nil) pid = C) →
      n0 + ft.ids.length + 1 ≤ t.next →
      List.Chain' (fun a b => gc_rb_tree_predecessor t a = b) ft.ids.reverse ∧
      (ft.ids ≠ [] →
        gc_rb_tree_predecessor t ft.ids.headI = if C ≠ t.nil then C else 0) := by
  intro ft
  induction ft with
  | leaf =>
    intro pid C n0 _ _ _ _
    exact ⟨List.chain'_nil, fun h => absurd rfl h⟩
  | node i c l d r ihl ihr =>
    intro pid C n0 hok hnd hC hfuel
    rw [okAt_node] at hok
    obtain ⟨hine, hi0, _, _, hleft, hright, hpar, hokl, hokr⟩ := hok
    rw [ids_node] at hnd hfuel ⊢
    rw [List.nodup_append] at hnd
    obtain ⟨hndl, hndr2, hdisj⟩ := hnd
    have hndr : r.ids.Nodup := (List.nodup_cons.1 hndr2).2
    -- climbing out of a non-empty right subtree lands on i
    have hCr : r ≠ ITree.leaf →
        ∀ f, gc_rb_tree_pred_climb t f (r.rootId t.nil) i = i := by
      intro hrnl f
      refine pred_climb_exit ?_ f
      rintro ⟨-, habs⟩
      rw [hleft] at habs
      cases hl : l with
      | leaf =>
        rw [hl] at habs
        exact rootId_ne_nil hokr hrnl habs
      | node li lc ll ld lr =>
        have h1 : r.rootId t.nil ∈ l.ids := by
          rw [habs, hl]
          exact rootId_mem (by simp)
        have h2 : r.rootId t.nil ∈ i :: r.ids :=
          List.mem_cons_of_mem i (rootId_mem hrnl)
        exact hdisj h1 h2
    -- climbing out of the left subtree continues from (i, pid), giving C
    have hCl : ∀ f, n0 + 1 ≤ f → gc_rb_tree_pred_climb t f (l.rootId t.nil) i = C := by
      intro f hf
      obtain ⟨f2, rfl⟩ : ∃ f2, f = f2 + 1 := ⟨f - 1, by omega⟩
      rw [gc_rb_tree_pred_climb, if_pos ⟨hine, hleft.symm⟩, hpar]
      exact hC f2 (by omega)
    -- chain on the reversed right part
    have hchr : List.Chain' (fun a b => gc_rb_tree_predecessor t a = b) r.ids.reverse := by
      cases hr : r with
      | leaf => simp [ITree.ids]
      | node ri rc rl rd rr =>
        rw [← hr]
        exact (ihr i i 0 hokr hndr (fun f _ => hCr (by rw [hr]; simp) f)
          (by simp only [List.length_append, List.length_cons] at hfuel; omega)).1
    -- the first element of a non-empty right part has predecessor i
    have hfirstr : r.ids ≠ [] → gc_rb_tree_predecessor t r.ids.headI = i := by
      intro hrne
      have hrnl : r ≠ ITree.leaf := by
        intro habs
        rw [habs] at hrne
        exact hrne rfl
      have := (ihr i i 0 hokr hndr (fun f _ => hCr hrnl f)
        (by simp only [List.length_append, List.length_cons] at hfuel; omega)).2 hrne
      rw [this, if_pos hine]
    -- predecessor of i when the left subtree is non-empty
    have hpredl : l ≠ ITree.leaf → gc_rb_tree_predecessor t i = l.ids.getLastD 0 := by
      intro hlnl
      rw [gc_rb_tree_predecessor, hleft, if_pos (rootId_ne_nil hokl hlnl)]
      exact maximum_go_spec t l i t.next hokl hlnl (by
        simp only [List.length_append, List.length_cons] at hfuel
        omega)
    -- chain on the reversed left part
    have hchl : List.Chain' (fun a b => gc_rb_tree_predecessor t a = b) l.ids.reverse := by
      cases hl : l with
      | leaf => simp [ITree.ids]
      | node li lc ll ld lr =>
        rw [← hl]
        exact (ihl i C (n0 + 1) hokl hndl hCl
          (by simp only [List.length_append, List.length_cons] at hfuel; omega)).1
    have hrevshape : (l.ids ++ i :: r.ids).reverse = r.ids.reverse ++ i :: l.ids.reverse := by
      simp [List.reverse_append]
    constructor
    · rw [hrevshape, List.chain'_append]
      refine ⟨hchr, ?_, ?_⟩
      · rw [List.chain'_cons']
        refine ⟨?_, hchl⟩
        intro b hb
        cases hl : l with
        | leaf => rw [hl] at hb; simp [ITree.ids] at hb
        | node li lc ll ld lr =>
          rw [hpredl (by rw [hl]; simp)]
          rw [List.head?_reverse] at hb
          rw [List.getLastD_eq_getLast?]
          rw [Option.mem_def] at hb
          rw [hl] at hb ⊢
          rw [hb]
          rfl
      · intro x hx b hb
        simp only [List.head?_cons, Option.mem_def, Option.some.injEq] at hb
        subst hb
        have hrne : r.ids ≠ [] := by
          intro habs
          rw [List.getLast?_reverse] at hx
          rw [habs] at hx
          simp at hx
        have hxval : x = r.ids.headI := by
          rw [List.getLast?_reverse] at hx
          rw [Option.mem_def] at hx
          cases hr2 : r.ids with
          | nil => exact absurd hr2 hrne
          | cons hd tl =>
            rw [hr2] at hx
            simp only [List.head?_cons, Option.some.injEq] at hx
            exact hx.symm
        rw [hxval]
        exact hfirstr hrne
    · intro _
      cases hl : l with
      | leaf =>
        show gc_rb_tree_predecessor t i = _
        rw [gc_rb_tree_predecessor, hleft, hl]
        simp only [ITree.rootId, ne_eq, not_true_eq_false, if_false]
        rw [hpar]
        have hCi : gc_rb_tree_pred_climb t t.next i pid = C := hC t.next (by omega)
        rw [hCi]
      | node li lc ll ld lr =>
        rw [headI_append_of_ne (by simp [ids_node]), ← hl]
        refine (ihl i C (n0 + 1) hokl hndl hCl
          (by simp only [List.length_append, List.length_cons] at hfuel; omega)).2 ?_
        rw [hl]
        simp [ids_node]

lemma treeWf_pred_chain {t : RBTree} {ft : ITree} (h : TreeWf t ft) :
    List.Chain' (fun a b => gc_rb_tree_predecessor t a = b) ft.ids.reverse ∧
    (ft.ids ≠ [] → gc_rb_tree_predecessor t ft.ids.headI = 0) := by
  have hC : ∀ f, 0 ≤ f → gc_rb_tree_pred_climb t f (ft.rootId t.nil) t.nil = t.nil :=
    fun f _ => pred_climb_exit (by simp) f
  have hlen := h.ids_len
  have hmain := pred_chain t ft t.nil t.nil 0 h.ok h.nodup hC (by omega)
  refine ⟨hmain.1, fun hne => ?_⟩
  rw [hmain.2 hne]
  simp

set_option maxHeartbeats 1000000 in
/-- The descent loop of gc_rb_tree_upper_bound on a strictly sorted
subtree, under strict-weak-order comparator laws and for any
inclusivity setting: either no payload passes the high-bound test and
the loop returns its accumulator, or the in-order ids split around the
last node whose payload passes and the loop returns that node. -/
lemma upper_bound_go_split (t : RBTree) (cmp : Nat → Nat → Int) (E : CmpLawsEq cmp)
    (hcmp : t.cmp = cmp) (key incl : Nat) :
    ∀ (ft : ITree) (pid fuel res : Nat),
      okAt t.heap t.nil pid ft = true →
      ft.ids.length < fuel →
      ft.dataList.Pairwise (fun a b => cmp a b < 0) →
      ((∀ j ∈ ft.ids, ¬(cmp ((t.heap j).data) key < 0 ∨
          (incl ≠ 0 ∧ cmp ((t.heap j).data) key = 0))) ∧
        gc_rb_tree_upper_bound_go t key incl fuel (ft.rootId t.nil) res = res) ∨
      (∃ A j B, ft.ids = A ++ j :: B ∧
        (∀ a ∈ B, ¬(cmp ((t.heap a).data) key < 0 ∨
          (incl ≠ 0 ∧ cmp ((t.heap a).data) key = 0))) ∧
        (cmp ((t.heap j).data) key < 0 ∨ (incl ≠ 0 ∧ cmp ((t.heap j).data) key = 0)) ∧
        gc_rb_tree_upper_bound_go t key incl fuel (ft.rootId t.nil) res = j) := by
  intro ft
  induction ft with
  | leaf =>
    intro pid fuel res _ _ _
    left
    refine ⟨by simp [ITree.ids], ?_⟩
    cases fuel with
    | zero => rfl
    | succ f =>
      show gc_rb_tree_upper_bound_go t key incl (f + 1) t.nil res = res
      rw [gc_rb_tree_upper_bound_go, if_neg (by simp)]
  | node i c l dd r ihl ihr =>
    intro pid fuel res hok hfuel hsort
    rw [okAt_node] at hok
    obtain ⟨hine, hi0, hic, hidata, hileft, hiright, hipar, hokl, hokr⟩ := hok
    rw [ids_node, List.length_append, List.length_cons] at hfuel
    rw [dataList_node, List.pairwise_append] at hsort
    obtain ⟨hsL, hsR0, hcross⟩ := hsort
    have hsR : r.dataList.Pairwise (fun a b => cmp a b < 0) := (List.pairwise_cons.1 hsR0).2
    have hddR := (List.pairwise_cons.1 hsR0).1
    obtain ⟨f, rfl⟩ : ∃ f, fuel = f + 1 := ⟨fuel - 1, by omega⟩
    have hstep : gc_rb_tree_upper_bound_go t key incl (f + 1)
        ((ITree.node i c l dd r).rootId t.nil) res =
        if t.cmp ((t.heap i).data) key < 0 ∨
            (incl ≠ 0 ∧ t.cmp ((t.heap i).data) key = 0) then
          gc_rb_tree_upper_bound_go t key incl f ((t.heap i).right) i
        else
          gc_rb_tree_upper_bound_go t key incl f ((t.heap i).left) res := by
      show gc_rb_tree_upper_bound_go t key incl (f + 1) i res = _
      rw [gc_rb_tree_upper_bound_go, if_pos hine]
    by_cases hP : cmp dd key < 0 ∨ (incl ≠ 0 ∧ cmp dd key = 0)
    · rw [hstep, if_pos (by rw [hcmp, hidata]; exact hP), hiright] at *
      rcases ihr i f i hokr (by omega) hsR with ⟨hall, heq⟩ |
        ⟨A, j, B, hsplit, hB, hPj, heq⟩
      · right
        refine ⟨l.ids, i, r.ids, by rw [ids_node], hall, by rw [hidata]; exact hP, heq⟩
      · right
        refine ⟨l.ids ++ i :: A, j, B, ?_, hB, hPj, heq⟩
        rw [ids_node, hsplit]
        simp [List.append_assoc]
    · have hrfail : ∀ a ∈ r.ids, ¬(cmp ((t.heap a).data) key < 0 ∨
          (incl ≠ 0 ∧ cmp ((t.heap a).data) key = 0)) := by
        intro a ha
        have hdmem : (t.heap a).data ∈ r.dataList := by
          rw [dataList_eq_map hokr]
          exact List.mem_map_of_mem _ ha
        exact E.highOk_up_neg hP (hddR _ hdmem)
      rw [hstep, if_neg (by rw [hcmp, hidata]; exact hP), hileft] at *
      rcases ihl i f res hokl (by omega) hsL with ⟨hall, heq⟩ |
        ⟨A, j, B, hsplit, hB, hPj, heq⟩
      · left
        refine ⟨?_, heq⟩
        intro j hj
        rw [ids_node] at hj
        rcases List.mem_append.1 hj with h | h
        · exact hall j h
        · rcases List.mem_cons.1 h with rfl | h2
          · rw [hidata]
            exact hP
          · exact hrfail j h2
      · right
        refine ⟨A, j, B ++ i :: r.ids, ?_, ?_, hPj, heq⟩
        · rw [ids_node, hsplit]
          simp [List.append_assoc]
        · intro a ha
          rcases List.mem_append.1 ha with h | h
          · exact hB a h
          · rcases List.mem_cons.1 h with rfl | h2
            · rw [hidata]
              exact hP
            · exact hrfail a h2

/-- gc_rb_tree_upper_bound on a strictly sorted well-formed tree, for
any inclusivity setting: NULL (0) when no payload passes the high-bound
test, otherwise the last node (in symmetric order) whose payload
does. -/
lemma upper_bound_split (t : RBTree) (cmp : Nat → Nat → Int) (E : CmpLawsEq cmp)
    (hcmp : t.cmp = cmp) (key incl : Nat) (ft : ITree) (hwf : TreeWf t ft)
    (hsort : ft.dataList.Pairwise (fun a b => cmp a b < 0)) :
    ((∀ a ∈ ft.dataList, ¬(cmp a key < 0 ∨ (incl ≠ 0 ∧ cmp a key = 0))) ∧
      gc_rb_tree_upper_bound t key incl = 0) ∨
    (∃ A j B, ft.ids = A ++ j :: B ∧
      (∀ a ∈ B, ¬(cmp ((t.heap a).data) key < 0 ∨
        (incl ≠ 0 ∧ cmp ((t.heap a).data) key = 0))) ∧
      (cmp ((t.heap j).data) key < 0 ∨ (incl ≠ 0 ∧ cmp ((t.heap j).data) key = 0)) ∧
      j ≠ t.nil ∧ j ≠ 0 ∧
      gc_rb_tree_upper_bound t key incl = j) := by
  have hlen := hwf.ids_len
  rcases upper_bound_go_split t cmp E hcmp key incl ft t.nil t.next t.nil hwf.ok
      (by omega) hsort with ⟨hall, heq⟩ | ⟨A, j, B, hsplit, hB, hPj, heq⟩
  · left
    refine ⟨?_, ?_⟩
    · intro a ha
      rw [dataList_eq_map hwf.ok] at ha
      obtain ⟨j, hj, rfl⟩ := List.mem_map.1 ha
      exact hall j hj
    · rw [gc_rb_tree_upper_bound, hwf.root_eq, heq, if_neg (by simp)]
  · right
    have hjid : j ∈ ft.ids := by
      rw [hsplit]
      simp
    have hjne := okAt_ids_ne hwf.ok j hjid
    refine ⟨A, j, B, hsplit, hB, hPj, hjne.1, hjne.2, ?_⟩
    rw [gc_rb_tree_upper_bound, hwf.root_eq, heq, if_pos hjne.1]

/-- gc_rb_tree_iterator_range_valid on a reverse iterator, with the
record fields spelled out. -/
lemma range_valid_rev (t : RBTree) (j low high flags : Nat) :
    gc_rb_tree_iterator_range_valid
      { tree := t, current := j, low := low, high := high, flags := flags, reverse := true } =
      (if j = 0 ∨ j = t.nil then false
      else if (t.heap j).data = 0 then false
      else
        if (if low ≠ 0 then t.cmp ((t.heap j).data) low else 1) < 0 ∨
            (Nat.land flags GC_RB_RANGE_INCLUSIVE_LOW = 0 ∧
              (if low ≠ 0 then t.cmp ((t.heap j).data) low else 1) = 0) then false
        else true) := rfl

/-- gc_rb_tree_iterator_range_next on a reverse iterator with a live
current node, with the record fields spelled out. -/
lemma range_next_rev (t : RBTree) (j low high flags : Nat) (hj0 : j ≠ 0) :
    gc_rb_tree_iterator_range_next
      { tree := t, current := j, low := low, high := high, flags := flags, reverse := true } =
      (if gc_rb_tree_predecessor t j = 0 then
        { tree := t, current := 0, low := low, high := high, flags := flags, reverse := true }
      else if t.cmp ((t.heap (gc_rb_tree_predecessor t j)).data) low < 0 ∨
          (Nat.land flags GC_RB_RANGE_INCLUSIVE_LOW = 0 ∧
            t.cmp ((t.heap (gc_rb_tree_predecessor t j)).data) low = 0) then
        { tree := t, current := 0, low := low, high := high, flags := flags, reverse := true }
      else
        { tree := t, current := gc_rb_tree_predecessor t j, low := low, high := high,
          flags := flags, reverse := true }) := by
  rw [gc_rb_tree_iterator_range_next, if_neg hj0]
  rfl

set_option maxHeartbeats 1000000 in
/-- The reverse range walk along a predecessor chain, for any
inclusivity flags: with a non-NULL low bound and nonzero payloads, the
collected payloads are the longest prefix of the chain that passes the
flag-respecting low-bound test. -/
lemma rangeCollect_suffix_rev (t : RBTree) (cmp : Nat → Nat → Int) (hcmp : t.cmp = cmp)
    (low high flags : Nat) (hl0 : low ≠ 0) :
    ∀ (S : List Nat) (fuel : Nat),
      List.Chain' (fun a b => gc_rb_tree_predecessor t a = b) S →
      (S ≠ [] → gc_rb_tree_predecessor t (S.getLastD 0) = 0) →
      (∀ j ∈ S, j ≠ 0 ∧ j ≠ t.nil ∧ (t.heap j).data ≠ 0) →
      S.length ≤ fuel →
      rangeCollectLoop fuel
        { tree := t, current := S.headI, low := low, high := high, flags := flags,
          reverse := true } =
        (S.map (fun j => (t.heap j).data)).takeWhile
          (fun a => decide (cmp a low > 0 ∨
            (Nat.land flags GC_RB_RANGE_INCLUSIVE_LOW ≠ 0 ∧ cmp a low = 0))) := by
  intro S
  induction S with
  | nil =>
    intro fuel _ _ _ _
    rw [show ([] : List Nat).headI = 0 from rfl, rangeCollect_current_zero]
    rfl
  | cons j B ih =>
    intro fuel hch hlast hfacts hfuel
    obtain ⟨hj0, hjnil, hjd0⟩ := hfacts j (by simp)
    obtain ⟨f, rfl⟩ : ∃ f, fuel = f + 1 := ⟨fuel - 1, by simp at hfuel; omega⟩
    rw [List.headI_cons]
    by_cases hQ : cmp ((t.heap j).data) low > 0 ∨
        (Nat.land flags GC_RB_RANGE_INCLUSIVE_LOW ≠ 0 ∧ cmp ((t.heap j).data) low = 0)
    · have hvalid : gc_rb_tree_iterator_range_valid
          { tree := t, current := j, low := low, high := high, flags := flags,
            reverse := true } = true := by
        rw [range_valid_rev, if_neg (by simp [hj0, hjnil]), if_neg hjd0, if_pos hl0, hcmp,
          if_neg (by omega)]
      rw [rangeCollectLoop, if_pos (by rw [hvalid]),
        range_data_live t j low high flags true hj0 hjnil, range_next_rev t j low high flags hj0]
      cases B with
      | nil =>
        have hs0 : gc_rb_tree_predecessor t j = 0 := by simpa using hlast (by simp)
        rw [if_pos hs0, rangeCollect_current_zero, List.map_cons, List.map_nil,
          List.takeWhile_cons, if_pos (decide_eq_true hQ)]
        rfl
      | cons b B2 =>
        have hsb : gc_rb_tree_predecessor t j = b := (List.chain'_cons.1 hch).1
        obtain ⟨hb0, hbnil, hbd0⟩ := hfacts b (by simp)
        rw [hsb, if_neg hb0]
        by_cases hQb : cmp ((t.heap b).data) low > 0 ∨
            (Nat.land flags GC_RB_RANGE_INCLUSIVE_LOW ≠ 0 ∧ cmp ((t.heap b).data) low = 0)
        · rw [if_neg (by rw [hcmp]; omega)]
          have hlast2 : b :: B2 ≠ [] → gc_rb_tree_predecessor t ((b :: B2).getLastD 0) = 0 := by
            intro _
            have h2 := hlast (by simp)
            rw [List.getLastD_cons, getLastD_of_ne (by simp) j 0] at h2
            exact h2
          have hrec := ih f (List.chain'_cons.1 hch).2 hlast2
            (fun x hx => hfacts x (by simp [hx]))
            (by simp only [List.length_cons] at hfuel ⊢; omega)
          rw [List.headI_cons] at hrec
          rw [hrec]
          conv_rhs => rw [List.map_cons, List.takeWhile_cons, if_pos (decide_eq_true hQ)]
        · rw [if_pos (by rw [hcmp]; omega), rangeCollect_current_zero]
          conv_rhs => rw [List.map_cons, List.takeWhile_cons, if_pos (decide_eq_true hQ),
            List.map_cons, List.takeWhile_cons,
            if_neg (show ¬(decide (cmp ((t.heap b).data) low > 0 ∨
              (Nat.land flags GC_RB_RANGE_INCLUSIVE_LOW ≠ 0 ∧
                cmp ((t.heap b).data) low = 0)) = true) by simpa using hQb)]
    · have hvalid : gc_rb_tree_iterator_range_valid
          { tree := t, current := j, low := low, high := high, flags := flags,
            reverse := true } = false := by
        rw [range_valid_rev, if_neg (by simp [hj0, hjnil]), if_neg hjd0, if_pos hl0, hcmp,
          if_pos (by omega)]
      rw [rangeCollectLoop, if_neg (by rw [hvalid]; simp), List.map_cons,
        List.takeWhile_cons,
        if_neg (show ¬(decide (cmp ((t.heap j).data) low > 0 ∨
          (Nat.land flags GC_RB_RANGE_INCLUSIVE_LOW ≠ 0 ∧
            cmp ((t.heap j).data) low = 0)) = true) by simpa using hQ)]

/-- gc_rb_tree_iterator_range_rbegin on a nonempty tree, with the
upper-bound result given a name. -/
lemma range_rbegin_char (t : RBTree) (low high flags cval : Nat)
    (hroot : ¬t.root = t.nil)
    (hc : gc_rb_tree_upper_bound t high (Nat.land flags GC_RB_RANGE_INCLUSIVE_HIGH) = cval) :
    gc_rb_tree_iterator_range_rbegin t low high flags =
      { tree := t,
        current :=
          if cval ≠ 0 then
            if t.cmp ((t.heap cval).data) low < 0 ∨
                (Nat.land flags GC_RB_RANGE_INCLUSIVE_LOW = 0 ∧
                  t.cmp ((t.heap cval).data) low = 0) then 0 else cval
          else cval,
        low := low, high := high, flags := flags, reverse := true } := by
  rw [gc_rb_tree_iterator_range_rbegin, if_neg hroot, hc]

set_option maxHeartbeats 1000000 in
/-- Reverse direction: on a well-formed strictly sorted tree with
non-NULL payloads and a non-NULL low bound, the reverse range walk
lists exactly the reverse of the in-order traversal filtered by the
flag-respecting boundary predicate. -/
theorem range_rev_equiv_filtered (t : RBTree) (ft : ITree) (cmp : Nat → Nat → Int)
    (E : CmpLawsEq cmp) (low high flags : Nat) (hwf : TreeWf t ft) (hcmp : t.cmp = cmp)
    (hsort : ft.dataList.Pairwise (fun a b => cmp a b < 0))
    (hdata0 : ∀ a ∈ ft.dataList, a ≠ 0)
    (hl0 : low ≠ 0) :
    rangeCollectLoop t.next (gc_rb_tree_iterator_range_rbegin t low high flags) =
      ((inorderSuccWalk t t.next (gc_rb_tree_min t)).filter
        (fun a => decide (cmp a low > 0 ∨
            (Nat.land flags GC_RB_RANGE_INCLUSIVE_LOW ≠ 0 ∧ cmp a low = 0)) &&
          decide (cmp a high < 0 ∨
            (Nat.land flags GC_RB_RANGE_INCLUSIVE_HIGH ≠ 0 ∧ cmp a high = 0)))).reverse := by
  rw [treeWf_inorder_walk hwf]
  by_cases hroot : t.root = t.nil
  · have hft : ft = ITree.leaf := by
      cases hft2 : ft with
      | leaf => rfl
      | node i c l dd r =>
        exfalso
        have h1 := hwf.root_eq
        rw [hft2] at h1
        have h2 := rootId_ne_nil (hft2 ▸ hwf.ok) (by simp)
        rw [← h1] at h2
        exact h2 hroot
    rw [gc_rb_tree_iterator_range_rbegin, if_pos hroot, rangeCollect_current_zero, hft]
    rfl
  · rcases upper_bound_split t cmp E hcmp high (Nat.land flags GC_RB_RANGE_INCLUSIVE_HIGH) ft
        hwf hsort with ⟨hallQ, hub⟩ | ⟨A, j, B, hids, hBfail, hQj, hjnil, hj0, hub⟩
    · rw [range_rbegin_char t low high flags 0 hroot hub, if_neg (by simp),
        rangeCollect_current_zero]
      symm
      rw [List.reverse_eq_nil_iff]
      apply List.filter_eq_nil.2
      intro a ha
      simp only [Bool.and_eq_true, decide_eq_true_eq]
      rintro ⟨-, hq⟩
      exact hallQ a ha hq
    · have hdlmap : ft.dataList = (A.map fun x => (t.heap x).data) ++
          ((t.heap j).data :: (B.map fun x => (t.heap x).data)) := by
        rw [dataList_eq_map hwf.ok, hids]
        simp
      have hsortsplit := hdlmap ▸ hsort
      rw [List.pairwise_append] at hsortsplit
      obtain ⟨hsortA, hsortS, hcrossAS⟩ := hsortsplit
      have hQA : ∀ a ∈ (A.map fun x => (t.heap x).data),
          cmp a high < 0 ∨
            (Nat.land flags GC_RB_RANGE_INCLUSIVE_HIGH ≠ 0 ∧ cmp a high = 0) := by
        intro a ha
        exact E.highOk_down hQj (hcrossAS a ha _ (by simp))
      rw [range_rbegin_char t low high flags j hroot hub, if_pos hj0, hcmp]
      by_cases hPj : cmp ((t.heap j).data) low > 0 ∨
          (Nat.land flags GC_RB_RANGE_INCLUSIVE_LOW ≠ 0 ∧ cmp ((t.heap j).data) low = 0)
      · rw [if_neg (by omega)]
        have hchain := (treeWf_pred_chain hwf).1
        rw [hids] at hchain
        have hshape : (A ++ j :: B).reverse = B.reverse ++ j :: A.reverse := by
          simp [List.reverse_append]
        rw [hshape] at hchain
        have hchainS : List.Chain' (fun a b => gc_rb_tree_predecessor t a = b)
            (j :: A.reverse) := (List.chain'_append.1 hchain).2.1
        have hgl : (j :: A.reverse).getLastD 0 = (A ++ j :: B).headI := by
          cases hA : A with
          | nil => rfl
          | cons a A2 =>
            rw [List.getLastD_cons,
              show (a :: A2).reverse = A2.reverse ++ a :: [] from by simp,
              getLastD_of_ne (by simp) j 0]
            rw [getLastD_append_cons]
            rfl
        have hlastS : (j :: A.reverse) ≠ [] →
            gc_rb_tree_predecessor t ((j :: A.reverse).getLastD 0) = 0 := by
          intro _
          have h2 := (treeWf_pred_chain hwf).2 (by rw [hids]; simp)
          rw [hids] at h2
          rw [hgl]
          exact h2
        have hfactsS : ∀ x ∈ j :: A.reverse, x ≠ 0 ∧ x ≠ t.nil ∧ (t.heap x).data ≠ 0 := by
          intro x hx
          have hxids : x ∈ ft.ids := by
            rw [hids]
            rcases List.mem_cons.1 hx with rfl | hx2
            · simp
            · exact List.mem_append_left _ (List.mem_reverse.1 hx2)
          have hne := okAt_ids_ne hwf.ok x hxids
          have hdm : (t.heap x).data ∈ ft.dataList := by
            rw [dataList_eq_map hwf.ok]
            exact List.mem_map_of_mem _ hxids
          exact ⟨hne.2, hne.1, hdata0 _ hdm⟩
        have hlen := hwf.ids_len
        have hfuelS : (j :: A.reverse).length ≤ t.next := by
          rw [hids, List.length_append] at hlen
          simp only [List.length_cons, List.length_reverse]
          omega
        have hwalk := rangeCollect_suffix_rev t cmp hcmp low high flags hl0 (j :: A.reverse)
          t.next hchainS hlastS hfactsS hfuelS
        rw [List.headI_cons] at hwalk
        rw [hwalk, hdlmap, List.filter_append]
        have hfB : (((t.heap j).data :: B.map fun x => (t.heap x).data).filter
            (fun a => decide (cmp a low > 0 ∨
                (Nat.land flags GC_RB_RANGE_INCLUSIVE_LOW ≠ 0 ∧ cmp a low = 0)) &&
              decide (cmp a high < 0 ∨
                (Nat.land flags GC_RB_RANGE_INCLUSIVE_HIGH ≠ 0 ∧ cmp a high = 0)))) =
            [(t.heap j).data] := by
          rw [List.filter_cons_of_pos (by
            simp only [Bool.and_eq_true, decide_eq_true_eq]
            exact ⟨hPj, hQj⟩)]
          have hBnil : ((B.map fun x => (t.heap x).data).filter
              (fun a => decide (cmp a low > 0 ∨
                  (Nat.land flags GC_RB_RANGE_INCLUSIVE_LOW ≠ 0 ∧ cmp a low = 0)) &&
                decide (cmp a high < 0 ∨
                  (Nat.land flags GC_RB_RANGE_INCLUSIVE_HIGH ≠ 0 ∧ cmp a high = 0)))) = [] := by
            apply List.filter_eq_nil.2
            intro a ha
            obtain ⟨x, hx, rfl⟩ := List.mem_map.1 ha
            simp only [Bool.and_eq_true, decide_eq_true_eq]
            rintro ⟨-, hq⟩
            exact hBfail x hx hq
          rw [hBnil]
        have hfA : ((A.map fun x => (t.heap x).data).filter
            (fun a => decide (cmp a low > 0 ∨
                (Nat.land flags GC_RB_RANGE_INCLUSIVE_LOW ≠ 0 ∧ cmp a low = 0)) &&
              decide (cmp a high < 0 ∨
                (Nat.land flags GC_RB_RANGE_INCLUSIVE_HIGH ≠ 0 ∧ cmp a high = 0)))) =
            ((A.map fun x => (t.heap x).data).filter
              (fun a => decide (cmp a low > 0 ∨
                (Nat.land flags GC_RB_RANGE_INCLUSIVE_LOW ≠ 0 ∧ cmp a low = 0)))) := by
          apply List.filter_congr
          intro a ha
          simp [hQA a ha]
        rw [hfB, hfA, List.reverse_append]
        have htw : ((A.map fun x => (t.heap x).data).filter
            (fun a => decide (cmp a low > 0 ∨
              (Nat.land flags GC_RB_RANGE_INCLUSIVE_LOW ≠ 0 ∧ cmp a low = 0)))).reverse =
            ((A.map fun x => (t.heap x).data).reverse.takeWhile
              (fun a => decide (cmp a low > 0 ∨
                (Nat.land flags GC_RB_RANGE_INCLUSIVE_LOW ≠ 0 ∧ cmp a low = 0)))) := by
          rw [← List.filter_reverse]
          exact filter_eq_takeWhile_sorted
            (fun a b hab hPb => by
              simp only [decide_eq_true_eq] at hPb ⊢
              exact E.lowOk_up hPb hab)
            (List.pairwise_reverse.2 (hsortA.imp (fun hab => hab)))
        rw [htw, List.map_cons, List.map_reverse]
        conv_lhs => rw [List.takeWhile_cons, if_pos (decide_eq_true hPj)]
        simp
      · rw [if_pos (by omega), rangeCollect_current_zero]
        symm
        rw [List.reverse_eq_nil_iff]
        apply List.filter_eq_nil.2
        rw [hdlmap]
        intro a ha
        simp only [Bool.and_eq_true, decide_eq_true_eq]
        rcases List.mem_append.1 ha with hA | hS
        · obtain ⟨x, hx, rfl⟩ := List.mem_map.1 hA
          rintro ⟨hp, -⟩
          exact E.lowOk_down hPj (hcrossAS _ hA _ (by simp)) hp
        · rcases List.mem_cons.1 hS with rfl | hB
          · rintro ⟨hp, -⟩
            exact hPj hp
          · obtain ⟨x, hx, rfl⟩ := List.mem_map.1 hB
            rintro ⟨-, hq⟩
            exact hBfail x hx hq

lemma CmpLaws.refl_zero {cmp : Nat → Nat → Int} (L : CmpLaws cmp) (a : Nat) : cmp a a = 0 := by
  have := L.asym a a
  omega

lemma modCmp_laws : CmpLaws modCmp := by
  constructor
  · intro a b
    simp only [modCmp, intCmp]
    split_ifs <;> omega
  · intro a b c h1 h2
    simp only [modCmp, intCmp] at h1 h2 ⊢
    split_ifs at h1 h2 ⊢ <;> omega

set_option maxHeartbeats 1000000 in
/-- The descent of gc_rb_tree_search on a strictly sorted subtree: a key
that ties with some stored payload is routed to a node storing a tying
payload, and a key that ties with no payload runs into the sentinel. -/
lemma search_go_spec (t : RBTree) (cmp : Nat → Nat → Int) (L : CmpLaws cmp)
    (hcmp : t.cmp = cmp) (key : Nat) :
    ∀ (ft : ITree) (pid fuel : Nat),
      okAt t.heap t.nil pid ft = true →
      ft.ids.length < fuel →
      ft.dataList.Pairwise (fun a b => cmp a b < 0) →
      ((∃ a, a ∈ ft.dataList ∧ cmp key a = 0) →
        ∃ j, j ∈ ft.ids ∧ (t.heap j).data ∈ ft.dataList ∧ cmp key ((t.heap j).data) = 0 ∧
          gc_rb_tree_search_go t key fuel (ft.rootId t.nil) = j) ∧
      ((∀ a ∈ ft.dataList, cmp key a ≠ 0) →
        gc_rb_tree_search_go t key fuel (ft.rootId t.nil) = t.nil) := by
  intro ft
  induction ft with
  | leaf =>
    intro pid fuel _ hfuel _
    constructor
    · rintro ⟨a, ha, -⟩
      simp [ITree.dataList] at ha
    · intro _
      obtain ⟨f, rfl⟩ : ∃ f, fuel = f + 1 := ⟨fuel - 1, by omega⟩
      show gc_rb_tree_search_go t key (f + 1) t.nil = t.nil
      rw [gc_rb_tree_search_go, if_neg (by simp)]
  | node i c l dd r ihl ihr =>
    intro pid fuel hok hfuel hsort
    rw [okAt_node] at hok
    obtain ⟨hine, hi0, hic, hidata, hileft, hiright, hipar, hokl, hokr⟩ := hok
    rw [ids_node, List.length_append, List.length_cons] at hfuel
    rw [dataList_node, List.pairwise_append] at hsort
    obtain ⟨hsL, hsR0, hcross⟩ := hsort
    have hsR := (List.pairwise_cons.1 hsR0).2
    have hddR := (List.pairwise_cons.1 hsR0).1
    obtain ⟨f, rfl⟩ : ∃ f, fuel = f + 1 := ⟨fuel - 1, by omega⟩
    have hstep : gc_rb_tree_search_go t key (f + 1) ((ITree.node i c l dd r).rootId t.nil) =
        if t.cmp key ((t.heap i).data) = 0 then i
        else if t.cmp key ((t.heap i).data) < 0 then
          gc_rb_tree_search_go t key f ((t.heap i).left)
        else gc_rb_tree_search_go t key f ((t.heap i).right) := by
      show gc_rb_tree_search_go t key (f + 1) i = _
      rw [gc_rb_tree_search_go, if_pos hine]
    rw [hstep, hcmp, hidata, hileft, hiright]
    constructor
    · rintro ⟨a, ha, htie⟩
      rw [dataList_node] at ha
      by_cases h0 : cmp key dd = 0
      · rw [if_pos h0]
        exact ⟨i, by rw [ids_node]; simp, by rw [hidata, dataList_node]; simp,
          by rw [hidata]; exact h0, rfl⟩
      · rw [if_neg h0]
        by_cases hlt : cmp key dd < 0
        · rw [if_pos hlt]
          have hal : a ∈ l.dataList := by
            rcases List.mem_append.1 ha with hL | hR
            · exact hL
            · exfalso
              rcases List.mem_cons.1 hR with rfl | hR2
              · exact h0 htie
              · have h1 := hddR a hR2
                have h2 := L.lt_trans key dd a hlt h1
                omega
          obtain ⟨j, hj, hjm, hjt, hjeq⟩ := (ihl i f hokl (by omega) hsL).1 ⟨a, hal, htie⟩
          exact ⟨j, by rw [ids_node]; simp [hj], by rw [dataList_node]; simp [hjm], hjt, hjeq⟩
        · rw [if_neg hlt]
          have hgt : cmp key dd > 0 := by omega
          have har : a ∈ r.dataList := by
            rcases List.mem_append.1 ha with hL | hR
            · exfalso
              have h1 := hcross a hL dd (by simp)
              have h2 := (L.asym dd key).2 hgt
              have h3 := L.lt_trans a dd key h1 h2
              have h4 := (L.asym a key).1 h3
              omega
            · rcases List.mem_cons.1 hR with rfl | hR2
              · exact absurd htie h0
              · exact hR2
          obtain ⟨j, hj, hjm, hjt, hjeq⟩ := (ihr i f hokr (by omega) hsR).1 ⟨a, har, htie⟩
          exact ⟨j, by rw [ids_node]; simp [hj], by rw [dataList_node]; simp [hjm], hjt, hjeq⟩
    · intro hnone
      have h0 : cmp key dd ≠ 0 := hnone dd (by rw [dataList_node]; simp)
      rw [if_neg h0]
      by_cases hlt : cmp key dd < 0
      · rw [if_pos hlt]
        exact (ihl i f hokl (by omega) hsL).2
          (fun a ha => hnone a (by rw [dataList_node]; simp [ha]))
      · rw [if_neg hlt]
        exact (ihr i f hokr (by omega) hsR).2
          (fun a ha => hnone a (by rw [dataList_node]; simp [ha]))

end WfLemmas

section Claims

/-- C1 (code_bug evidence).  The spec promises that validate returns
GC_RB_TREE_OK after every insert/delete in any sequence under a total
order comparator, and documents that inserting two equal payloads yields
a valid tree; but after inserting the payload 5 twice (a legal sequence,
ties are deliberately retained and descend right) gc_rb_tree_validate
returns GC_RB_TREE_ERR_BST, because the validator demands strict
inequality between a node and its equal right child. -/
theorem c1_duplicate_insert_fails_validate :
    gc_rb_tree_validate (some (insertAll (gc_rb_tree_create intCmp) [5, 5])) =
      GC_RB_TREE_ERR_BST := by decide

/-- C6 (code_bug evidence).  Inserting a payload equal (under the
comparator) to a stored payload is not rejected: a fresh node is
allocated (the allocation counter grows by one), the tie descends right
(the new node 3 becomes the right child of the equal node 2, and the
in-order walk now lists the payload twice), but the resulting tree is
NOT valid: gc_rb_tree_validate reports GC_RB_TREE_ERR_BST, contradicting
the claim (and the spec text) that the result is a valid tree. -/
theorem c6_duplicate_insert_goes_right_but_invalid :
    ((gc_rb_tree_insert (insertAll (gc_rb_tree_create intCmp) [5]) 5).next =
        (insertAll (gc_rb_tree_create intCmp) [5]).next + 1) ∧
    ((gc_rb_tree_insert (insertAll (gc_rb_tree_create intCmp) [5]) 5).heap 2).right = 3 ∧
    ((gc_rb_tree_insert (insertAll (gc_rb_tree_create intCmp) [5]) 5).heap 3).data = 5 ∧
    inorderSuccWalk (gc_rb_tree_insert (insertAll (gc_rb_tree_create intCmp) [5]) 5)
        (gc_rb_tree_insert (insertAll (gc_rb_tree_create intCmp) [5]) 5).next
        (gc_rb_tree_min (gc_rb_tree_insert (insertAll (gc_rb_tree_create intCmp) [5]) 5)) =
      [5, 5] ∧
    gc_rb_tree_validate (some (gc_rb_tree_insert (insertAll (gc_rb_tree_create intCmp) [5]) 5)) =
      GC_RB_TREE_ERR_BST := by decide

/-- C9 (confirmed).  gc_rb_tree_delete is a no-op both on a NULL tree and
when handed the sentinel node: the tree is returned unchanged and the
free_data destructor is never invoked (the destructor-invocation list is
empty). -/
theorem c9_delete_null_tree_or_sentinel_is_noop :
    (∀ n : Nat, gc_rb_tree_delete none n = (none, [])) ∧
    (∀ t : RBTree, gc_rb_tree_delete (some t) t.nil = (some t, [])) := by
  refine ⟨fun n => rfl, fun t => ?_⟩
  simp [gc_rb_tree_delete]

/-- C10 (confirmed).  If the search for key k lands on a real node whose
stored payload is the NULL pointer, gc_rb_tree_find returns 0, which is
exactly its not-found marker: in the very same tree an absent key ka also
makes find return 0, while gc_rb_tree_search still distinguishes the two
(a real node versus the sentinel). -/
theorem c10_find_conflates_null_payload_with_absence
    (t : RBTree) (k ka : Nat)
    (hfound : gc_rb_tree_search t k ≠ t.nil)
    (hnull : (t.heap (gc_rb_tree_search t k)).data = 0)
    (habsent : gc_rb_tree_search t ka = t.nil) :
    gc_rb_tree_find t k = 0 ∧ gc_rb_tree_find t ka = 0 := by
  constructor
  · simp [gc_rb_tree_find, hfound, hnull]
  · simp [gc_rb_tree_find, habsent]

/-- Witness for C10 at a concrete input: one node storing the NULL
payload (inserted as insert(tree, NULL)); key 0 hits that node, key 7 is
absent, and find returns 0 for both. -/
theorem c10_witness :
    gc_rb_tree_find (insertAll (gc_rb_tree_create intCmp) [0]) 0 = 0 ∧
    gc_rb_tree_find (insertAll (gc_rb_tree_create intCmp) [0]) 7 = 0 :=
  c10_find_conflates_null_payload_with_absence
    (insertAll (gc_rb_tree_create intCmp) [0]) 0 7
    (by decide) (by decide) (by decide)

/-- C5 (counterexample).  The claim says that whenever some node has a
payload in its left subtree that does not compare strictly below it,
gc_rb_tree_validate reports a BST violation.  In the concrete tree T5 the
payload 20 lies in the left subtree of the root payload 10 (and compares
strictly above it), yet gc_rb_tree_validate returns GC_RB_TREE_OK: the
validator only compares each node with its immediate children. -/
theorem c5_counterexample_deep_violation_undetected :
    20 ∈ subtreeData T5 T5.next ((T5.heap T5.root).left) ∧
    intCmp 20 ((T5.heap T5.root).data) ≥ 0 ∧
    gc_rb_tree_validate (some T5) = GC_RB_TREE_OK := by decide

/-- C8 (counterexample).  With both bounds NULL and both inclusivity
flags set, the forward range iterator on a one-element tree (payload 5,
integer comparator) is exhausted immediately: the walk produces the empty
list although the full in-order sequence is [5].  The comparator IS
applied to the NULL bound: gc_rb_tree_lower_bound compares every payload
against the NULL key and the high-bound checks in range_begin/range_next
do the same, so nothing survives the bound checks. -/
theorem c8_counterexample_null_bounds_walk_empty :
    rangeCollectLoop (insertAll (gc_rb_tree_create intCmp) [5]).next
        (gc_rb_tree_iterator_range_begin (insertAll (gc_rb_tree_create intCmp) [5]) 0 0
          (Nat.lor GC_RB_RANGE_INCLUSIVE_LOW GC_RB_RANGE_INCLUSIVE_HIGH)) = [] ∧
    inorderSuccWalk (insertAll (gc_rb_tree_create intCmp) [5])
        (insertAll (gc_rb_tree_create intCmp) [5]).next
        (gc_rb_tree_min (insertAll (gc_rb_tree_create intCmp) [5])) = [5] := by decide

/-- C7 (counterexample).  The claim says the two filter variants agree on
the result-buffer convention including the terminating NULL marker; on a
one-element tree with an always-true predicate gc_rb_tree_filter returns
the buffer [5, 0] (payload plus NULL terminator) while
gc_rb_tree_filter_with_da returns [5]: the growable-buffer variant does
not append the terminator. -/
theorem c7_counterexample_missing_terminator :
    gc_rb_tree_filter (insertAll (gc_rb_tree_create intCmp) [5]) (fun _ _ => 1) 0 =
      (some [5, 0], 1) ∧
    gc_rb_tree_filter_with_da (insertAll (gc_rb_tree_create intCmp) [5]) (fun _ _ => 1) 0 =
      (some [5], 1) := by decide

/-- C7 (amended).  For every tree, predicate and user context the two
filter variants return the same out_count, agree on whether any buffer is
returned at all, and collect the same matching payloads in the same
ascending order; the only observable difference is the terminator:
gc_rb_tree_filter's buffer is gc_rb_tree_filter_with_da's buffer with the
NULL marker appended. -/
theorem c7_filter_variants_agree_except_terminator
    (t : RBTree) (pred : Nat → Nat → Int) (ud : Nat) :
    (gc_rb_tree_filter t pred ud).2 = (gc_rb_tree_filter_with_da t pred ud).2 ∧
    ((gc_rb_tree_filter t pred ud).1 = none ↔ (gc_rb_tree_filter_with_da t pred ud).1 = none) ∧
    (∀ l : List Nat, (gc_rb_tree_filter_with_da t pred ud).1 = some l →
      (gc_rb_tree_filter t pred ud).1 = some (l ++ [0])) := by
  unfold gc_rb_tree_filter gc_rb_tree_filter_with_da
  by_cases hroot : t.root = t.nil
  · simp [hroot]
  · simp only [hroot, if_false]
    rw [filterDaLoop_eq, filterCountLoop_eq_length]
    simp only [List.nil_append]
    by_cases hzero : (filterCollectLoop pred ud t.next (gc_rb_tree_iterator_begin t)).length = 0
    · simp [hzero]
    · simp only [hzero, if_false]
      refine ⟨trivial, by simp, ?_⟩
      intro l hl
      simp only [Option.some.injEq] at hl
      rw [hl]

/-- Witness for C7's amended theorem at a concrete input. -/
theorem c7_witness :
    (gc_rb_tree_filter (insertAll (gc_rb_tree_create intCmp) [5, 9]) (fun _ _ => 1) 0).1 =
      some ([5, 9] ++ [0]) :=
  (c7_filter_variants_agree_except_terminator
      (insertAll (gc_rb_tree_create intCmp) [5, 9]) (fun _ _ => 1) 0).2.2 [5, 9] (by decide)

/-- C5 (amended).  gc_rb_tree_validate does flag every immediate
parent/child order violation: whenever the stored tree holds a node with
an immediate left child not comparing strictly below it, or an immediate
right child not comparing strictly above it, validate returns a non-OK
status (the deep-violation counterexample shows this immediate check is
all it does). -/
theorem c5_immediate_child_violation_detected (t : RBTree) (ft : ITree)
    (hwf : TreeWf t ft) (hviol : hasViol t.cmp ft = true) :
    gc_rb_tree_validate (some t) ≠ GC_RB_TREE_OK := by
  cases hft : ft with
  | leaf =>
    rw [hft] at hviol
    simp [hasViol] at hviol
  | node i c l d r =>
    rw [hft] at hwf hviol
    have hok := hwf.ok
    rw [okAt_node] at hok
    obtain ⟨hinil, hi0, h3, h4, h5, h6, h7, h8, h9⟩ := hok
    have hri : t.root = i := hwf.root_eq
    simp only [gc_rb_tree_validate]
    rw [if_neg (by
      rw [hri]
      push_neg
      exact ⟨hi0, hwf.nil_ne⟩)]
    rw [if_neg (by rw [hwf.nil_black]; simp)]
    rw [hri]
    have hmain := validate_rec_viol t (ITree.node i c l d r) t.nil t.next 0 hwf.ok
      (by have := hwf.ids_len; omega) hviol
    simp only [ITree.rootId] at hmain
    rw [if_neg (fun hc => hmain.2 hc.2)]
    exact hmain.2

/-- Witness for C5: the concrete two-node heap T5b (root 10 with right
child 5) has an immediate violation and validate rejects it. -/
theorem c5_witness :
    (TreeWf T5b T5bIT ∧ hasViol T5b.cmp T5bIT = true) ∧
    gc_rb_tree_validate (some T5b) ≠ GC_RB_TREE_OK := by
  have hwf : TreeWf T5b T5bIT :=
    ⟨by decide, by decide, by decide, by decide, by decide, by decide, by decide,
      by decide, by decide⟩
  exact ⟨⟨hwf, by decide⟩,
    c5_immediate_child_violation_detected T5b T5bIT hwf (by decide)⟩

/-- C8 (amended).  A forward both-inclusive range iterator with both
bounds NULL does not visit the full ascending sequence: because
range_begin applies the comparator to the NULL high bound, on every
well-formed tree whose stored payloads compare strictly greater than the
NULL pointer the whole walk is empty, whatever fuel the collection loop
is given. -/
theorem c8_null_bounds_walk_empty_for_positive_comparators
    (t : RBTree) (ft : ITree) (fuel : Nat)
    (hwf : TreeWf t ft)
    (hord : ∀ d0 ∈ ft.dataList, t.cmp d0 0 > 0) :
    rangeCollectLoop fuel
      (gc_rb_tree_iterator_range_begin t 0 0
        (Nat.lor GC_RB_RANGE_INCLUSIVE_LOW GC_RB_RANGE_INCLUSIVE_HIGH)) = [] := by
  have hcur := range_begin_null_bounds_dead t ft hwf hord
  cases fuel with
  | zero => rfl
  | succ m =>
    have hval : gc_rb_tree_iterator_range_valid
        (gc_rb_tree_iterator_range_begin t 0 0
          (Nat.lor GC_RB_RANGE_INCLUSIVE_LOW GC_RB_RANGE_INCLUSIVE_HIGH)) = false := by
      simp only [gc_rb_tree_iterator_range_valid]
      rw [if_pos (Or.inl hcur)]
    simp only [rangeCollectLoop]
    rw [hval]
    simp

/-- Witness for C8: the one-element tree built by inserting 5 under the
integer comparator has a strictly positive payload, and its NULL-bounds
walk is empty. -/
theorem c8_witness :
    (∀ d0 ∈ (ITree.node 2 Color.black ITree.leaf 5 ITree.leaf).dataList,
        (insertAll (gc_rb_tree_create intCmp) [5]).cmp d0 0 > 0) ∧
    rangeCollectLoop (insertAll (gc_rb_tree_create intCmp) [5]).next
      (gc_rb_tree_iterator_range_begin (insertAll (gc_rb_tree_create intCmp) [5]) 0 0
        (Nat.lor GC_RB_RANGE_INCLUSIVE_LOW GC_RB_RANGE_INCLUSIVE_HIGH)) = [] := by
  have hwf : TreeWf (insertAll (gc_rb_tree_create intCmp) [5])
      (ITree.node 2 Color.black ITree.leaf 5 ITree.leaf) :=
    ⟨by decide, by decide, by decide, by decide, by decide, by decide, by decide,
      by decide, by decide⟩
  exact ⟨by decide,
    c8_null_bounds_walk_empty_for_positive_comparators _ _ _ hwf (by decide)⟩

/-- C2: for every comparator satisfying the strict-total-order laws and
every list of pairwise-distinct keys (no comparator ties), inserting the
keys into a tree from gc_rb_tree_create and then walking from
gc_rb_tree_min by repeated gc_rb_tree_successor yields exactly those
keys, in strictly ascending comparator order. -/
theorem c2_inorder_traversal_of_distinct_keys_sorted (cmp : Nat → Nat → Int) (L : CmpLaws cmp) (keys : List Nat)
    (hdist : keys.Pairwise (fun a b => cmp a b ≠ 0)) :
    (inorderSuccWalk (insertAll (gc_rb_tree_create cmp) keys)
        (insertAll (gc_rb_tree_create cmp) keys).next
        (gc_rb_tree_min (insertAll (gc_rb_tree_create cmp) keys))).Perm keys ∧
    (inorderSuccWalk (insertAll (gc_rb_tree_create cmp) keys)
        (insertAll (gc_rb_tree_create cmp) keys).next
        (gc_rb_tree_min (insertAll (gc_rb_tree_create cmp) keys))).Pairwise
      (fun a b => cmp a b < 0) := by
  obtain ⟨ft2, hwf2, hcm2, hsort2, hperm2⟩ :=
    insertAll_spec cmp L keys (gc_rb_tree_create cmp) ITree.leaf (treeWf_create cmp) rfl
      List.Pairwise.nil (fun i c l dd r h => by cases h)
      (fun k _ a ha => absurd ha (by simp [ITree.dataList])) hdist
  rw [treeWf_inorder_walk hwf2]
  refine ⟨?_, hsort2⟩
  simpa [ITree.dataList] using hperm2

/-- Witness for C2: inserting 30, 10, 20 under the integer comparator,
the min/successor walk is a permutation of the keys and strictly
ascending. -/
theorem c2_witness :
    (CmpLaws intCmp ∧ [30, 10, 20].Pairwise (fun a b => intCmp a b ≠ 0)) ∧
    ((inorderSuccWalk (insertAll (gc_rb_tree_create intCmp) [30, 10, 20])
        (insertAll (gc_rb_tree_create intCmp) [30, 10, 20]).next
        (gc_rb_tree_min (insertAll (gc_rb_tree_create intCmp) [30, 10, 20]))).Perm
      [30, 10, 20] ∧
    (inorderSuccWalk (insertAll (gc_rb_tree_create intCmp) [30, 10, 20])
        (insertAll (gc_rb_tree_create intCmp) [30, 10, 20]).next
        (gc_rb_tree_min (insertAll (gc_rb_tree_create intCmp) [30, 10, 20]))).Pairwise
      (fun a b => intCmp a b < 0)) :=
  ⟨⟨intCmp_laws, by decide⟩, c2_inorder_traversal_of_distinct_keys_sorted intCmp intCmp_laws [30, 10, 20] (by decide)⟩

/-- Counterexample for C3 as claimed: payload 15 was never inserted into
Tc3 (the tree only ever received payload 5), yet gc_rb_tree_find returns
the stored payload 5 rather than the not-found marker, because 15 and 5
compare equal under modCmp — membership follows the comparator, not the
insert history. -/
theorem c3_counterexample_equal_key_found :
    gc_rb_tree_find Tc3 15 = 5 ∧ (5 : Nat) ≠ 0 := by decide

/-- C3 (amended).  The original claim said search and find locate the
inserted key itself; Tc3 refutes that literal reading, since the
never-inserted key 15 is found.  Amended: on a well-formed strictly
sorted tree, lookup goes by comparator equivalence.  Whenever the query
key ties some stored payload under the comparator - even a key that was
never inserted - gc_rb_tree_search returns a real node (neither NULL
nor the sentinel) whose stored payload ties the key, and
gc_rb_tree_find returns that stored payload; when the key ties no
stored payload, search returns the sentinel (never NULL) and find
returns NULL. -/
theorem c3_search_find_follow_comparator_equivalence (t : RBTree) (ft : ITree) (cmp : Nat → Nat → Int) (L : CmpLaws cmp)
    (k : Nat) (hwf : TreeWf t ft) (hcmp : t.cmp = cmp)
    (hsort : ft.dataList.Pairwise (fun a b => cmp a b < 0)) :
    ((∃ a, a ∈ ft.dataList ∧ cmp k a = 0) →
      ∃ a, a ∈ ft.dataList ∧ cmp k a = 0 ∧
        gc_rb_tree_search t k ≠ 0 ∧ gc_rb_tree_search t k ≠ t.nil ∧
        (t.heap (gc_rb_tree_search t k)).data = a ∧ gc_rb_tree_find t k = a) ∧
    ((∀ a ∈ ft.dataList, cmp k a ≠ 0) →
      gc_rb_tree_search t k = t.nil ∧ gc_rb_tree_search t k ≠ 0 ∧
      gc_rb_tree_find t k = 0) := by
  have hlen := hwf.ids_len
  have hmain := search_go_spec t cmp L hcmp k ft t.nil t.next hwf.ok (by omega) hsort
  constructor
  · intro hk
    obtain ⟨j, hj, hjm, hjt, hjeq⟩ := hmain.1 hk
    have hsearch : gc_rb_tree_search t k = j := by
      rw [gc_rb_tree_search, hwf.root_eq]
      exact hjeq
    have hjne := okAt_ids_ne hwf.ok j hj
    refine ⟨(t.heap j).data, hjm, hjt, by rw [hsearch]; exact hjne.2,
      by rw [hsearch]; exact hjne.1, by rw [hsearch], ?_⟩
    rw [gc_rb_tree_find, hsearch, if_pos hjne.1]
  · intro hnone
    have hsearch : gc_rb_tree_search t k = t.nil := by
      rw [gc_rb_tree_search, hwf.root_eq]
      exact hmain.2 hnone
    refine ⟨hsearch, by rw [hsearch]; exact hwf.nil_ne, ?_⟩
    rw [gc_rb_tree_find, hsearch, if_neg (by simp)]


/-- Witness for C3: the one-node tree Tc3 under the mod-10 comparator.
The never-inserted key 15 ties the stored payload 5 and is found, while
the key 3 ties nothing, so search hits the sentinel and find is NULL. -/
theorem c3_witness :
    (TreeWf Tc3 FT3 ∧ CmpLaws modCmp ∧
      FT3.dataList.Pairwise (fun a b => modCmp a b < 0) ∧
      (∃ a, a ∈ FT3.dataList ∧ modCmp 15 a = 0) ∧
      (∀ a ∈ FT3.dataList, modCmp 3 a ≠ 0)) ∧
    ((∃ a, a ∈ FT3.dataList ∧ modCmp 15 a = 0 ∧
        gc_rb_tree_search Tc3 15 ≠ 0 ∧ gc_rb_tree_search Tc3 15 ≠ Tc3.nil ∧
        (Tc3.heap (gc_rb_tree_search Tc3 15)).data = a ∧ gc_rb_tree_find Tc3 15 = a) ∧
      (gc_rb_tree_search Tc3 3 = Tc3.nil ∧ gc_rb_tree_search Tc3 3 ≠ 0 ∧
        gc_rb_tree_find Tc3 3 = 0)) :=
  ⟨⟨⟨by decide, by decide, by decide, by decide, by decide, by decide, by decide, by decide,
      by decide⟩,
    modCmp_laws, by decide, ⟨5, by decide⟩, by decide⟩,
    ⟨(c3_search_find_follow_comparator_equivalence Tc3 FT3 modCmp modCmp_laws 15
        ⟨by decide, by decide, by decide, by decide, by decide, by decide, by decide, by decide,
          by decide⟩
        rfl (by decide)).1 ⟨5, by decide⟩,
      (c3_search_find_follow_comparator_equivalence Tc3 FT3 modCmp modCmp_laws 3
        ⟨by decide, by decide, by decide, by decide, by decide, by decide, by decide, by decide,
          by decide⟩
        rfl (by decide)).2 (by decide)⟩⟩

/-- Counterexample for C4 as claimed: under wrapCmp the NULL payload 0
lies strictly inside the inclusive range [3, 1], so the boundary
predicate keeps it, but gc_rb_tree_iterator_range_valid treats a NULL
payload as invalid and the walk stops at once, collecting nothing. -/
theorem c4_counterexample_null_payload_missed :
    rangeCollectLoop Tc4b.next (gc_rb_tree_iterator_range_begin Tc4b 3 1 3) = [] ∧
    (inorderSuccWalk Tc4b Tc4b.next (gc_rb_tree_min Tc4b)).filter
      (fun a => decide (wrapCmp a 3 ≥ 0) && decide (wrapCmp a 1 ≤ 0)) = [0] := by
  decide

/-- C4 (amended).  The original claim fails for NULL payloads (the
counterexample); amended: on a well-formed strictly sorted tree whose
payloads are all non-NULL, with non-NULL bounds and a comparator
satisfying the strict-weak-order laws, the forward range walk equals
the inorder traversal filtered by the flag-respecting boundary
predicate (strictly inside a bound, or tying it when the matching
inclusivity flag is set), and the reverse range walk equals the reverse
of that same filtered traversal - for every choice of bounds and
flags. -/
theorem c4_range_iterator_matches_filtered_traversal (t : RBTree) (ft : ITree) (cmp : Nat → Nat → Int) (E : CmpLawsEq cmp)
    (low high flags : Nat) (hwf : TreeWf t ft) (hcmp : t.cmp = cmp)
    (hsort : ft.dataList.Pairwise (fun a b => cmp a b < 0))
    (hdata0 : ∀ a ∈ ft.dataList, a ≠ 0)
    (hl0 : low ≠ 0) (hh0 : high ≠ 0) :
    rangeCollectLoop t.next (gc_rb_tree_iterator_range_begin t low high flags) =
      (inorderSuccWalk t t.next (gc_rb_tree_min t)).filter
        (fun a => decide (cmp a low > 0 ∨
            (Nat.land flags GC_RB_RANGE_INCLUSIVE_LOW ≠ 0 ∧ cmp a low = 0)) &&
          decide (cmp a high < 0 ∨
            (Nat.land flags GC_RB_RANGE_INCLUSIVE_HIGH ≠ 0 ∧ cmp a high = 0))) ∧
    rangeCollectLoop t.next (gc_rb_tree_iterator_range_rbegin t low high flags) =
      ((inorderSuccWalk t t.next (gc_rb_tree_min t)).filter
        (fun a => decide (cmp a low > 0 ∨
            (Nat.land flags GC_RB_RANGE_INCLUSIVE_LOW ≠ 0 ∧ cmp a low = 0)) &&
          decide (cmp a high < 0 ∨
            (Nat.land flags GC_RB_RANGE_INCLUSIVE_HIGH ≠ 0 ∧ cmp a high = 0)))).reverse :=
  ⟨range_fwd_equiv_filtered t ft cmp E low high flags hwf hcmp hsort hdata0 hh0,
    range_rev_equiv_filtered t ft cmp E low high flags hwf hcmp hsort hdata0 hl0⟩

/-- Witness for C4: the three-key tree Tc4 with tying bounds 10 and 30
and both inclusivity flags set; the walk keeps both tying endpoints. -/
theorem c4_witness :
    (TreeWf Tc4 FT4 ∧ CmpLawsEq intCmp ∧
      FT4.dataList.Pairwise (fun a b => intCmp a b < 0) ∧
      (∀ a ∈ FT4.dataList, a ≠ 0) ∧ (10 : Nat) ≠ 0 ∧ (30 : Nat) ≠ 0) ∧
    (rangeCollectLoop Tc4.next (gc_rb_tree_iterator_range_begin Tc4 10 30 3) =
      (inorderSuccWalk Tc4 Tc4.next (gc_rb_tree_min Tc4)).filter
        (fun a => decide (intCmp a 10 > 0 ∨
            (Nat.land 3 GC_RB_RANGE_INCLUSIVE_LOW ≠ 0 ∧ intCmp a 10 = 0)) &&
          decide (intCmp a 30 < 0 ∨
            (Nat.land 3 GC_RB_RANGE_INCLUSIVE_HIGH ≠ 0 ∧ intCmp a 30 = 0))) ∧
    rangeCollectLoop Tc4.next (gc_rb_tree_iterator_range_rbegin Tc4 10 30 3) =
      ((inorderSuccWalk Tc4 Tc4.next (gc_rb_tree_min Tc4)).filter
        (fun a => decide (intCmp a 10 > 0 ∨
            (Nat.land 3 GC_RB_RANGE_INCLUSIVE_LOW ≠ 0 ∧ intCmp a 10 = 0)) &&
          decide (intCmp a 30 < 0 ∨
            (Nat.land 3 GC_RB_RANGE_INCLUSIVE_HIGH ≠ 0 ∧ intCmp a 30 = 0)))).reverse) :=
  ⟨⟨⟨by decide, by decide, by decide, by decide, by decide, by decide, by decide, by decide,
      by decide⟩,
    intCmp_lawsEq, by decide, by decide, by decide, by decide⟩,
    c4_range_iterator_matches_filtered_traversal Tc4 FT4 intCmp intCmp_lawsEq 10 30 3
      ⟨by decide, by decide, by decide, by decide, by decide, by decide, by decide, by decide,
        by decide⟩
      rfl (by decide) (by decide) (by decide) (by decide)⟩

end Claims
